import Mathlib

/-!
# Flexprice: wallet ledger, entitlement aggregation, wallet builder, currencies, MCP adapter, templates

A shallow embedding of the parts of the billing platform that the specification
talks about, followed by the theorems that settle each claim.

* `WalletLedger` : the prepaid wallet ledger (spec §3, §4.1, §5, §6, §7).  The ledger
  operations are not among the source files; they are modelled from the spec.
* `decimal`      : the division of `shopspring/decimal` that the usage summary needs.
* `dto`          : `internal/api/dto/customer_entitlement.go` and the aggregation
  rules of spec §4.3 / §4.4.
* `ent`          : `ent/wallet_create.go`, the generated wallet builder.
* `types`        : `internal/types/currency.go`.
* `mcp`          : `internal/mcp`, the OpenAPI-to-tool adapter.
* `filepath`     : the functions of `path/filepath` that the template compiler calls.
* `typst`        : `internal/typst/typst.go` and `internal/pdf/service.go`.
-/

set_option autoImplicit false

/-- Arbitrary-precision decimal amounts (`decimal.Decimal` of shopspring/decimal), taken as
exact rationals; the values a `decimal.Decimal` can hold are those of `decimal.IsDecimal`,
which sums, differences and products of such values stay in. -/
abbrev Decimal := ℚ

/-! ## Wallet ledger (spec §3, §4.1, §7) -/

namespace WalletLedger

/-- Modelled from the spec: the `wallet_status` values of §3, `active`, `frozen`, `closed`.
The Go type behind them is not among the source files. -/
inductive WalletStatus where
  | active
  | frozen
  | closed
  deriving DecidableEq, Repr

/-- Modelled from the spec: the error taxonomy of §7.  The Go error values are not among
the source files. -/
inductive LedgerError where
  | ErrWalletNotActive
  | ErrWalletClosed
  | ErrCurrencyMismatch
  | ErrInsufficientBalance
  | ErrInvalidConversionRate
  | ErrConcurrentModification
  | ErrFeatureNotFound
  deriving DecidableEq, Repr

/-- Modelled from the spec: the ledger's view of a wallet (§3), the fields that `Debit`
reads or writes.  The domain type is not among the source files. -/
structure Wallet where
  id : String
  currency : String
  balance : Decimal
  credit_balance : Decimal
  conversion_rate : Decimal
  wallet_status : WalletStatus
  deriving DecidableEq

/-- Modelled from the spec: the precondition checks of `Debit` (§4.1, §7), which is not
among the source files.  "Any operation on `closed` fails `ErrWalletClosed`", then
"fails `ErrWalletNotActive` if status ≠ active; fails `ErrCurrencyMismatch` if currencies
differ; fails `ErrInsufficientBalance` if `balance < amount`", in the order the spec lists
them.  `none` means every check passed. -/
def debitCheck (w : Wallet) (amount : Decimal) (currency : String) : Option LedgerError :=
  if w.wallet_status = WalletStatus.closed then some LedgerError.ErrWalletClosed
  else if w.wallet_status ≠ WalletStatus.active then some LedgerError.ErrWalletNotActive
  else if currency ≠ w.currency then some LedgerError.ErrCurrencyMismatch
  else if w.balance < amount then some LedgerError.ErrInsufficientBalance
  else none

/-- Modelled from the spec: the mutation a successful `Debit` commits (§4.1),
`balance -= amount` and `credit_balance -= amount*conversion_rate`. -/
def applyDebit (w : Wallet) (amount : Decimal) : Wallet :=
  { w with
    balance := w.balance - amount
    credit_balance := w.credit_balance - amount * w.conversion_rate }

/-- Modelled from the spec: `Debit(walletID, amount, currency) → error` of §4.1 run on the
stored wallet `w`, which is not among the source files.  The result is the stored wallet
after the call and the error, if any; a failed check is "surfaced immediately with no
partial mutation" (§7). -/
def Debit (w : Wallet) (amount : Decimal) (currency : String) : Wallet × Option LedgerError :=
  match debitCheck w amount currency with
  | some e => (w, some e)
  | none => (applyDebit w amount, none)

/-- A closed USD wallet holding 50. -/
def closedWallet : Wallet :=
  { id := "w1", currency := "USD", balance := 50, credit_balance := 50,
    conversion_rate := 1, wallet_status := WalletStatus.closed }

/-- An active USD wallet holding 50, with two credits per dollar. -/
def activeWallet : Wallet :=
  { id := "w1", currency := "USD", balance := 50, credit_balance := 100,
    conversion_rate := 2, wallet_status := WalletStatus.active }

/-! ### Concurrent callers (spec §4.1, §5, §6, §7)

`Debit` is a read-modify-write against the persistence collaborator: `LoadWallet`, the
checks, then `SaveWallet` with the version read, retried on `ErrConcurrentModification` up
to a bounded number of attempts.  Concurrent callers interleave between these two store
operations; a schedule names the caller that takes its next step. -/

/-- Modelled from the spec: the persistence collaborator's record of one wallet (§6), the
wallet with its monotonically increasing version. -/
structure Store where
  wallet : Wallet
  version : Nat
  deriving DecidableEq

/-- Modelled from the spec: `LoadWallet(id) → Wallet` (§6), the stored wallet with the
version it was read at. -/
def LoadWallet (st : Store) : Wallet × Nat :=
  (st.wallet, st.version)

/-- Modelled from the spec: `SaveWallet(Wallet, expectedVersion) → error` (§6), a
compare-and-set: `ErrConcurrentModification` on a version mismatch, otherwise the wallet is
written and the version incremented. -/
def SaveWallet (st : Store) (w : Wallet) (expectedVersion : Nat) : Store × Option LedgerError :=
  if st.version = expectedVersion then ({ wallet := w, version := st.version + 1 }, none)
  else (st, some LedgerError.ErrConcurrentModification)

/-- Modelled from the spec: where one `Debit` call stands.  `ready n`: about to load the
wallet, after `n` attempts lost to a concurrent modification; `loaded n snapshot version`:
the wallet is read, the checks and the save are next; `done r`: returned, with error `r`
(`none` is success). -/
inductive CallState where
  | ready (attempts : Nat)
  | loaded (attempts : Nat) (snapshot : Wallet) (version : Nat)
  | done (result : Option LedgerError)
  deriving DecidableEq

/-- Modelled from the spec: one `Debit(walletID, amount, currency)` call in flight. -/
structure Call where
  amount : Decimal
  currency : String
  state : CallState
  deriving DecidableEq

/-- Modelled from the spec: one step of one call against the store (§4.1, §7).  A ready
call loads; a loaded call runs `Debit` on its snapshot and returns the error of a failed
check, or saves with the version it read: on success it returns, on a conflict it retries,
and after `maxAttempts` lost attempts it returns `ErrConcurrentModification`.  A call that
has returned does nothing. -/
def stepCall (maxAttempts : Nat) (st : Store) (c : Call) : Store × Call :=
  match c.state with
  | CallState.ready n =>
    (st, { c with state := CallState.loaded n (LoadWallet st).1 (LoadWallet st).2 })
  | CallState.loaded n snapshot version =>
    match (Debit snapshot c.amount c.currency).2 with
    | some e => (st, { c with state := CallState.done (some e) })
    | none =>
      match (SaveWallet st (Debit snapshot c.amount c.currency).1 version).2 with
      | none =>
        ((SaveWallet st (Debit snapshot c.amount c.currency).1 version).1,
          { c with state := CallState.done none })
      | some _ =>
        if n + 1 < maxAttempts then (st, { c with state := CallState.ready (n + 1) })
        else (st, { c with state := CallState.done (some LedgerError.ErrConcurrentModification) })
  | CallState.done _ => (st, c)

/-- Modelled from the spec: the number of attempts one call makes.  A lost compare-and-set
is "retried on conflict" (§4.1), "retried internally by WalletLedger up to a bounded number
of attempts before surfacing to the caller" (§7): the first attempt, the retry that the
spec promises, and `moreRetries` further ones, the bound the spec leaves open. -/
def maxAttemptsOf (moreRetries : Nat) : Nat := moreRetries + 2

/-- Modelled from the spec: the store of one wallet and the calls in flight against it. -/
structure System where
  store : Store
  calls : List Call
  deriving DecidableEq

/-- The scheduler lets call `i` take one step; an index out of range changes nothing. -/
def step (maxAttempts : Nat) (sys : System) (i : Nat) : System :=
  match sys.calls[i]? with
  | none => sys
  | some c =>
    { store := (stepCall maxAttempts sys.store c).1
      calls := sys.calls.set i (stepCall maxAttempts sys.store c).2 }

/-- The system after a schedule, the sequence of callers that step, in order. -/
def run (maxAttempts : Nat) (sys : System) (schedule : List Nat) : System :=
  schedule.foldl (step maxAttempts) sys

/-- The calls arrive: the wallet at version 0 and one ready call per request. -/
def start (w : Wallet) (requests : List (Decimal × String)) : System :=
  { store := { wallet := w, version := 0 }
    calls := requests.map
      (fun r => { amount := r.1, currency := r.2, state := CallState.ready 0 }) }

/-- The call returned success. -/
def Call.succeeded (c : Call) : Bool :=
  decide (c.state = CallState.done none)

/-- The call returned. -/
def Call.returned (c : Call) : Bool :=
  match c.state with
  | CallState.done _ => true
  | _ => false

/-- The sum of the amounts of the successful debits. -/
def debited (calls : List Call) : Decimal :=
  (calls.map (fun c => if c.succeeded then c.amount else 0)).sum

/-- The results of the calls, in request order; `none` for a call still in flight. -/
def results (sys : System) : List (Option (Option LedgerError)) :=
  sys.calls.map (fun c =>
    match c.state with
    | CallState.done r => some r
    | _ => none)

/-- The ledger invariant over the calls made for `requests` against a wallet that held
`B`: the calls are the requests; the balance and the successful debits add up to `B`; the
balance is not negative; and a snapshot taken at the store's current version is the stored
wallet. -/
def LedgerInv (requests : List (Decimal × String)) (B : Decimal) (sys : System) : Prop :=
  sys.calls.map (fun c => (c.amount, c.currency)) = requests ∧
  sys.store.wallet.balance + debited sys.calls = B ∧
  0 ≤ sys.store.wallet.balance ∧
  ∀ c ∈ sys.calls, ∀ n snap v, c.state = CallState.loaded n snap v →
    v ≤ sys.store.version ∧ (v = sys.store.version → snap = sys.store.wallet)

/-- What a call's state says about the store, for an active wallet debited in its own
currency: lost attempts are matched by committed versions, a snapshot is not below the
current balance, and a returned error is either an insufficient balance that still holds or
a concurrent modification after `maxAttempts` committed versions. -/
def CallInv (maxAttempts : Nat) (st : Store) (c : Call) : Prop :=
  match c.state with
  | CallState.ready n => n ≤ st.version
  | CallState.loaded n snap v =>
    n ≤ v ∧ st.wallet.balance ≤ snap.balance ∧
      snap.wallet_status = WalletStatus.active ∧ snap.currency = c.currency
  | CallState.done none => True
  | CallState.done (some e) =>
    (e = LedgerError.ErrInsufficientBalance ∧ st.wallet.balance < c.amount) ∨
      (e = LedgerError.ErrConcurrentModification ∧ maxAttempts ≤ st.version)

/-- The invariant behind the retry bound: the wallet is active, every call debits a
positive amount in the wallet's currency, the version counts the successful debits, and
every call satisfies `CallInv`. -/
def RetryInv (maxAttempts : Nat) (sys : System) : Prop :=
  sys.store.wallet.wallet_status = WalletStatus.active ∧
  (∀ c ∈ sys.calls, c.currency = sys.store.wallet.currency ∧ 0 < c.amount) ∧
  sys.store.version = sys.calls.countP Call.succeeded ∧
  ∀ c ∈ sys.calls, CallInv maxAttempts sys.store c

/-- The steps a call can still take: two per attempt left, none once it has returned. -/
def fuel (maxAttempts : Nat) (c : Call) : Nat :=
  match c.state with
  | CallState.ready n => 2 * (maxAttempts - n)
  | CallState.loaded n _ _ => 2 * (maxAttempts - n) - 1
  | CallState.done _ => 0

/-- The fuel of the call at index `i`, zero when there is none. -/
def fuelAt (maxAttempts : Nat) (sys : System) (i : Nat) : Nat :=
  match sys.calls[i]? with
  | some c => fuel maxAttempts c
  | none => 0

/-- A call in flight has lost fewer than `maxAttempts` attempts. -/
def AttemptsOK (maxAttempts : Nat) (c : Call) : Prop :=
  match c.state with
  | CallState.ready n => n < maxAttempts
  | CallState.loaded n _ _ => n < maxAttempts
  | CallState.done _ => True

end WalletLedger

/-! ## Decimals (`shopspring/decimal`) -/

namespace decimal

/-- The values a `decimal.Decimal` field such as `UsagePercent`
(customer_entitlement.go:97-98) can hold: an integer coefficient times a power of ten. -/
def IsDecimal (q : ℚ) : Prop := ∃ (n : Int) (k : Nat), q = (n : ℚ) / 10 ^ k

/-- Rounding to the nearest integer, a half away from zero. -/
def roundHalfAway (q : ℚ) : Int :=
  if 0 ≤ q then ⌊q + 1 / 2⌋ else -⌊-q + 1 / 2⌋

/-- `Decimal.DivRound` of shopspring/decimal: the quotient rounded to `precision` decimal
places, a half away from zero. -/
def DivRound (d d2 : Decimal) (precision : Nat) : Decimal :=
  (roundHalfAway (d / d2 * 10 ^ precision) : ℚ) / 10 ^ precision

/-- `Decimal.Div` of shopspring/decimal: `DivRound` to `decimal.DivisionPrecision` places, a
variable of the library (16 unless changed) that is taken as a parameter. -/
def Div (DivisionPrecision : Nat) (d d2 : Decimal) : Decimal :=
  DivRound d d2 DivisionPrecision

end decimal

/-! ## Entitlement aggregation (`internal/api/dto/customer_entitlement.go`, spec §4.3, §4.4) -/

namespace dto

/-- The feature types that spec §4.3 gives a combination rule for; in
`internal/types/feature.go` they are the string constants `FeatureTypeMetered`,
`FeatureTypeBoolean` and `FeatureTypeStatic`. -/
inductive FeatureType where
  | metered
  | boolean
  | static
  deriving DecidableEq, Repr

/-- `AggregatedEntitlement` (customer_entitlement.go:47-54).  `UsageLimit` is `*int64` in the
source, `none` being the nil pointer and the values those of `InInt64`; `UsageResetPeriod`
is a `types.BillingPeriod` string. -/
structure AggregatedEntitlement where
  IsEnabled : Bool
  UsageLimit : Option Int
  IsSoftLimit : Bool
  UsageResetPeriod : String
  StaticValues : List String
  deriving DecidableEq, Repr

/-- `EntitlementSource` (customer_entitlement.go:56-66). -/
structure EntitlementSource where
  SubscriptionID : String
  PlanID : String
  Quantity : Int
  PlanName : String
  EntitlementID : String
  IsEnabled : Bool
  UsageLimit : Option Int
  StaticValue : String
  deriving DecidableEq, Repr

/-- `FeatureUsageSummary` (customer_entitlement.go:93-102); `Feature` is kept as the feature
id it points to. -/
structure FeatureUsageSummary where
  Feature : String
  TotalLimit : Option Int
  CurrentUsage : Decimal
  UsagePercent : Decimal
  IsEnabled : Bool
  IsSoftLimit : Bool
  Sources : List EntitlementSource
  deriving DecidableEq

/-- Modelled from the spec: one row of `ListActiveSubscriptionsWithFeature` (§6), a
subscription's grant of a feature: the fields of `EntitlementSource` together with the
soft-limit flag and reset period that the rules of §4.3 read from each source.  The row
type is not among the source files. -/
structure SubscriptionEntitlementRow where
  SubscriptionID : String
  PlanID : String
  Quantity : Int
  PlanName : String
  EntitlementID : String
  IsEnabled : Bool
  UsageLimit : Option Int
  IsSoftLimit : Bool
  UsageResetPeriod : String
  StaticValue : String
  deriving DecidableEq, Repr

/-- Modelled from the spec: the provenance record kept for a row ("every source that
contributed is retained in the output", §4.3). -/
def toSource (r : SubscriptionEntitlementRow) : EntitlementSource :=
  { SubscriptionID := r.SubscriptionID, PlanID := r.PlanID, Quantity := r.Quantity,
    PlanName := r.PlanName, EntitlementID := r.EntitlementID, IsEnabled := r.IsEnabled,
    UsageLimit := r.UsageLimit, StaticValue := r.StaticValue }

/-- The least `int64` value. -/
def MinInt64 : Int := -9223372036854775808

/-- The greatest `int64` value. -/
def MaxInt64 : Int := 9223372036854775807

/-- The values an `int64` field such as `UsageLimit` (customer_entitlement.go:50,64,96) can
hold. -/
def InInt64 (x : Int) : Prop := MinInt64 ≤ x ∧ x ≤ MaxInt64

instance (x : Int) : Decidable (InInt64 x) := by
  unfold InInt64
  infer_instance

/-- Go's `int64` arithmetic: the result is taken modulo 2^64 into the `int64` range. -/
def wrapInt64 (x : Int) : Int := (x + 2 ^ 63) % 2 ^ 64 - 2 ^ 63

/-- Modelled from the spec: "`usage_limit` = sum of all sources' numeric limits, but if
any source has a nil (unlimited) limit, the aggregate limit is nil" (§4.3).  The limits and
the result are `int64` (customer_entitlement.go:50,64), so the sum is Go's `int64` sum; the
code that adds the limits is not among the source files. -/
def sumLimits : List (Option Int) → Option Int
  | [] => some 0
  | none :: _ => none
  | some l :: rest =>
    match sumLimits rest with
    | none => none
    | some t => some (wrapInt64 (l + t))

/-- Modelled from the spec: "`usage_reset_period` = taken from the first source with a
non-empty period" (§4.3); empty when no source has one. -/
def firstResetPeriod : List SubscriptionEntitlementRow → String
  | [] => ""
  | r :: rest => if r.UsageResetPeriod ≠ "" then r.UsageResetPeriod else firstResetPeriod rest

/-- Modelled from the spec: "`static_values` = deduplicated union of all non-empty
`static_value`s, preserving first-seen order" (§4.3).  `seen` holds the values already
emitted, oldest first. -/
def collectStaticValues (seen : List String) : List SubscriptionEntitlementRow → List String
  | [] => seen
  | r :: rest =>
    if r.StaticValue = "" ∨ r.StaticValue ∈ seen then collectStaticValues seen rest
    else collectStaticValues (seen ++ [r.StaticValue]) rest

/-- Modelled from the spec: the result for a feature that no subscription grants,
"`is_enabled = false`, empty limit, empty sources" (§4.3). -/
def emptyEntitlement : AggregatedEntitlement :=
  { IsEnabled := false, UsageLimit := none, IsSoftLimit := false, UsageResetPeriod := "",
    StaticValues := [] }

/-- Modelled from the spec: the combination rules of §4.3 applied to the rows collected for
one feature.  The aggregator itself (a `BillingService` method) is not among the source
files.  Returns the merged entitlement and every contributing source. -/
def aggregateSources (ft : FeatureType) (rows : List SubscriptionEntitlementRow) :
    AggregatedEntitlement × List EntitlementSource :=
  match rows with
  | [] => (emptyEntitlement, [])
  | _ :: _ =>
    let enabled := rows.any (fun r => r.IsEnabled)
    let agg : AggregatedEntitlement :=
      match ft with
      | FeatureType.boolean => { emptyEntitlement with IsEnabled := enabled }
      | FeatureType.metered =>
        { IsEnabled := enabled
          UsageLimit := sumLimits (rows.map (fun r => r.UsageLimit))
          IsSoftLimit := rows.any (fun r => r.IsSoftLimit)
          UsageResetPeriod := firstResetPeriod rows
          StaticValues := [] }
      | FeatureType.static =>
        { emptyEntitlement with
          IsEnabled := enabled
          StaticValues := collectStaticValues [] rows }
    (agg, rows.map toSource)

/-- Modelled from the spec: the optional `subscriptionFilter` of `Aggregate` (§4.3); an
empty filter keeps every row. -/
def applySubscriptionFilter (filter : List String) (rows : List SubscriptionEntitlementRow) :
    List SubscriptionEntitlementRow :=
  if filter.isEmpty then rows else rows.filter (fun r => decide (r.SubscriptionID ∈ filter))

/-- Modelled from the spec: `Aggregate(customerID, featureID, subscriptionFilter)` of §4.3
over the persistence collaborator's `ListActiveSubscriptionsWithFeature` (§6).  A data-source
error is surfaced as-is (§7); an empty row set is a result, not an error. -/
def Aggregate {ε : Type}
    (ListActiveSubscriptionsWithFeature :
      String → String → Except ε (List SubscriptionEntitlementRow))
    (ft : FeatureType) (customerID featureID : String) (subscriptionFilter : List String) :
    Except ε (AggregatedEntitlement × List EntitlementSource) :=
  match ListActiveSubscriptionsWithFeature customerID featureID with
  | Except.error e => Except.error e
  | Except.ok rows => Except.ok (aggregateSources ft (applySubscriptionFilter subscriptionFilter rows))

/-- Modelled from the spec: "`usage_percent = current_usage / total_limit` when
`total_limit` is non-nil and non-zero; when `total_limit` is nil (unlimited) or zero,
`usage_percent` is reported as zero" (§4.4), with no clamping.  The result is a
`decimal.Decimal` (customer_entitlement.go:98), so the quotient is that of `Decimal.Div`. -/
def usagePercent (DivisionPrecision : Nat) (totalLimit : Option Int)
    (currentUsage : Decimal) : Decimal :=
  match totalLimit with
  | none => 0
  | some l => if l = 0 then 0 else decimal.Div DivisionPrecision currentUsage (l : ℚ)

/-- Modelled from the spec: the summary `Summarize` builds (§4.4) from the aggregated
entitlement, its sources and the usage summed over the billing period.  The summariser
itself is not among the source files. -/
def summarize (DivisionPrecision : Nat) (featureID : String) (agg : AggregatedEntitlement)
    (sources : List EntitlementSource) (currentUsage : Decimal) : FeatureUsageSummary :=
  { Feature := featureID
    TotalLimit := agg.UsageLimit
    CurrentUsage := currentUsage
    UsagePercent := usagePercent DivisionPrecision agg.UsageLimit currentUsage
    IsEnabled := agg.IsEnabled
    IsSoftLimit := agg.IsSoftLimit
    Sources := sources }

/-- A row with the given enabled flag, limit and soft-limit flag, other fields blank. -/
def mkRow (sub : String) (enabled : Bool) (limit : Option Int) (soft : Bool) :
    SubscriptionEntitlementRow :=
  { SubscriptionID := sub, PlanID := "", Quantity := 1, PlanName := "", EntitlementID := "",
    IsEnabled := enabled, UsageLimit := limit, IsSoftLimit := soft, UsageResetPeriod := "",
    StaticValue := "" }

end dto

/-! ## The generated wallet builder (`ent/wallet_create.go`) -/

namespace ent

/-- Go `time.Time`, as an instant on an integer time line. -/
abbrev Time := Int

/-- `types.WalletConfig`, whose declaration is not among the source files: kept as the
stored blob. -/
abbrev WalletConfig := String

/-- A value handed to the SQL layer (`driver.Value`, an `interface{}`): the Go types the
builder stores, and `other` for any value of another type. -/
inductive Value where
  | str (s : String)
  | time (t : Time)
  | dec (d : Decimal)
  | json (m : List (String × String))
  | config (c : WalletConfig)
  | other (typeName : String)
  deriving DecidableEq

/-- `field.Type` of entgo, the four kinds the builder uses. -/
inductive FieldType where
  | TypeString
  | TypeTime
  | TypeJSON
  | TypeOther
  deriving DecidableEq, Repr

/-- `sqlgraph.FieldSpec`: a column, its type (`Type` in Go) and the value to store. -/
structure FieldSpec where
  Column : String
  Typ : FieldType
  Value : Option Value
  deriving DecidableEq

/-- `sqlgraph.CreateSpec`: the table, the id column and the fields set so far, in order. -/
structure CreateSpec where
  Table : String
  ID : FieldSpec
  Fields : List FieldSpec
  deriving DecidableEq

/-- `CreateSpec.SetField`: appends a field. -/
def CreateSpec.SetField (spec : CreateSpec) (column : String) (t : FieldType) (v : Value) :
    CreateSpec :=
  { spec with Fields := spec.Fields ++ [{ Column := column, Typ := t, Value := some v }] }

/-- What a failed check wraps: a required field is missing, or a field validator failed
with the given message. -/
inductive CheckFailure where
  | missingRequiredField (field : String)
  | validatorFailed (field : String) (cause : String)
  deriving DecidableEq, Repr

/-- The errors `Save` can return: `ValidationError{Name, err}`, `ConstraintError`, a driver
error passed through, and the `unexpected Wallet.ID type` error of `sqlSave`. -/
inductive Error where
  | ValidationError (Name : String) (err : CheckFailure)
  | ConstraintError (msg : String)
  | DriverError (msg : String)
  | UnexpectedIDType (typeName : String)
  deriving DecidableEq, Repr

/-- The `Wallet` entity, with the fields `createSpec` fills (lines 427-521).  A field never
assigned keeps its Go zero value. -/
structure Wallet where
  ID : String
  TenantID : String
  Status : String
  CreatedAt : Time
  UpdatedAt : Time
  CreatedBy : String
  UpdatedBy : String
  EnvironmentID : String
  Name : String
  CustomerID : String
  Currency : String
  Description : String
  Metadata : List (String × String)
  Balance : Decimal
  CreditBalance : Decimal
  WalletStatus : String
  AutoTopupTrigger : Option String
  AutoTopupMinBalance : Option Decimal
  AutoTopupAmount : Option Decimal
  WalletType : String
  ConversionRate : Decimal
  Config : WalletConfig
  deriving DecidableEq

/-- The zero-valued entity `&Wallet{config: wc.config}`. -/
def Wallet.zero : Wallet :=
  { ID := "", TenantID := "", Status := "", CreatedAt := 0, UpdatedAt := 0, CreatedBy := "",
    UpdatedBy := "", EnvironmentID := "", Name := "", CustomerID := "", Currency := "",
    Description := "", Metadata := [], Balance := 0, CreditBalance := 0, WalletStatus := "",
    AutoTopupTrigger := none, AutoTopupMinBalance := none, AutoTopupAmount := none,
    WalletType := "", ConversionRate := 0, Config := "" }

/-- `WalletMutation` as the builder sees it: each field is either unset (`none`, the getter
returns `ok = false`) or set to a value. -/
structure WalletMutation where
  id : Option String
  tenant_id : Option String
  status : Option String
  created_at : Option Time
  updated_at : Option Time
  created_by : Option String
  updated_by : Option String
  environment_id : Option String
  name : Option String
  customer_id : Option String
  currency : Option String
  description : Option String
  metadata : Option (List (String × String))
  balance : Option Decimal
  credit_balance : Option Decimal
  wallet_status : Option String
  auto_topup_trigger : Option String
  auto_topup_min_balance : Option Decimal
  auto_topup_amount : Option Decimal
  wallet_type : Option String
  conversion_rate : Option Decimal
  config : Option WalletConfig
  deriving DecidableEq

/-- A fresh mutation: nothing set. -/
def WalletMutation.empty : WalletMutation :=
  { id := none, tenant_id := none, status := none, created_at := none, updated_at := none,
    created_by := none, updated_by := none, environment_id := none, name := none,
    customer_id := none, currency := none, description := none, metadata := none,
    balance := none, credit_balance := none, wallet_status := none,
    auto_topup_trigger := none, auto_topup_min_balance := none, auto_topup_amount := none,
    wallet_type := none, conversion_rate := none, config := none }

/-- A mutator: what runs on a mutation and yields the created wallet or an error. -/
abbrev Mutator := WalletMutation → Except Error Wallet

/-- `Hook`: wraps the next mutator. -/
abbrev Hook := Mutator → Mutator

/-- `WalletCreate`, the builder: its mutation and its hooks. -/
structure WalletCreate where
  mutation : WalletMutation
  hooks : List Hook

/-- A builder with nothing set and no hooks. -/
def WalletCreate.new : WalletCreate :=
  { mutation := WalletMutation.empty, hooks := [] }

/-- `SetTenantID` (line 26). -/
def WalletCreate.SetTenantID (wc : WalletCreate) (s : String) : WalletCreate :=
  { wc with mutation := { wc.mutation with tenant_id := some s } }

/-- `SetStatus` (line 32). -/
def WalletCreate.SetStatus (wc : WalletCreate) (s : String) : WalletCreate :=
  { wc with mutation := { wc.mutation with status := some s } }

/-- `SetCreatedAt` (line 46). -/
def WalletCreate.SetCreatedAt (wc : WalletCreate) (t : Time) : WalletCreate :=
  { wc with mutation := { wc.mutation with created_at := some t } }

/-- `SetUpdatedAt` (line 60). -/
def WalletCreate.SetUpdatedAt (wc : WalletCreate) (t : Time) : WalletCreate :=
  { wc with mutation := { wc.mutation with updated_at := some t } }

/-- `SetCreatedBy` (line 74). -/
def WalletCreate.SetCreatedBy (wc : WalletCreate) (s : String) : WalletCreate :=
  { wc with mutation := { wc.mutation with created_by := some s } }

/-- `SetUpdatedBy` (line 88). -/
def WalletCreate.SetUpdatedBy (wc : WalletCreate) (s : String) : WalletCreate :=
  { wc with mutation := { wc.mutation with updated_by := some s } }

/-- `SetEnvironmentID` (line 102). -/
def WalletCreate.SetEnvironmentID (wc : WalletCreate) (s : String) : WalletCreate :=
  { wc with mutation := { wc.mutation with environment_id := some s } }

/-- `SetName` (line 116). -/
def WalletCreate.SetName (wc : WalletCreate) (s : String) : WalletCreate :=
  { wc with mutation := { wc.mutation with name := some s } }

/-- `SetCustomerID` (line 130). -/
def WalletCreate.SetCustomerID (wc : WalletCreate) (s : String) : WalletCreate :=
  { wc with mutation := { wc.mutation with customer_id := some s } }

/-- `SetCurrency` (line 136). -/
def WalletCreate.SetCurrency (wc : WalletCreate) (s : String) : WalletCreate :=
  { wc with mutation := { wc.mutation with currency := some s } }

/-- `SetDescription` (line 142). -/
def WalletCreate.SetDescription (wc : WalletCreate) (s : String) : WalletCreate :=
  { wc with mutation := { wc.mutation with description := some s } }

/-- `SetMetadata` (line 156). -/
def WalletCreate.SetMetadata (wc : WalletCreate) (m : List (String × String)) : WalletCreate :=
  { wc with mutation := { wc.mutation with metadata := some m } }

/-- `SetBalance` (line 162). -/
def WalletCreate.SetBalance (wc : WalletCreate) (d : Decimal) : WalletCreate :=
  { wc with mutation := { wc.mutation with balance := some d } }

/-- `SetNillableBalance` (line 168): sets the balance if the pointer is not nil. -/
def WalletCreate.SetNillableBalance (wc : WalletCreate) (d : Option Decimal) : WalletCreate :=
  match d with
  | some v => wc.SetBalance v
  | none => wc

/-- `SetCreditBalance` (line 176). -/
def WalletCreate.SetCreditBalance (wc : WalletCreate) (d : Decimal) : WalletCreate :=
  { wc with mutation := { wc.mutation with credit_balance := some d } }

/-- `SetWalletStatus` (line 182). -/
def WalletCreate.SetWalletStatus (wc : WalletCreate) (s : String) : WalletCreate :=
  { wc with mutation := { wc.mutation with wallet_status := some s } }

/-- `SetNillableWalletStatus` (line 188). -/
def WalletCreate.SetNillableWalletStatus (wc : WalletCreate) (s : Option String) :
    WalletCreate :=
  match s with
  | some v => wc.SetWalletStatus v
  | none => wc

/-- `SetAutoTopupTrigger` (line 196). -/
def WalletCreate.SetAutoTopupTrigger (wc : WalletCreate) (s : String) : WalletCreate :=
  { wc with mutation := { wc.mutation with auto_topup_trigger := some s } }

/-- `SetNillableAutoTopupTrigger` (line 202). -/
def WalletCreate.SetNillableAutoTopupTrigger (wc : WalletCreate) (s : Option String) :
    WalletCreate :=
  match s with
  | some v => wc.SetAutoTopupTrigger v
  | none => wc

/-- `SetAutoTopupMinBalance` (line 210). -/
def WalletCreate.SetAutoTopupMinBalance (wc : WalletCreate) (d : Decimal) : WalletCreate :=
  { wc with mutation := { wc.mutation with auto_topup_min_balance := some d } }

/-- `SetNillableAutoTopupMinBalance` (line 216). -/
def WalletCreate.SetNillableAutoTopupMinBalance (wc : WalletCreate) (d : Option Decimal) :
    WalletCreate :=
  match d with
  | some v => wc.SetAutoTopupMinBalance v
  | none => wc

/-- `SetAutoTopupAmount` (line 224). -/
def WalletCreate.SetAutoTopupAmount (wc : WalletCreate) (d : Decimal) : WalletCreate :=
  { wc with mutation := { wc.mutation with auto_topup_amount := some d } }

/-- `SetNillableAutoTopupAmount` (line 230). -/
def WalletCreate.SetNillableAutoTopupAmount (wc : WalletCreate) (d : Option Decimal) :
    WalletCreate :=
  match d with
  | some v => wc.SetAutoTopupAmount v
  | none => wc

/-- `SetWalletType` (line 238). -/
def WalletCreate.SetWalletType (wc : WalletCreate) (s : String) : WalletCreate :=
  { wc with mutation := { wc.mutation with wallet_type := some s } }

/-- `SetConversionRate` (line 252). -/
def WalletCreate.SetConversionRate (wc : WalletCreate) (d : Decimal) : WalletCreate :=
  { wc with mutation := { wc.mutation with conversion_rate := some d } }

/-- `SetConfig` (line 258). -/
def WalletCreate.SetConfig (wc : WalletCreate) (tc : WalletConfig) : WalletCreate :=
  { wc with mutation := { wc.mutation with config := some tc } }

/-- `SetID` (line 272). -/
def WalletCreate.SetID (wc : WalletCreate) (s : String) : WalletCreate :=
  { wc with mutation := { wc.mutation with id := some s } }

/-- The constants, default values and validators of package `ent/wallet` that
`wallet_create.go` refers to; their declarations are not among the source files, so they
are taken as given.  `DefaultCreatedAt` and `DefaultUpdatedAt` are the instants the two
clock calls return; a validator returns the error message, `none` for success. -/
structure WalletPackage where
  Table : String
  DefaultStatus : String
  DefaultCreatedAt : Time
  DefaultUpdatedAt : Time
  DefaultEnvironmentID : String
  DefaultBalance : Decimal
  DefaultWalletStatus : String
  DefaultAutoTopupTrigger : String
  DefaultWalletType : String
  TenantIDValidator : String → Option String
  CustomerIDValidator : String → Option String
  CurrencyValidator : String → Option String
  ConfigValidate : WalletConfig → Option String

/-- A failure of `sqlgraph.CreateNode`: its message and whether
`sqlgraph.IsConstraintError` holds of it. -/
structure DriverFailure where
  msg : String
  IsConstraintError : Bool
  deriving DecidableEq, Repr

/-- What the builder runs against and does not define itself: package `ent/wallet`,
`sqlgraph.CreateNode` on the builder's driver (it returns the value `_spec.ID.Value` holds
after the insert) and the generated `withHooks`. -/
structure Runtime where
  wallet : WalletPackage
  CreateNode : CreateSpec → Except DriverFailure (Option Value)
  withHooks : Mutator → WalletMutation → List Hook → Except Error Wallet

/-- One `if _, ok := wc.mutation.X(); !ok { wc.mutation.SetX(v) }` step of `defaults`:
`get` reads the field, `set` is its setter and `v` the default. -/
def setDefault {α : Type} (get : WalletMutation → Option α)
    (set : WalletCreate → α → WalletCreate) (v : α) (wc : WalletCreate) : WalletCreate :=
  match get wc.mutation with
  | some _ => wc
  | none => set wc v

/-- `defaults` (lines 310-344): sets the default values of the builder before save, each
only when the field is not set, in source order. -/
def WalletCreate.defaults (pkg : WalletPackage) (wc : WalletCreate) : WalletCreate :=
  let wc := setDefault (fun m => m.status) WalletCreate.SetStatus pkg.DefaultStatus wc
  let wc := setDefault (fun m => m.created_at) WalletCreate.SetCreatedAt pkg.DefaultCreatedAt wc
  let wc := setDefault (fun m => m.updated_at) WalletCreate.SetUpdatedAt pkg.DefaultUpdatedAt wc
  let wc := setDefault (fun m => m.environment_id) WalletCreate.SetEnvironmentID
    pkg.DefaultEnvironmentID wc
  let wc := setDefault (fun m => m.balance) WalletCreate.SetBalance pkg.DefaultBalance wc
  let wc := setDefault (fun m => m.wallet_status) WalletCreate.SetWalletStatus
    pkg.DefaultWalletStatus wc
  let wc := setDefault (fun m => m.auto_topup_trigger) WalletCreate.SetAutoTopupTrigger
    pkg.DefaultAutoTopupTrigger wc
  setDefault (fun m => m.wallet_type) WalletCreate.SetWalletType pkg.DefaultWalletType wc

/-- One `if _, ok := wc.mutation.X(); !ok { return &ValidationError{...} }` step of
`check`. -/
def requiredField {α : Type} (v : Option α) (name : String) : Option Error :=
  match v with
  | some _ => none
  | none => some (Error.ValidationError name (CheckFailure.missingRequiredField name))

/-- One `if v, ok := wc.mutation.X(); ok { if err := validator(v); err != nil {...} }` step
of `check`. -/
def validatedField {α : Type} (v : Option α) (validator : α → Option String) (name : String) :
    Option Error :=
  match v with
  | none => none
  | some x =>
    match validator x with
    | some cause => some (Error.ValidationError name (CheckFailure.validatorFailed name cause))
    | none => none

/-- The first error of a sequence of checks, `none` when all pass. -/
def firstError : List (Option Error) → Option Error
  | [] => none
  | some e :: _ => some e
  | none :: rest => firstError rest

/-- `check` (lines 346-402): runs all checks and validators on the builder, in source
order, and returns the first error (`none` is Go's `nil`). -/
def WalletCreate.check (pkg : WalletPackage) (wc : WalletCreate) : Option Error :=
  firstError
    [ requiredField wc.mutation.tenant_id "tenant_id",
      validatedField wc.mutation.tenant_id pkg.TenantIDValidator "tenant_id",
      requiredField wc.mutation.status "status",
      requiredField wc.mutation.created_at "created_at",
      requiredField wc.mutation.updated_at "updated_at",
      requiredField wc.mutation.customer_id "customer_id",
      validatedField wc.mutation.customer_id pkg.CustomerIDValidator "customer_id",
      requiredField wc.mutation.currency "currency",
      validatedField wc.mutation.currency pkg.CurrencyValidator "currency",
      requiredField wc.mutation.balance "balance",
      requiredField wc.mutation.credit_balance "credit_balance",
      requiredField wc.mutation.wallet_status "wallet_status",
      requiredField wc.mutation.wallet_type "wallet_type",
      requiredField wc.mutation.conversion_rate "conversion_rate",
      validatedField wc.mutation.config pkg.ConfigValidate "config" ]

/-- What `check` reads of the mutation, in the order of first use: the values of the
validated fields and, for the fields that are only required, whether they are set. -/
def checkedFields (m : WalletMutation) :=
  (m.tenant_id, m.status.isSome, m.created_at.isSome, m.updated_at.isSome, m.customer_id,
    m.currency, m.balance.isSome, m.credit_balance.isSome, m.wallet_status.isSome,
    m.wallet_type.isSome, m.conversion_rate.isSome, m.config)

/-- One `if value, ok := wc.mutation.X(); ok { _spec.SetField(...) }` step of `createSpec`:
the field spec appended, if any. -/
def specField {α : Type} (v : Option α) (column : String) (t : FieldType) (wrap : α → Value) :
    List FieldSpec :=
  match v with
  | some x => [{ Column := column, Typ := t, Value := some (wrap x) }]
  | none => []

/-- `createSpec` (lines 427-521): the entity and the SQL create spec.  Every field that is
set on the mutation is copied to the entity and appended to the spec, in source order; the
columns are the `wallet.Field*` constants, named as in the setters' comments. -/
def WalletCreate.createSpec (pkg : WalletPackage) (wc : WalletCreate) : Wallet × CreateSpec :=
  let m := wc.mutation
  let node : Wallet :=
    { ID := m.id.getD ""
      TenantID := m.tenant_id.getD ""
      Status := m.status.getD ""
      CreatedAt := m.created_at.getD 0
      UpdatedAt := m.updated_at.getD 0
      CreatedBy := m.created_by.getD ""
      UpdatedBy := m.updated_by.getD ""
      EnvironmentID := m.environment_id.getD ""
      Name := m.name.getD ""
      CustomerID := m.customer_id.getD ""
      Currency := m.currency.getD ""
      Description := m.description.getD ""
      Metadata := m.metadata.getD []
      Balance := m.balance.getD 0
      CreditBalance := m.credit_balance.getD 0
      WalletStatus := m.wallet_status.getD ""
      AutoTopupTrigger := m.auto_topup_trigger
      AutoTopupMinBalance := m.auto_topup_min_balance
      AutoTopupAmount := m.auto_topup_amount
      WalletType := m.wallet_type.getD ""
      ConversionRate := m.conversion_rate.getD 0
      Config := m.config.getD "" }
  let spec : CreateSpec :=
    { Table := pkg.Table
      ID := { Column := "id", Typ := FieldType.TypeString, Value := m.id.map Value.str }
      Fields :=
        specField m.tenant_id "tenant_id" FieldType.TypeString Value.str ++
        specField m.status "status" FieldType.TypeString Value.str ++
        specField m.created_at "created_at" FieldType.TypeTime Value.time ++
        specField m.updated_at "updated_at" FieldType.TypeTime Value.time ++
        specField m.created_by "created_by" FieldType.TypeString Value.str ++
        specField m.updated_by "updated_by" FieldType.TypeString Value.str ++
        specField m.environment_id "environment_id" FieldType.TypeString Value.str ++
        specField m.name "name" FieldType.TypeString Value.str ++
        specField m.customer_id "customer_id" FieldType.TypeString Value.str ++
        specField m.currency "currency" FieldType.TypeString Value.str ++
        specField m.description "description" FieldType.TypeString Value.str ++
        specField m.metadata "metadata" FieldType.TypeJSON Value.json ++
        specField m.balance "balance" FieldType.TypeOther Value.dec ++
        specField m.credit_balance "credit_balance" FieldType.TypeOther Value.dec ++
        specField m.wallet_status "wallet_status" FieldType.TypeString Value.str ++
        specField m.auto_topup_trigger "auto_topup_trigger" FieldType.TypeString Value.str ++
        specField m.auto_topup_min_balance "auto_topup_min_balance" FieldType.TypeOther
          Value.dec ++
        specField m.auto_topup_amount "auto_topup_amount" FieldType.TypeOther Value.dec ++
        specField m.wallet_type "wallet_type" FieldType.TypeString Value.str ++
        specField m.conversion_rate "conversion_rate" FieldType.TypeOther Value.dec ++
        specField m.config "config" FieldType.TypeJSON Value.config }
  (node, spec)

/-- `sqlSave` (lines 404-425): check, build the spec, insert, and take over the id the
insert left in the spec.  The builder's `mutation.id` and `mutation.done`, written last,
are not read again and are left out. -/
def WalletCreate.sqlSave (rt : Runtime) (wc : WalletCreate) : Except Error Wallet :=
  match wc.check rt.wallet with
  | some err => Except.error err
  | none =>
    let node := (wc.createSpec rt.wallet).1
    let spec := (wc.createSpec rt.wallet).2
    match rt.CreateNode spec with
    | Except.error f =>
      if f.IsConstraintError then Except.error (Error.ConstraintError f.msg)
      else Except.error (Error.DriverError f.msg)
    | Except.ok none => Except.ok node
    | Except.ok (some (Value.str id)) => Except.ok { node with ID := id }
    | Except.ok (some (Value.time _)) => Except.error (Error.UnexpectedIDType "time.Time")
    | Except.ok (some (Value.dec _)) => Except.error (Error.UnexpectedIDType "decimal.Decimal")
    | Except.ok (some (Value.json _)) => Except.error (Error.UnexpectedIDType "map[string]string")
    | Except.ok (some (Value.config _)) =>
      Except.error (Error.UnexpectedIDType "types.WalletConfig")
    | Except.ok (some (Value.other t)) => Except.error (Error.UnexpectedIDType t)

/-- `Save` (lines 282-286): applies the defaults, then runs `sqlSave` through the hooks;
the mutation a hook passes on is the one `sqlSave` reads. -/
def WalletCreate.Save (rt : Runtime) (wc : WalletCreate) : Except Error Wallet :=
  let wc := wc.defaults rt.wallet
  rt.withHooks (fun m => WalletCreate.sqlSave rt { wc with mutation := m }) wc.mutation wc.hooks

/-- A field validator that rejects the empty string. -/
def notEmpty (s : String) : Option String :=
  if s = "" then some "value is less than the required length" else none

/-- Modelled from the spec: a runtime to evaluate the builder on.  The spec gives the
defaults `balance = 0` and `wallet_status = active` (§3, Lifecycle) and the trigger value
`disabled`; the remaining constants of package `ent/wallet` are not among the source files
and stand for themselves.  The insert succeeds and keeps the id of the spec; with no hooks
`withHooks` runs the save directly, otherwise through the chain of hooks. -/
def exampleRuntime : Runtime :=
  { wallet :=
      { Table := "wallets"
        DefaultStatus := "published"
        DefaultCreatedAt := 0
        DefaultUpdatedAt := 0
        DefaultEnvironmentID := ""
        DefaultBalance := 0
        DefaultWalletStatus := "active"
        DefaultAutoTopupTrigger := "disabled"
        DefaultWalletType := "prepaid"
        TenantIDValidator := notEmpty
        CustomerIDValidator := notEmpty
        CurrencyValidator := notEmpty
        ConfigValidate := fun _ => none }
    CreateNode := fun spec => Except.ok spec.ID.Value
    withHooks := fun exec m hooks => hooks.foldr (fun h next => h next) exec m }

/-- A builder with exactly the fields set that `check` requires and `defaults` does not
supply: tenant, customer, currency, credit balance and conversion rate. -/
def minimalBuilder (conversionRate : Decimal) : WalletCreate :=
  ((((WalletCreate.new.SetTenantID "tenant_1").SetCustomerID "cust_1").SetCurrency
    "usd").SetCreditBalance 0).SetConversionRate conversionRate

/-- The minimal builder with a balance of 100 and the status `frozen` set by the caller. -/
def prefundedFrozenBuilder : WalletCreate :=
  ((minimalBuilder 1).SetBalance 100).SetWalletStatus "frozen"

/-- The minimal builder without a conversion rate. -/
def noRateBuilder : WalletCreate :=
  (((WalletCreate.new.SetTenantID "tenant_1").SetCustomerID "cust_1").SetCurrency
    "usd").SetCreditBalance 0

/-- The minimal builder with the trigger `balance_below_threshold` and neither
`auto_topup_min_balance` nor `auto_topup_amount`. -/
def triggerOnlyBuilder : WalletCreate :=
  (minimalBuilder 1).SetAutoTopupTrigger "balance_below_threshold"

/-- The minimal builder with the trigger `balance_below_threshold`, a negative
`auto_topup_min_balance` and a zero `auto_topup_amount`. -/
def badTopupBuilder : WalletCreate :=
  (((minimalBuilder 1).SetAutoTopupTrigger "balance_below_threshold").SetAutoTopupMinBalance
    (-5)).SetAutoTopupAmount 0

end ent

/-! ## Currency codes (`internal/types/currency.go`) -/

/-- The library functions `currency.go` calls and does not define: the Unicode tables
behind `strings.ToUpper`, `strings.ToLower` and `strings.TrimSpace` (`unicode.ToUpper`,
`unicode.ToLower`, `unicode.IsSpace`), and `ParseISO` and `Standard.Rounding` of
`golang.org/x/text/currency`.  `ParseISO` returns the unit, `none` for an error;
`StandardScale` is the scale `Standard.Rounding` returns for a unit.  `FoldEq` says
whether two runes are equal under Unicode simple case folding, the test
`strings.EqualFold` makes rune by rune.  `JSONMarshalString` is `json.Marshal` of a string
and `JSONUnmarshalString` is `json.Unmarshal` into a string, `none` for an error. -/
structure GoLib where
  ToUpper : Char → Char
  ToLower : Char → Char
  IsSpace : Char → Bool
  ParseISO : String → Option String
  StandardScale : String → Int
  FoldEq : Char → Char → Bool
  JSONMarshalString : String → String
  JSONUnmarshalString : String → Option String

namespace strings

/-- `strings.ToUpper`: every rune mapped to its upper case. -/
def ToUpper (lib : GoLib) (s : String) : String :=
  String.mk (s.data.map lib.ToUpper)

/-- `strings.ToLower`: every rune mapped to its lower case. -/
def ToLower (lib : GoLib) (s : String) : String :=
  String.mk (s.data.map lib.ToLower)

/-- `strings.TrimSpace`: leading and trailing white space removed. -/
def TrimSpace (lib : GoLib) (s : String) : String :=
  String.mk (((s.data.dropWhile lib.IsSpace).reverse.dropWhile lib.IsSpace).reverse)

/-- The rune-by-rune comparison of `strings.EqualFold`: the same number of runes, equal
under simple case folding at every position. -/
def equalFoldRunes (lib : GoLib) : List Char → List Char → Bool
  | [], [] => true
  | x :: xs, y :: ys => lib.FoldEq x y && equalFoldRunes lib xs ys
  | _, _ => false

/-- `strings.EqualFold`: equality under Unicode simple case folding. -/
def EqualFold (lib : GoLib) (s t : String) : Bool :=
  equalFoldRunes lib s.data t.data

end strings

namespace types

/-- `CurrencyConfig` (currency.go:56-59); `Precision` is an `int32`. -/
structure CurrencyConfig where
  Precision : Int
  Symbol : String
  deriving DecidableEq, Repr

/-- `CURRENCY_CONFIG` (currency.go:18-54): the map literal, as its list of entries; the
keys are distinct. -/
def CURRENCY_CONFIG : List (String × CurrencyConfig) :=
  [ ("usd", { Symbol := "$", Precision := 2 }),
    ("eur", { Symbol := "€", Precision := 2 }),
    ("gbp", { Symbol := "£", Precision := 2 }),
    ("aud", { Symbol := "AUS", Precision := 2 }),
    ("cad", { Symbol := "CAD", Precision := 2 }),
    ("jpy", { Symbol := "¥", Precision := 0 }),
    ("inr", { Symbol := "₹", Precision := 2 }),
    ("idr", { Symbol := "Rp", Precision := 2 }),
    ("sgd", { Symbol := "S$", Precision := 2 }),
    ("thb", { Symbol := "฿", Precision := 2 }),
    ("myr", { Symbol := "RM", Precision := 2 }),
    ("php", { Symbol := "₱", Precision := 2 }),
    ("vnd", { Symbol := "₫", Precision := 0 }),
    ("hkd", { Symbol := "HK$", Precision := 2 }),
    ("krw", { Symbol := "₩", Precision := 0 }),
    ("nzd", { Symbol := "NZ$", Precision := 2 }),
    ("brl", { Symbol := "R$", Precision := 2 }),
    ("chf", { Symbol := "CHF", Precision := 2 }),
    ("clp", { Symbol := "CLP$", Precision := 0 }),
    ("cny", { Symbol := "CN¥", Precision := 2 }),
    ("czk", { Symbol := "CZK", Precision := 2 }),
    ("dkk", { Symbol := "DKK", Precision := 2 }),
    ("huf", { Symbol := "HUF", Precision := 2 }),
    ("ils", { Symbol := "₪", Precision := 2 }),
    ("mxn", { Symbol := "MX$", Precision := 2 }),
    ("nok", { Symbol := "NOK", Precision := 2 }),
    ("pln", { Symbol := "PLN", Precision := 2 }),
    ("ron", { Symbol := "RON", Precision := 2 }),
    ("rub", { Symbol := "₽", Precision := 2 }),
    ("sar", { Symbol := "SAR", Precision := 2 }),
    ("sek", { Symbol := "SEK", Precision := 2 }),
    ("try", { Symbol := "TRY", Precision := 2 }),
    ("twd", { Symbol := "NT$", Precision := 2 }),
    ("zar", { Symbol := "ZAR", Precision := 2 }) ]

/-- `DEFAULT_PRECISION` (currency.go:61-63). -/
def DEFAULT_PRECISION : Int := 2

/-- Go's conversion `int32(x)` of an `int`: the value wrapped into 32 bits, two's
complement. -/
def toInt32 (x : Int) : Int :=
  (x + 2 ^ 31) % 2 ^ 32 - 2 ^ 31

/-- `Currency` (currency.go:15), a string type. -/
abbrev Currency := String

/-- `GetCurrencyConfig` (currency.go:79-84): the entry of the lower-cased code, and a config
with the default precision and the zero symbol when there is none. -/
def GetCurrencyConfig (lib : GoLib) (code : String) : CurrencyConfig :=
  match CURRENCY_CONFIG.lookup (strings.ToLower lib code) with
  | some config => config
  | none => { Precision := DEFAULT_PRECISION, Symbol := "" }

/-- `Currency.Precision` (currency.go:123-143): the ISO scale of the upper-cased, trimmed
code, with `CURRENCY_CONFIG` and then the default as fallbacks. -/
def Currency.Precision (lib : GoLib) (c : Currency) : Int :=
  let code := strings.ToUpper lib (strings.TrimSpace lib c)
  if code = "" then DEFAULT_PRECISION
  else
    match lib.ParseISO code with
    | none =>
      match CURRENCY_CONFIG.lookup (strings.ToLower lib code) with
      | some config => config.Precision
      | none => DEFAULT_PRECISION
    | some unit => lib.StandardScale unit

/-- `GetCurrencyPrecision` (currency.go:72-77). -/
def GetCurrencyPrecision (lib : GoLib) (code : String) : Int :=
  toInt32 (Currency.Precision lib code)

/-- The validation errors of `currency.go`, by message: "currency code cannot be empty",
"invalid currency code" with the reported `currency_code`, "invalid type for currency", and
the wrapped error of `json.Unmarshal` ("Currency must be a string"). -/
inductive CurrencyError where
  | emptyCode
  | invalidCode (currency_code : String)
  | invalidType
  | notAString
  deriving DecidableEq, Repr

/-- `Currency.String` (currency.go:90-93): the upper-cased code.  Named `GoString` here,
since `String` is the type of strings. -/
def Currency.GoString (lib : GoLib) (c : Currency) : String :=
  strings.ToUpper lib c

/-- `Currency.Validate` (currency.go:95-116): `none` is Go's `nil`. -/
def Currency.Validate (lib : GoLib) (c : Currency) : Option CurrencyError :=
  let code := strings.TrimSpace lib c
  if code = "" then some CurrencyError.emptyCode
  else
    let normalized := strings.ToUpper lib code
    match lib.ParseISO normalized with
    | none => some (CurrencyError.invalidCode code)
    | some _ => none

/-- `Currency.IsValid` (currency.go:118-121). -/
def Currency.IsValid (lib : GoLib) (c : Currency) : Bool :=
  decide (Currency.Validate lib c = none)

/-- `Currency.Symbol` (currency.go:145-153): the symbol of the lower-cased, trimmed code in
`CURRENCY_CONFIG`, or else the upper-cased receiver. -/
def Currency.Symbol (lib : GoLib) (c : Currency) : String :=
  let code := strings.ToLower lib (strings.TrimSpace lib c)
  match CURRENCY_CONFIG.lookup code with
  | some config => config.Symbol
  | none => strings.ToUpper lib c

/-- `GetCurrencySymbol` (currency.go:65-70). -/
def GetCurrencySymbol (lib : GoLib) (code : String) : String :=
  Currency.Symbol lib code

/-- `IsMatchingCurrency` (currency.go:86-88). -/
def IsMatchingCurrency (lib : GoLib) (a b : String) : Bool :=
  strings.EqualFold lib a b

/-- `Currency.Normalize` (currency.go:155-162). -/
def Currency.Normalize (lib : GoLib) (c : Currency) : Currency :=
  let code := strings.TrimSpace lib c
  if code = "" then "" else strings.ToUpper lib code

/-- `Currency.Equal` (currency.go:164-167). -/
def Currency.Equal (lib : GoLib) (c other : Currency) : Bool :=
  strings.EqualFold lib c other

/-- `NewCurrency` (currency.go:169-190): the normalized currency, or the error (with which
Go returns the empty currency). -/
def NewCurrency (lib : GoLib) (code : String) : Except CurrencyError Currency :=
  let code := strings.TrimSpace lib code
  if code = "" then Except.error CurrencyError.emptyCode
  else
    let normalized := strings.ToUpper lib code
    match lib.ParseISO normalized with
    | none => Except.error (CurrencyError.invalidCode code)
    | some _ => Except.ok normalized

/-- `ParseCurrency` (currency.go:202-205). -/
def ParseCurrency (lib : GoLib) (code : String) : Except CurrencyError Currency :=
  NewCurrency lib code

/-- A value handed to `Scan` (an `interface{}` from the database driver): nil, a string, a
byte slice holding text, or a value of another Go type. -/
inductive DBValue where
  | null
  | string (s : String)
  | bytes (s : String)
  | other (typeName : String)
  deriving DecidableEq, Repr

/-- `Currency.Scan` (currency.go:207-244): the currency stored in the receiver, or the
error, on which the receiver is not written. -/
def Currency.Scan (lib : GoLib) (value : DBValue) : Except CurrencyError Currency :=
  match value with
  | DBValue.null => Except.ok ""
  | DBValue.other _ => Except.error CurrencyError.invalidType
  | DBValue.string str | DBValue.bytes str =>
    let normalized := strings.ToUpper lib (strings.TrimSpace lib str)
    if normalized = "" then Except.ok ""
    else
      match lib.ParseISO normalized with
      | none => Except.ok normalized
      | some _ => Except.ok normalized

/-- `Currency.Value` (currency.go:246-253): the string written to the database; the error
is always nil. -/
def Currency.Value (lib : GoLib) (c : Currency) : Except CurrencyError DBValue :=
  let code := strings.TrimSpace lib c
  if code = "" then Except.ok (DBValue.string "")
  else Except.ok (DBValue.string (strings.ToUpper lib code))

/-- `Currency.MarshalJSON` (currency.go:255-263): `json.Marshal` of a string does not
fail, so only the bytes are returned. -/
def Currency.MarshalJSON (lib : GoLib) (c : Currency) : String :=
  let code := strings.TrimSpace lib c
  if code = "" then lib.JSONMarshalString ""
  else lib.JSONMarshalString (strings.ToUpper lib code)

/-- `Currency.UnmarshalJSON` (currency.go:265-295): the currency stored in the receiver,
or the error, on which the receiver is not written. -/
def Currency.UnmarshalJSON (lib : GoLib) (data : String) : Except CurrencyError Currency :=
  match lib.JSONUnmarshalString data with
  | none => Except.error CurrencyError.notAString
  | some str =>
    let normalized := strings.ToUpper lib (strings.TrimSpace lib str)
    if normalized = "" then Except.ok ""
    else
      match lib.ParseISO normalized with
      | none => Except.error (CurrencyError.invalidCode str)
      | some _ => Except.ok normalized

/-- `ValidateCurrencyCode` (currency.go:297-301). -/
def ValidateCurrencyCode (lib : GoLib) (currency : String) : Option CurrencyError :=
  Currency.Validate lib currency

/-- What the proofs about normalized codes use of the Unicode tables: upper-casing a rune
twice is upper-casing it once, and the upper case of a rune that is not white space is not
white space. -/
def UpperStable (lib : GoLib) : Prop :=
  (∀ c, lib.ToUpper (lib.ToUpper c) = lib.ToUpper c) ∧
  (∀ c, lib.IsSpace c = false → lib.IsSpace (lib.ToUpper c) = false)

/-- What the proofs about ASCII codes use of the Unicode tables: on ASCII runes,
upper-casing is the ASCII upper case and two runes fold together exactly when their ASCII
lower cases are equal. -/
def AsciiCase (lib : GoLib) : Prop :=
  (∀ c : Char, c.toNat < 128 → lib.ToUpper c = c.toUpper) ∧
  (∀ x y : Char, x.toNat < 128 → y.toNat < 128 →
    lib.FoldEq x y = decide (x.toLower = y.toLower))

/-- The string holds ASCII runes only. -/
def isASCII (s : String) : Bool :=
  s.data.all (fun c => decide (c.toNat < 128))

/-- The ISO 4217 codes of the currencies `CURRENCY_CONFIG` lists, upper case. -/
def knownISOCodes : List String :=
  ["USD", "EUR", "GBP", "AUD", "CAD", "JPY", "INR", "IDR", "SGD", "THB", "MYR", "PHP", "VND",
    "HKD", "KRW", "NZD", "BRL", "CHF", "CLP", "CNY", "CZK", "DKK", "HUF", "ILS", "MXN", "NOK",
    "PLN", "RON", "RUB", "SAR", "SEK", "TRY", "TWD", "ZAR"]

/-- The double quote that delimits a JSON string. -/
def jsonQuote : Char := Char.ofNat 34

/-- A JSON encoding of strings for text that needs no escape: the text between double
quotes. -/
def quoteJSON (s : String) : String :=
  String.mk (jsonQuote :: (s.data ++ [jsonQuote]))

/-- The decoding that goes with `quoteJSON`: the text between the first and the last
rune when both are double quotes, and an error otherwise. -/
def unquoteJSON (data : String) : Option String :=
  match data.data with
  | [] => none
  | c :: rest =>
    if c = jsonQuote ∧ rest.getLast? = some jsonQuote then some (String.mk rest.dropLast)
    else none

/-- A library to evaluate the currency functions on: the ASCII case tables and white
space, a `ParseISO` that accepts exactly `knownISOCodes`, the ISO scales, 0 for JPY,
KRW, VND and CLP and 2 otherwise, case folding by the ASCII lower case, and the JSON
encoding of strings without escapes. -/
def asciiLib : GoLib :=
  { ToUpper := Char.toUpper
    ToLower := Char.toLower
    IsSpace := fun c => c.toNat = 32 || (9 ≤ c.toNat && c.toNat ≤ 13)
    ParseISO := fun code => if code ∈ knownISOCodes then some code else none
    StandardScale := fun unit => if unit ∈ ["JPY", "KRW", "VND", "CLP"] then 0 else 2
    FoldEq := fun x y => decide (x.toLower = y.toLower)
    JSONMarshalString := quoteJSON
    JSONUnmarshalString := unquoteJSON }

end types

/-! ## The OpenAPI to MCP adapter (`internal/mcp`) -/

namespace strings

/-- `strings.TrimPrefix`: `s` without the leading `pre`, or `s` when it does not start
with it. -/
def TrimPrefix (s pre : String) : String :=
  if pre.data.isPrefixOf s.data then String.mk (s.data.drop pre.data.length) else s

/-- `strings.TrimSuffix`: `s` without the trailing `suffix`, or `s` when it does not end
with it. -/
def TrimSuffix (s suffix : String) : String :=
  if suffix.data.isSuffixOf s.data then
    String.mk (s.data.take (s.data.length - suffix.data.length))
  else s

/-- `strings.Join`: the elements with `sep` between them. -/
def Join (elems : List String) (sep : String) : String :=
  String.mk (List.intercalate sep.data (elems.map String.data))

end strings

namespace mcp

/-- The rune that opens a path placeholder, a left brace. -/
def openBrace : Char := Char.ofNat 123

/-- The rune that closes a path placeholder, a right brace. -/
def closeBrace : Char := Char.ofNat 125

/-- The scan behind `pathParamRe` (converter.go:28), a left brace, one or more runes other
than a right brace, a right brace: the leftmost matches, none overlapping, each replaced by
`f` of the match.  `pending` is `none` outside a match and `some name` after a left brace
followed by `name`, runes other than a right brace.  A right brace closes the match when
`name` is not empty; a left brace that no right brace follows starts no match. -/
def replaceMatches (f : String → String) : Option (List Char) → List Char → List Char
  | none, [] => []
  | none, c :: rest =>
    if c = openBrace then replaceMatches f (some []) rest
    else c :: replaceMatches f none rest
  | some name, [] => openBrace :: name
  | some name, c :: rest =>
    if c = closeBrace then
      if name = [] then openBrace :: closeBrace :: replaceMatches f none rest
      else (f (String.mk (openBrace :: (name ++ [closeBrace])))).data ++ replaceMatches f none rest
    else replaceMatches f (some (name ++ [c])) rest

/-- `pathParamRe.ReplaceAllStringFunc(s, f)`. -/
def pathParamRe_ReplaceAllStringFunc (s : String) (f : String → String) : String :=
  String.mk (replaceMatches f none s.data)

/-- The text of a match without its first and last byte, `match[1 : len(match)-1]`: the
name between the braces, which is also the submatch `$1`. -/
def matchName (m : String) : String :=
  String.mk (m.data.drop 1).dropLast

/-- `pathParamRe.ReplaceAllString(s, "_$1")`: every match replaced by an underscore and
the name between its braces. -/
def pathParamRe_ReplaceAllString_name (s : String) : String :=
  pathParamRe_ReplaceAllStringFunc s (fun m => "_" ++ matchName m)

/-- `slugRe.Split(s, -1)` on runes (converter.go:29, one or more runes that are not ASCII
letters or digits): the pieces between the separators, with an empty first or last piece
when `s` starts or ends with a separator, and one empty piece for the empty string. -/
def splitSlug : List Char → List (List Char)
  | [] => [[]]
  | c :: rest =>
    if c.isAlphanum then
      match splitSlug rest with
      | [] => [[c]]
      | piece :: pieces => (c :: piece) :: pieces
    else
      match rest with
      | [] => [[], []]
      | d :: _ => if d.isAlphanum then [] :: splitSlug rest else splitSlug rest

/-- `slugRe.Split(s, -1)`. -/
def slugRe_Split (s : String) : List String :=
  (splitSlug s.data).map String.mk

/-- A Go map from strings to `any`, as tool arguments are: a name is absent (`none`),
present with a nil value (`some none`) or present with a value. -/
abbrev Args (α : Type) := String → Option (Option α)

/-- The empty argument map. -/
def Args.empty (α : Type) : Args α := fun _ => none

/-- `interpolatePath` (caller.go:68-76): every match of `pathParamRe` whose name has a
non-nil value in `args` is replaced by `fmt.Sprint` of the value, here `sprint`. -/
def interpolatePath {α : Type} (sprint : α → String) (template : String) (args : Args α)
    (_pathParamNames : List String) : String :=
  pathParamRe_ReplaceAllStringFunc template (fun m =>
    match args (matchName m) with
    | some (some v) => sprint v
    | _ => m)

/-- `deriveToolName` (converter.go:61-80): the lower-cased method, then the tokens of the
path, joined by underscores. -/
def deriveToolName (lib : GoLib) (method path : String) : String :=
  let m := strings.ToLower lib method
  let path := strings.TrimPrefix path "/"
  let path := strings.TrimPrefix path "v1/"
  let path := pathParamRe_ReplaceAllString_name path
  let parts := slugRe_Split path
  let tokens := (parts.map (strings.TrimSpace lib)).filter (fun p => p ≠ "")
  if tokens.length = 0 then m else m ++ "_" ++ strings.Join tokens "_"

/-- `openapi3.SchemaRef`, of which the adapter uses only the JSON it marshals to: kept as
a reference to the schema's source text. -/
abbrev SchemaRef := String

/-- `openapi3.Parameter`, the fields the adapter reads. -/
structure Parameter where
  Name : String
  In : String
  Description : String
  Required : Bool
  Schema : Option SchemaRef
  deriving DecidableEq, Repr

/-- `openapi3.ParameterRef`; `Value` may be nil. -/
structure ParameterRef where
  Ref : String
  Value : Option Parameter
  deriving DecidableEq, Repr

/-- `openapi3.Parameters`, a slice of `*ParameterRef`, each of which may be nil. -/
abbrev Parameters := List (Option ParameterRef)

/-- `openapi3.MediaType`, the field the adapter reads. -/
structure MediaType where
  Schema : Option SchemaRef
  deriving DecidableEq, Repr

/-- `openapi3.RequestBody`, the fields the adapter reads; `Content` may be nil. -/
structure RequestBody where
  Required : Bool
  Content : Option (List (String × MediaType))
  deriving DecidableEq, Repr

/-- `openapi3.RequestBodyRef`; `Value` may be nil. -/
structure RequestBodyRef where
  Ref : String
  Value : Option RequestBody
  deriving DecidableEq, Repr

/-- `openapi3.Operation`, the fields the adapter reads. -/
structure Operation where
  Summary : String
  Description : String
  OperationID : String
  Parameters : Parameters
  RequestBody : Option RequestBodyRef
  deriving DecidableEq, Repr

/-- `openapi3.PathItem`: its parameters and the map `Operations()` returns, from method to
operation, as the list of its entries in the order the loop visits them. -/
structure PathItem where
  Parameters : Parameters
  Operations : List (String × Option Operation)
  deriving DecidableEq, Repr

/-- `openapi3.T`: `Paths` may be nil; otherwise it is the map `Paths.Map()` returns, from
path to path item, as the list of its entries in the order the loop visits them. -/
structure T where
  Paths : Option (List (String × Option PathItem))
  deriving DecidableEq, Repr

/-- `Op` (openapi.go:12-21). -/
structure Op where
  Method : String
  Path : String
  Summary : String
  Description : String
  OperationID : String
  Parameters : Parameters
  RequestBody : Option RequestBodyRef
  deriving DecidableEq, Repr

/-- The path prefix `EachOperation` computes (openapi.go:46-49): the base path, with a
leading slash added when it is not empty and does not start with one. -/
def pathPrefix (basePath : String) : String :=
  if basePath ≠ "" ∧ basePath.data.head? ≠ some (Char.ofNat 47) then "/" ++ basePath
  else basePath

/-- The parameters `EachOperation` gives an operation (openapi.go:59-65): those of the path
item, and when the operation has parameters of its own, a merged slice of both. -/
def mergeParameters (item : PathItem) (operation : Operation) : Parameters :=
  if operation.Parameters.length > 0 then item.Parameters ++ operation.Parameters
  else item.Parameters

/-- The `Op` that `EachOperation` passes to `fn` (openapi.go:66-74). -/
def mkOp (fullPath method : String) (params : Parameters) (operation : Operation) : Op :=
  { Method := method
    Path := fullPath
    Summary := operation.Summary
    Description := operation.Description
    OperationID := operation.OperationID
    Parameters := params
    RequestBody := operation.RequestBody }

/-- The body of the inner loop of `EachOperation` (openapi.go:56-75), over the operations
of one path item. -/
def eachMethod {σ : Type} (fn : String → String → Op → σ → σ) (fullPath : String)
    (pathItem : PathItem) (s : σ) (m : String × Option Operation) : σ :=
  match m.2 with
  | none => s
  | some operation =>
    fn fullPath m.1 (mkOp fullPath m.1 (mergeParameters pathItem operation) operation) s

/-- The body of the outer loop of `EachOperation` (openapi.go:51-76), over the paths. -/
def eachPath {σ : Type} (fn : String → String → Op → σ → σ) (pathPrefix : String) (s : σ)
    (entry : String × Option PathItem) : σ :=
  match entry.2 with
  | none => s
  | some pathItem =>
    pathItem.Operations.foldl (eachMethod fn (pathPrefix ++ entry.1) pathItem) s

/-- `EachOperation` (openapi.go:39-77): calls `fn` for every (path, method, operation) of
the document.  `fn` acts on a state of type `σ`; the result is the state after all calls. -/
def EachOperation {σ : Type} (doc : Option T) (basePath : String)
    (fn : String → String → Op → σ → σ) (s : σ) : σ :=
  match doc with
  | none => s
  | some d =>
    match d.Paths with
    | none => s
    | some paths => paths.foldl (eachPath fn (pathPrefix basePath)) s

/-- The calls the description of `EachOperation` asks for, for one path item: one for each
non-nil operation, in order, with the full path, the method, and an `Op` whose parameters
are the path item's followed by the operation's. -/
def expectedCallsOfPath (fullPath : String) (pathItem : PathItem) :
    List (String × String × Op) :=
  pathItem.Operations.filterMap (fun m =>
    m.2.map (fun operation =>
      (fullPath, m.1,
        mkOp fullPath m.1 (pathItem.Parameters ++ operation.Parameters) operation)))

/-- The calls the description of `EachOperation` asks for: none for a nil document or nil
paths, and otherwise those of each non-nil path item, in order, under the prefixed path. -/
def expectedCalls (doc : Option T) (basePath : String) : List (String × String × Op) :=
  match doc with
  | none => []
  | some d =>
    match d.Paths with
    | none => []
    | some paths =>
      paths.flatMap (fun entry =>
        match entry.2 with
        | none => []
        | some pathItem => expectedCallsOfPath (pathPrefix basePath ++ entry.1) pathItem)

/-- A value in the map of one property of a tool's input schema: JSON taken over from the
OpenAPI schema, or a Go string set by the adapter. -/
inductive PropValue where
  | json (text : String)
  | str (s : String)
  deriving DecidableEq, Repr

/-- The `map[string]any` that describes one property of a tool's input schema. -/
abbrev PropMap := List (String × PropValue)

/-- Assignment `m[k] = v` on a Go map kept as the list of its entries. -/
def mapSet {β : Type} (m : List (String × β)) (k : String) (v : β) : List (String × β) :=
  if m.any (fun e => e.1 = k) then m.map (fun e => if e.1 = k then (k, v) else e)
  else m ++ [(k, v)]

/-- The input schema `buildInputSchema` returns (converter.go:129-136): an object schema
with its properties and, when there are any, the names of the required ones. -/
structure InputSchema where
  properties : List (String × PropMap)
  required : List String
  deriving DecidableEq, Repr

/-- `ToolDef` (converter.go:11-25). -/
structure ToolDef where
  Name : String
  Description : String
  InputSchema : InputSchema
  PathTemplate : String
  Method : String
  PathParamNames : List String
  QueryParamNames : List String
  HasBody : Bool
  deriving DecidableEq, Repr

/-- `http.Request`, as far as `CallAPI` fills it: method, URL, body (`none` for the nil
slice, an empty body) and the headers set. -/
structure Request where
  Method : String
  URL : String
  Body : Option String
  Header : List (String × String)
  deriving DecidableEq, Repr

/-- `http.Response`, as far as `CallAPI` reads it: the status code and the result of
reading the body. -/
structure Response where
  StatusCode : Int
  Body : Except String String

/-- The library functions the adapter calls and does not define, for argument values of
type `α` (Go's `any`): `fmt.Sprint`; `json.Marshal` of a value; `url.Values.Encode` of the
values set; the error of `http.NewRequestWithContext` for a method and a URL, `none` for
success; `http.Client.Do`; `json.Marshal` of a schema reference and `json.Unmarshal` into
a map, with raw JSON values; `RequestBody.GetMediaType`; and `json.Unmarshal` of the
arguments of a tool call. -/
structure McpLib (α : Type) where
  Sprint : α → String
  Marshal : α → Except String String
  Encode : List (String × String) → String
  NewRequestError : String → String → Option String
  Do : Request → Except String Response
  MarshalSchemaRef : SchemaRef → Option String
  UnmarshalMap : String → Option (List (String × String))
  GetMediaType : RequestBody → String → Option MediaType
  UnmarshalArgs : String → Option (Args α)

/-- `schemaRefToMap` (converter.go:157-172): the schema marshalled to JSON and read back
as a map, nil for a nil reference or on either error. -/
def schemaRefToMap {α : Type} (lib : McpLib α) (ref : Option SchemaRef) : Option PropMap :=
  match ref with
  | none => none
  | some r =>
    match lib.MarshalSchemaRef r with
    | none => none
    | some data =>
      match lib.UnmarshalMap data with
      | none => none
      | some m => some (m.map (fun e => (e.1, PropValue.json e.2)))

/-- `paramSchemaToJSONSchema` (converter.go:139-155). -/
def paramSchemaToJSONSchema {α : Type} (lib : McpLib α) (p : Parameter) : PropMap :=
  match (match p.Schema with
      | some ref => schemaRefToMap lib (some ref)
      | none => none) with
  | some m => if p.Description ≠ "" then mapSet m "description" (PropValue.str p.Description) else m
  | none =>
    let m : PropMap := [("type", PropValue.str "string")]
    if p.Description ≠ "" then mapSet m "description" (PropValue.str p.Description) else m

/-- `paramNamesByIn` (converter.go:82-96): the names of the path and of the query
parameters, in order. -/
def paramNamesByIn (params : Parameters) : List String × List String :=
  params.foldl (fun acc ref =>
    match ref with
    | none => acc
    | some r =>
      match r.Value with
      | none => acc
      | some p =>
        if p.In = "path" then (acc.1 ++ [p.Name], acc.2)
        else if p.In = "query" then (acc.1, acc.2 ++ [p.Name])
        else acc) ([], [])

/-- `buildInputSchema` (converter.go:98-137). -/
def buildInputSchema {α : Type} (lib : McpLib α) (op : Op) : InputSchema :=
  let fromParams : InputSchema :=
    op.Parameters.foldl (fun acc ref =>
      match ref with
      | none => acc
      | some r =>
        match r.Value with
        | none => acc
        | some p =>
          { properties := mapSet acc.properties p.Name (paramSchemaToJSONSchema lib p)
            required := if p.Required then acc.required ++ [p.Name] else acc.required })
      { properties := [], required := [] }
  match op.RequestBody with
  | none => fromParams
  | some bodyRef =>
    match bodyRef.Value with
    | none => fromParams
    | some body =>
      match body.Content with
      | none => fromParams
      | some _ =>
        match lib.GetMediaType body "application/json" with
        | none => fromParams
        | some mt =>
          match mt.Schema with
          | none => fromParams
          | some ref =>
            match schemaRefToMap lib (some ref) with
            | none => fromParams
            | some bodySchema =>
              { properties := mapSet fromParams.properties "body" bodySchema
                required :=
                  if body.Required then fromParams.required ++ ["body"]
                  else fromParams.required }

/-- `ToToolDef` (converter.go:32-59). -/
def ToToolDef {α : Type} (golib : GoLib) (lib : McpLib α) (op : Op) : ToolDef :=
  let name := if op.OperationID = "" then deriveToolName golib op.Method op.Path
    else op.OperationID
  let desc :=
    if op.Description ≠ "" then
      if op.Summary ≠ "" then op.Summary ++ ". " ++ op.Description else op.Description
    else op.Summary
  let hasBody :=
    match op.RequestBody with
    | none => false
    | some bodyRef => bodyRef.Value.isSome
  { Name := name
    Description := desc
    InputSchema := buildInputSchema lib op
    PathTemplate := op.Path
    Method := strings.ToUpper golib op.Method
    PathParamNames := (paramNamesByIn op.Parameters).1
    QueryParamNames := (paramNamesByIn op.Parameters).2
    HasBody := hasBody }

/-- The query values `CallAPI` collects (caller.go:24-29): for each name of
`QueryParamNames` with a non-nil argument, in order, `q.Set(name, fmt.Sprint(v))`. -/
def queryValues {α : Type} (lib : McpLib α) (names : List String) (args : Args α) :
    List (String × String) :=
  names.foldl (fun q name =>
    match args name with
    | some (some v) => mapSet q name (lib.Sprint v)
    | _ => q) []

/-- The URL `CallAPI` requests (caller.go:21-33). -/
def fullURL {α : Type} (lib : McpLib α) (baseURL : String) (d : ToolDef) (args : Args α) :
    String :=
  let path := interpolatePath lib.Sprint d.PathTemplate args d.PathParamNames
  let fullURL := strings.TrimSuffix baseURL "/" ++ path
  if d.QueryParamNames.length > 0 then
    let q := queryValues lib d.QueryParamNames args
    if lib.Encode q ≠ "" then fullURL ++ "?" ++ lib.Encode q else fullURL
  else fullURL

/-- The body `CallAPI` sends (caller.go:35-43): `none` is the nil slice, an empty body;
an error of `json.Marshal` ends the call. -/
def requestBody {α : Type} (lib : McpLib α) (d : ToolDef) (args : Args α) :
    Except String (Option String) :=
  if d.HasBody ∧ (d.Method = "POST" ∨ d.Method = "PUT" ∨ d.Method = "PATCH") then
    match args "body" with
    | some (some b) =>
      match lib.Marshal b with
      | .ok data => .ok (some data)
      | .error e => .error ("marshal body: " ++ e)
    | _ => .ok none
  else .ok none

/-- The method of the request that `http.NewRequestWithContext` makes (caller.go:45): the
empty method stands for GET. -/
def requestMethod (method : String) : String :=
  if method = "" then "GET" else method

/-- The request `CallAPI` builds (caller.go:21-50), or the error it returns before any
request is sent.  The header lists the fields given to `Header.Set`, in order. -/
def buildRequest {α : Type} (lib : McpLib α) (baseURL apiKey : String) (d : ToolDef)
    (args : Args α) : Except String Request :=
  let fullURL := fullURL lib baseURL d args
  match requestBody lib d args with
  | .error e => .error e
  | .ok body =>
    match lib.NewRequestError (requestMethod d.Method) fullURL with
    | some e => .error ("create request: " ++ e)
    | none =>
      .ok { Method := requestMethod d.Method
            URL := fullURL
            Body := body
            Header := [("Content-Type", "application/json"), ("x-api-key", apiKey)] }

/-- The four results of `CallAPI`; `none` for a nil slice and for a nil error. -/
structure CallResult where
  responseBody : Option String
  statusCode : Int
  isErr : Bool
  err : Option String
  deriving DecidableEq, Repr

/-- What `CallAPI` returns for the outcome of `client.Do` (caller.go:53-65). -/
def readResponse (outcome : Except String Response) : CallResult :=
  match outcome with
  | .error e =>
    { responseBody := none, statusCode := 0, isErr := true, err := some ("request: " ++ e) }
  | .ok resp =>
    match resp.Body with
    | .error e =>
      { responseBody := none, statusCode := resp.StatusCode, isErr := true
        err := some ("read response: " ++ e) }
    | .ok data =>
      { responseBody := some data, statusCode := resp.StatusCode
        isErr := decide (resp.StatusCode ≥ 400), err := none }

/-- `CallAPI` (caller.go:20-66). -/
def CallAPI {α : Type} (lib : McpLib α) (baseURL apiKey : String) (d : ToolDef)
    (args : Args α) : CallResult :=
  match buildRequest lib baseURL apiKey d args with
  | .error e => { responseBody := none, statusCode := 0, isErr := true, err := some e }
  | .ok req => readResponse (lib.Do req)

/-- The rune that starts the query of a URL, the question mark. -/
def queryMark : Char := Char.ofNat 63

/-- The rune that starts the fragment of a URL, the number sign. -/
def fragmentMark : Char := Char.ofNat 35

/-- The text behind the first occurrence of a rune, `none` when it does not occur: the
second and third result of `strings.Cut`. -/
def cutAfter (c : Char) : List Char → Option (List Char)
  | [] => none
  | x :: rest => if x = c then some rest else cutAfter c rest

/-- `URL.RawQuery` of the URL that `url.Parse` reads from a text: the fragment is cut off at
the first number sign, and the query is what follows the first question mark before it. -/
def rawQuery (rawURL : String) : String :=
  match cutAfter queryMark (rawURL.data.takeWhile (fun x => x ≠ fragmentMark)) with
  | some q => String.mk q
  | none => ""

/-- The pieces of a text between occurrences of a rune (`strings.Split`). -/
def splitOn (c : Char) : List Char → List (List Char)
  | [] => [[]]
  | x :: rest =>
    if x = c then [] :: splitOn c rest
    else
      match splitOn c rest with
      | [] => [[x]]
      | piece :: pieces => (x :: piece) :: pieces

/-- The names in a raw query without escape sequences, in order: of every non-empty piece
between ampersands, the text before the first equals sign. -/
def queryNames (query : String) : List String :=
  ((splitOn (Char.ofNat 38) query.data).filter (fun piece => piece ≠ [])).map
    (fun piece => String.mk (piece.takeWhile (fun x => x ≠ Char.ofNat 61)))

/-- `mcpsdk.Tool`, the fields `NewServer` fills. -/
structure Tool where
  Name : String
  Description : String
  InputSchema : InputSchema
  deriving DecidableEq, Repr

/-- The closure `makeToolHandler` returns (server.go:53-83), as the values it captures. -/
structure ToolHandler where
  baseURL : String
  apiKey : String
  toolDef : ToolDef
  deriving DecidableEq, Repr

/-- `mcpsdk.CallToolResult`, as a handler builds it: through `SetError`, or with one text
content and the error flag. -/
inductive CallToolResult where
  | setError (err : String)
  | text (text : String) (IsError : Bool)
  deriving DecidableEq, Repr

/-- The body of the closure `makeToolHandler` returns (server.go:54-82), for the raw
arguments of the request (`none` when `Params` or `Arguments` is nil). -/
def ToolHandler.call {α : Type} (lib : McpLib α) (h : ToolHandler) (raw : Option String) :
    CallToolResult :=
  let args : Args α :=
    match raw with
    | none => Args.empty α
    | some r =>
      if r.utf8ByteSize > 0 then
        match lib.UnmarshalArgs r with
        | some a => a
        | none => Args.empty α
      else Args.empty α
  let res := CallAPI lib h.baseURL h.apiKey h.toolDef args
  match res.err with
  | some e => CallToolResult.setError e
  | none =>
    let text := res.responseBody.getD ""
    CallToolResult.text (if text = "" then "OK" else text) res.isErr

/-- `mcpsdk.Implementation`. -/
structure Implementation where
  Name : String
  Version : String
  deriving DecidableEq, Repr

/-- The two functions of the MCP SDK that `NewServer` calls, for servers of type `S`:
`mcpsdk.NewServer` and `Server.AddTool`. -/
structure Sdk (S : Type) where
  NewServer : Implementation → S
  AddTool : S → Tool → ToolHandler → S

/-- `ServerConfig` (server.go:13-19). -/
structure ServerConfig where
  BaseURL : String
  APIKey : String
  SpecPath : String
  APIDoc : Option T
  BasePath : String
  deriving DecidableEq, Repr

/-- The tool `NewServer` builds from a tool definition (server.go:41-45). -/
def toolOf (d : ToolDef) : Tool :=
  { Name := d.Name, Description := d.Description, InputSchema := d.InputSchema }

/-- The callback `NewServer` gives to `EachOperation` (server.go:39-48). -/
def registerTool {α S : Type} (golib : GoLib) (lib : McpLib α) (sdk : Sdk S)
    (cfg : ServerConfig) (_path _method : String) (op : Op) (server : S) : S :=
  let d := ToToolDef golib lib op
  sdk.AddTool server (toolOf d) { baseURL := cfg.BaseURL, apiKey := cfg.APIKey, toolDef := d }

/-- `NewServer` (server.go:22-51): the server and the error it returns, `none` for nil. -/
def NewServer {α S : Type} (golib : GoLib) (lib : McpLib α) (sdk : Sdk S)
    (cfg : ServerConfig) : Option S × Option String :=
  match cfg.APIDoc with
  | none => (none, none)
  | some doc =>
    let basePath := if cfg.BasePath = "" then "/v1" else cfg.BasePath
    let server := sdk.NewServer { Name := "flexprice", Version := "1.0" }
    (some (EachOperation (some doc) basePath (registerTool golib lib sdk cfg) server), none)

/-- The name `ToToolDef` gives a tool (converter.go:33-36). -/
def toolName (golib : GoLib) (op : Op) : String :=
  if op.OperationID = "" then deriveToolName golib op.Method op.Path else op.OperationID

/-- An SDK whose server is the map from tool names to the tools with their handlers, and
whose `AddTool` follows the SDK's documentation: it adds a tool, or replaces the one of the
same name. -/
def registrySdk : Sdk (List (String × Tool × ToolHandler)) where
  NewServer := fun _ => []
  AddTool := fun s t h => mapSet s t.Name (t, h)

/-- The encoding of query values used in examples: `k=v` joined by `&`, in order. -/
def encodePlain : List (String × String) → String
  | [] => ""
  | [e] => e.1 ++ "=" ++ e.2
  | e :: rest => e.1 ++ "=" ++ e.2 ++ "&" ++ encodePlain rest

/-- A library instance for examples, with strings as argument values: `fmt.Sprint` of a
string is the string, `json.Marshal` quotes it, the HTTP client answers 200 with the
requested URL, and schemas read back as a map with the one key `type`. -/
def plainLib : McpLib String where
  Sprint := id
  Marshal := fun s => .ok (types.quoteJSON s)
  Encode := encodePlain
  NewRequestError := fun _ _ => none
  Do := fun req => .ok { StatusCode := 200, Body := .ok req.URL }
  MarshalSchemaRef := fun r => some r
  UnmarshalMap := fun data => some [("type", data)]
  GetMediaType := fun body mediaType =>
    match body.Content with
    | none => none
    | some content => (content.find? (fun e => e.1 = mediaType)).map (fun e => e.2)
  UnmarshalArgs := fun _ => none

/-- Example arguments: `id` is 42, `n` is nil, and nothing else is present. -/
def exampleArgs : Args String := fun k =>
  if k = "id" then some (some "42") else if k = "n" then some none else none

/-- Example arguments of a call: `id` is 42, `limit` is 10, `offset` is nil, `body` is the
text `x`, and nothing else is present. -/
def exampleCallArgs : Args String := fun k =>
  if k = "id" then some (some "42")
  else if k = "limit" then some (some "10")
  else if k = "offset" then some none
  else if k = "body" then some (some "x")
  else none

/-- An example tool definition: a POST with a body, one path and three query parameters. -/
def exampleToolDef : ToolDef :=
  { Name := "post_customers_id_wallets"
    Description := ""
    InputSchema := { properties := [], required := [] }
    PathTemplate := "/v1/customers/\x7bid\x7d/wallets"
    Method := "POST"
    PathParamNames := ["id"]
    QueryParamNames := ["limit", "offset", "cursor"]
    HasBody := true }

/-- An example parameter reference. -/
def exampleParam (name location : String) : Option ParameterRef :=
  some { Ref := "", Value := some { Name := name, In := location, Description := ""
                                    Required := true, Schema := none } }

/-- An example operation with the given identifier and parameters and no request body. -/
def exampleOperation (operationID : String) (params : Parameters) : Operation :=
  { Summary := "", Description := "", OperationID := operationID, Parameters := params
    RequestBody := none }

/-- An example document: a path item with a parameter, one operation with a parameter of
its own and one nil operation; a nil path item; and a path item with one operation. -/
def exampleDoc : T :=
  { Paths := some
      [("/addons/\x7bid\x7d",
          some { Parameters := [exampleParam "id" "path"]
                 Operations := [("GET", some (exampleOperation "getAddon"
                                    [exampleParam "expand" "query"])),
                                ("DELETE", none)] }),
        ("/x", none),
        ("/customers",
          some { Parameters := []
                 Operations := [("POST", some (exampleOperation "" []))] })] }

/-- The number of non-nil operations of the non-nil path items of a document. -/
def operationCount (doc : Option T) : Nat :=
  match doc with
  | none => 0
  | some d =>
    match d.Paths with
    | none => 0
    | some paths =>
      (paths.map (fun entry =>
        match entry.2 with
        | none => 0
        | some pathItem => (pathItem.Operations.filter (fun m => m.2.isSome)).length)).sum

/-- An example tool definition: a GET with one path and one query parameter. -/
def addonToolDef : ToolDef :=
  { Name := "get_addons_id"
    Description := ""
    InputSchema := { properties := [], required := [] }
    PathTemplate := "/v1/addons/\x7bid\x7d"
    Method := "GET"
    PathParamNames := ["id"]
    QueryParamNames := ["limit"]
    HasBody := false }

/-- Example arguments of a call: `id` is a text with a question mark, and nothing else is
present. -/
def queryInPathArgs : Args String := fun k =>
  if k = "id" then some (some "a?x=1&limit=9") else none

/-- A callback for `EachOperation` that records its calls, in order. -/
def recordCall (path method : String) (op : Op) (calls : List (String × String × Op)) :
    List (String × String × Op) :=
  calls ++ [(path, method, op)]

/-- The names of the tools of the operations of a document, in order. -/
def toolNames (golib : GoLib) (doc : Option T) (basePath : String) : List String :=
  (expectedCalls doc basePath).map (fun c => toolName golib c.2.2)

/-- An example configuration, for the example document and an empty base path. -/
def exampleConfig : ServerConfig :=
  { BaseURL := "http://api", APIKey := "key", SpecPath := "", APIDoc := some exampleDoc
    BasePath := "" }

/-- A document with two operations without identifier, on paths that differ in one rune
that is neither a letter nor a digit. -/
def collidingDoc : T :=
  { Paths := some
      [("/a-b", some { Parameters := []
                       Operations := [("GET", some (exampleOperation "" []))] }),
        ("/a_b", some { Parameters := []
                        Operations := [("GET", some (exampleOperation "" []))] })] }

/-- A configuration for `collidingDoc`. -/
def collidingConfig : ServerConfig :=
  { BaseURL := "http://api", APIKey := "key", SpecPath := "", APIDoc := some collidingDoc
    BasePath := "" }

end mcp

/-! ### Paths: `path/filepath` on Unix

The separator is the slash and there is no volume name.  Paths are kept as their runes;
the slash and the dot are single bytes, so this agrees with the byte-wise library code. -/

namespace filepath

/-- `filepath.Separator` on Unix. -/
def Separator : Char := Char.ofNat 47

/-- `os.IsPathSeparator` on Unix. -/
def IsPathSeparator (c : Char) : Bool := decide (c = Separator)

/-- `filepath.Base`: the last element of the path.  Trailing separators are removed first;
the empty path gives a dot, and a path of separators only gives one separator. -/
def Base (path : String) : String :=
  if path = "" then "."
  else
    let stripped := path.data.rdropWhile IsPathSeparator
    let last := stripped.rtakeWhile (fun c => !IsPathSeparator c)
    if last = [] then String.singleton Separator else String.mk last

/-- The pieces of a path between its separators; neighbouring separators give an empty
piece. -/
def splitSep : List Char → List (List Char)
  | [] => [[]]
  | c :: rest =>
    if IsPathSeparator c then [] :: splitSep rest
    else
      match splitSep rest with
      | [] => [[c]]
      | piece :: pieces => (c :: piece) :: pieces

/-- Whether a path starts with a separator. -/
def rooted (path : String) : Bool :=
  match path.data with
  | [] => false
  | c :: _ => IsPathSeparator c

/-- One step of `filepath.Clean` over the elements of a path, with the elements kept so
far in reverse order: an empty element and a dot are dropped; a double dot removes the
element before it, unless there is none or it is a double dot that was kept, in which case
it is dropped on a rooted path and kept otherwise; any other element is kept. -/
def cleanStep (isRooted : Bool) (kept : List String) (elem : String) : List String :=
  if elem = "" ∨ elem = "." then kept
  else if elem = ".." then
    match kept with
    | [] => if isRooted then [] else [".."]
    | top :: below => if top = ".." then ".." :: top :: below else below
  else elem :: kept

/-- The elements that `filepath.Clean` keeps, in order. -/
def elements (path : String) : List String :=
  (((splitSep path.data).map String.mk).foldl (cleanStep (rooted path)) []).reverse

/-- The path `filepath.Clean` writes for the elements it keeps: the elements joined by
single separators, behind a separator for a rooted path, and a dot when that is empty. -/
def joinElements (isRooted : Bool) (elems : List String) : String :=
  let out := (if isRooted then String.singleton Separator else "") ++
    strings.Join elems (String.singleton Separator)
  if out = "" then "." else out

/-- `filepath.Clean` on Unix: the shortest path equivalent by purely lexical processing. -/
def Clean (path : String) : String :=
  joinElements (rooted path) (elements path)

/-- `filepath.Join` on Unix: from the first non-empty element on, the elements joined by
separators and cleaned; the result is empty when all elements are. -/
def Join (elem : List String) : String :=
  match elem.dropWhile (fun e => e = "") with
  | [] => ""
  | rest => Clean (strings.Join rest (String.singleton Separator))

/-- A path element: not empty, not a dot, and without a separator. -/
def IsElem (e : String) : Prop := e ≠ "" ∧ e ≠ "." ∧ Separator ∉ e.data

/-- The shape of the elements `filepath.Clean` keeps, in reverse order: every one is a path
element, and a double dot occurs only on a path that is not rooted, at the start or behind
another double dot. -/
def canonRev (isRooted : Bool) : List String → Prop
  | [] => True
  | top :: below =>
    IsElem top ∧ canonRev isRooted below ∧
      (top = ".." → isRooted = false ∧ (below = [] ∨ below.head? = some ".."))

end filepath

/-! ### Typst templates: `internal/typst` and `internal/pdf` -/

namespace typst

/-- A byte slice, kept as the text it holds. -/
abbrev Bytes := String

/-- The `compiler` struct (typst.go:25-36), without its logger. -/
structure compiler where
  binaryPath : String
  fontDir : String
  templateDir : String
  outputDir : String
  deriving DecidableEq, Repr

/-- `CompileOpts` (typst.go:39-48). -/
structure CompileOpts where
  InputFile : String
  OutputFile : String
  FontDirs : List String
  ExtraArgs : List String
  deriving DecidableEq, Repr

/-- `CompileOptsBuilder` (typst.go:50): a change of the options. -/
abbrev CompileOptsBuilder := CompileOpts → CompileOpts

/-- `WithInputFile` (typst.go:52-56). -/
def WithInputFile (inputFile : String) : CompileOptsBuilder :=
  fun c => { c with InputFile := inputFile }

/-- `WithOutputFile` (typst.go:58-62). -/
def WithOutputFile (outputFile : String) : CompileOptsBuilder :=
  fun c => { c with OutputFile := outputFile }

/-- `WithFontDirs` (typst.go:64-68). -/
def WithFontDirs (fontDirs : List String) : CompileOptsBuilder :=
  fun c => { c with FontDirs := fontDirs }

/-- `WithExtraArgs` (typst.go:70-74). -/
def WithExtraArgs (extraArgs : List String) : CompileOptsBuilder :=
  fun c => { c with ExtraArgs := extraArgs }

/-- `DefaultCompiler` (typst.go:88-96), for the directory `os.TempDir()` returns. -/
def DefaultCompiler (tempDir : String) : compiler :=
  { binaryPath := "typst"
    fontDir := "assets/fonts"
    templateDir := "assets/typst-templates"
    outputDir := tempDir }

/-- The operating system as the compiler uses it: the time in milliseconds
(`time.Now().UnixMilli()`); whether `os.Stat` of a path fails with an error for which
`os.IsNotExist` holds; the error of `os.Create` of a path and of writing data to a created
file, `none` for success; the error of running a command with arguments; and
`os.ReadFile`. -/
structure OS where
  UnixMilli : Int
  StatNotExist : String → Bool
  Create : String → Option String
  Write : String → Bytes → Option String
  Run : String → List String → Option String
  ReadFile : String → Except String Bytes

/-- The arguments `Compile` gives to the typst binary (typst.go:114-133). -/
def compileArgs (c : compiler) (opts : CompileOpts) (outputFile : String) : List String :=
  let fontDirs := (if c.fontDir ≠ "" then [c.fontDir] else []) ++ opts.FontDirs
  ["compile", "--root", "/"] ++ fontDirs.flatMap (fun dir => ["--font-path", dir]) ++
    opts.ExtraArgs ++ [opts.InputFile, outputFile]

/-- `Compile` (typst.go:99-154): the path of the output file, or the message of the
error. -/
def Compile (os : OS) (c : compiler) (opts : CompileOpts) : Except String String :=
  let created : Except String String :=
    if opts.OutputFile = "" then
      let tmpFilePath := filepath.Join [c.outputDir, "typst-" ++ toString os.UnixMilli ++ ".pdf"]
      match os.Create tmpFilePath with
      | some _ => .error "failed to create temporary output file"
      | none => .ok tmpFilePath
    else .ok (filepath.Join [c.outputDir, opts.OutputFile])
  match created with
  | .error e => .error e
  | .ok outputFile =>
    match os.Run c.binaryPath (compileArgs c opts outputFile) with
    | some _ => .error "typst compilation failed"
    | none => .ok outputFile

/-- `CompileToBytes` (typst.go:157-164). -/
def CompileToBytes (os : OS) (c : compiler) (opts : CompileOpts) : Except String Bytes :=
  match Compile os c opts with
  | .error e => .error e
  | .ok pdfPath => os.ReadFile pdfPath

/-- The path `CompileTemplate` resolves for a template (typst.go:177), for the text that
`templateName.String()` returns. -/
def templatePath (c : compiler) (templateName : String) : String :=
  filepath.Join [c.templateDir, filepath.Base templateName]

/-- The options `CompileTemplate` compiles with (typst.go:202-211). -/
def templateOpts (templatePath jsonFile : String) (opts : List CompileOptsBuilder) :
    CompileOpts :=
  opts.foldl (fun compileOpts opt => opt compileOpts)
    { InputFile := templatePath
      OutputFile := ""
      FontDirs := []
      ExtraArgs := ["--input", "path=" ++ jsonFile] }

/-- `CompileTemplate` (typst.go:171-214), for the text that `templateName.String()`
returns: the bytes of the document, or the message of the error. -/
def CompileTemplate (os : OS) (c : compiler) (templateName : String) (data : Bytes)
    (opts : List CompileOptsBuilder) : Except String Bytes :=
  let templatePath := templatePath c templateName
  if os.StatNotExist templatePath then .error ("template not found: " ++ templatePath)
  else
    let jsonFile := filepath.Join [c.outputDir, "typst-" ++ toString os.UnixMilli ++ ".json"]
    match os.Create jsonFile with
    | some _ => .error "failed to create temporary json file"
    | none =>
      match os.Write jsonFile data with
      | some _ => .error "failed to write data to json file"
      | none => CompileToBytes os c (templateOpts templatePath jsonFile opts)

/-- The template `RenderInvoicePdf` compiles (service.go:40-43): the caller's, or the
default `types.TemplateInvoiceDefault`, a constant taken as a parameter. -/
def invoiceTemplate (TemplateInvoiceDefault : String) (templateName : Option String) :
    String :=
  match templateName with
  | some name => name
  | none => TemplateInvoiceDefault

/-- `RenderInvoicePdf` (service.go:38-65), for the result of `json.Marshal` of the invoice
data and the identifier of the invoice. -/
def RenderInvoicePdf (os : OS) (c : compiler) (TemplateInvoiceDefault : String)
    (jsonData : Except String Bytes) (invoiceID : String) (templateName : Option String) :
    Except String Bytes :=
  match jsonData with
  | .error _ => .error "failed to marshal invoice data"
  | .ok data =>
    match CompileTemplate os c (invoiceTemplate TemplateInvoiceDefault templateName) data
        [WithOutputFile ("invoice-" ++ invoiceID ++ ".pdf")] with
    | .error _ => .error "failed to compile invoice template"
    | .ok pdf => .ok pdf

/-- The claim's entry located directly inside a directory: the cleaned path is rooted
exactly when the directory is, and its elements are those of the cleaned directory followed
by one more, which is not a double dot. -/
def directlyInside (templateDir path : String) : Bool :=
  decide (filepath.rooted path = filepath.rooted templateDir) &&
    decide ((filepath.elements path).dropLast = filepath.elements templateDir) &&
    decide (filepath.elements path ≠ []) &&
    decide ((filepath.elements path).getLast? ≠ some "..")

/-- An operating system for examples, in which every path exists, every call succeeds,
and reading a file gives its path. -/
def exampleOS : OS :=
  { UnixMilli := 0
    StatNotExist := fun _ => false
    Create := fun _ => none
    Write := fun _ _ => none
    Run := fun _ _ => none
    ReadFile := fun path => .ok path }

end typst

/-! ## Theorems -/

/-! ### Concurrent debits -/

namespace WalletLedger

/-- Helper: the sum of a mapped list after replacing the element at index `i`. -/
theorem sum_map_set (f : Call → ℚ) (l : List Call) (i : Nat) (c c' : Call)
    (h : l[i]? = some c) :
    ((l.set i c').map f).sum = (l.map f).sum - f c + f c' := by
  induction l generalizing i with
  | nil => simp at h
  | cons a rest ih =>
    cases i with
    | zero =>
      simp at h
      subst h
      simp
      ring
    | succ j =>
      simp at h
      rw [List.set_cons_succ, List.map_cons, List.sum_cons, ih j h, List.map_cons,
        List.sum_cons]
      ring

/-- Helper: the count of a predicate after replacing the element at index `i`. -/
theorem countP_set_of (p : Call → Bool) (l : List Call) (i : Nat) (c c' : Call)
    (h : l[i]? = some c) :
    (l.set i c').countP p + (if p c then 1 else 0) =
      l.countP p + (if p c' then 1 else 0) := by
  induction l generalizing i with
  | nil => simp at h
  | cons a rest ih =>
    cases i with
    | zero =>
      simp at h
      subst h
      simp [List.countP_cons]
      omega
    | succ j =>
      simp at h
      have := ih j h
      simp [List.countP_cons]
      omega

/-- Helper: the error `Debit` returns is the one `debitCheck` finds. -/
theorem Debit_snd (w : Wallet) (a : Decimal) (cur : String) :
    (Debit w a cur).2 = debitCheck w a cur := by
  unfold Debit
  cases debitCheck w a cur <;> rfl

/-- Helper: when the checks pass, `Debit` stores the debited wallet. -/
theorem Debit_fst_of_ok (w : Wallet) (a : Decimal) (cur : String)
    (h : debitCheck w a cur = none) : (Debit w a cur).1 = applyDebit w a := by
  unfold Debit
  rw [h]

/-- Helper: the six ways a call can step: load, fail a check, commit, retry, give up, or
stay returned. -/
theorem stepCall_spec (maxAttempts : Nat) (st : Store) (c : Call) :
    (∃ n, c.state = CallState.ready n ∧
      stepCall maxAttempts st c =
        (st, { c with state := CallState.loaded n st.wallet st.version })) ∨
    (∃ n snap v e, c.state = CallState.loaded n snap v ∧
      debitCheck snap c.amount c.currency = some e ∧
      stepCall maxAttempts st c = (st, { c with state := CallState.done (some e) })) ∨
    (∃ n snap v, c.state = CallState.loaded n snap v ∧
      debitCheck snap c.amount c.currency = none ∧ st.version = v ∧
      stepCall maxAttempts st c =
        ({ wallet := applyDebit snap c.amount, version := st.version + 1 },
          { c with state := CallState.done none })) ∨
    (∃ n snap v, c.state = CallState.loaded n snap v ∧
      debitCheck snap c.amount c.currency = none ∧ st.version ≠ v ∧ n + 1 < maxAttempts ∧
      stepCall maxAttempts st c = (st, { c with state := CallState.ready (n + 1) })) ∨
    (∃ n snap v, c.state = CallState.loaded n snap v ∧
      debitCheck snap c.amount c.currency = none ∧ st.version ≠ v ∧ ¬ n + 1 < maxAttempts ∧
      stepCall maxAttempts st c =
        (st, { c with state := CallState.done (some LedgerError.ErrConcurrentModification) })) ∨
    (∃ r, c.state = CallState.done r ∧ stepCall maxAttempts st c = (st, c)) := by
  cases hs : c.state with
  | ready n =>
    left
    exact ⟨n, rfl, by simp [stepCall, hs, LoadWallet]⟩
  | loaded n snap v =>
    right
    cases hchk : debitCheck snap c.amount c.currency with
    | some e =>
      left
      exact ⟨n, snap, v, e, rfl, hchk, by simp [stepCall, hs, Debit_snd, hchk]⟩
    | none =>
      right
      by_cases hv : st.version = v
      · left
        exact ⟨n, snap, v, rfl, hchk, hv, by
          simp [stepCall, hs, Debit_snd, hchk, SaveWallet, hv, Debit_fst_of_ok]⟩
      · right
        by_cases hn : n + 1 < maxAttempts
        · left
          exact ⟨n, snap, v, rfl, hchk, hv, hn, by
            simp [stepCall, hs, Debit_snd, hchk, SaveWallet, hv, hn]⟩
        · right
          left
          exact ⟨n, snap, v, rfl, hchk, hv, hn, by
            simp [stepCall, hs, Debit_snd, hchk, SaveWallet, hv, hn]⟩
  | done r =>
    right; right; right; right; right
    exact ⟨r, rfl, by simp [stepCall, hs]⟩

/-- Helper: writing back the element read leaves the list unchanged. -/
theorem set_same (l : List Call) (i : Nat) (c : Call) (h : l[i]? = some c) : l.set i c = l := by
  induction l generalizing i with
  | nil => simp
  | cons a rest ih =>
    cases i with
    | zero =>
      simp at h
      subst h
      simp
    | succ j =>
      simp at h
      simp [ih j h]

/-- Helper: a replacement that `g` does not see leaves the mapped list unchanged. -/
theorem map_set_same {β : Type} (g : Call → β) (l : List Call) (i : Nat) (c c' : Call)
    (h : l[i]? = some c) (hg : g c' = g c) : (l.set i c').map g = l.map g := by
  induction l generalizing i with
  | nil => simp
  | cons a rest ih =>
    cases i with
    | zero =>
      simp at h
      subst h
      simp [hg]
    | succ j =>
      simp at h
      rw [List.set_cons_succ, List.map_cons, ih j h, List.map_cons]

/-- Helper: a scheduler step either changes nothing (no such call, or it has returned) or
is one of the five transitions of `stepCall` written back at index `i`. -/
theorem step_cases (maxAttempts : Nat) (sys : System) (i : Nat) :
    ((sys.calls[i]? = none ∨ ∃ c r, sys.calls[i]? = some c ∧ c.state = CallState.done r) ∧
      step maxAttempts sys i = sys) ∨
    ∃ c, sys.calls[i]? = some c ∧
      ((∃ n, c.state = CallState.ready n ∧
          step maxAttempts sys i =
            { store := sys.store
              calls := sys.calls.set i
                { c with state := CallState.loaded n sys.store.wallet sys.store.version } }) ∨
       (∃ n snap v e, c.state = CallState.loaded n snap v ∧
          debitCheck snap c.amount c.currency = some e ∧
          step maxAttempts sys i =
            { store := sys.store
              calls := sys.calls.set i { c with state := CallState.done (some e) } }) ∨
       (∃ n snap v, c.state = CallState.loaded n snap v ∧
          debitCheck snap c.amount c.currency = none ∧ sys.store.version = v ∧
          step maxAttempts sys i =
            { store := { wallet := applyDebit snap c.amount, version := sys.store.version + 1 }
              calls := sys.calls.set i { c with state := CallState.done none } }) ∨
       (∃ n snap v, c.state = CallState.loaded n snap v ∧
          debitCheck snap c.amount c.currency = none ∧ sys.store.version ≠ v ∧
          n + 1 < maxAttempts ∧
          step maxAttempts sys i =
            { store := sys.store
              calls := sys.calls.set i { c with state := CallState.ready (n + 1) } }) ∨
       (∃ n snap v, c.state = CallState.loaded n snap v ∧
          debitCheck snap c.amount c.currency = none ∧ sys.store.version ≠ v ∧
          ¬ n + 1 < maxAttempts ∧
          step maxAttempts sys i =
            { store := sys.store
              calls := sys.calls.set i
                { c with state :=
                    CallState.done (some LedgerError.ErrConcurrentModification) } })) := by
  unfold step
  cases hget : sys.calls[i]? with
  | none => exact Or.inl ⟨Or.inl rfl, rfl⟩
  | some c =>
    rcases stepCall_spec maxAttempts sys.store c with
      ⟨n, hs, heq⟩ | ⟨n, snap, v, e, hs, hchk, heq⟩ | ⟨n, snap, v, hs, hchk, hv, heq⟩ |
      ⟨n, snap, v, hs, hchk, hv, hn, heq⟩ | ⟨n, snap, v, hs, hchk, hv, hn, heq⟩ | ⟨r, hs, heq⟩
    · exact Or.inr ⟨c, rfl, Or.inl ⟨n, hs, by simp [heq]⟩⟩
    · exact Or.inr ⟨c, rfl, Or.inr (Or.inl ⟨n, snap, v, e, hs, hchk, by simp [heq]⟩)⟩
    · exact Or.inr ⟨c, rfl, Or.inr (Or.inr (Or.inl ⟨n, snap, v, hs, hchk, hv, by simp [heq]⟩))⟩
    · exact Or.inr ⟨c, rfl,
        Or.inr (Or.inr (Or.inr (Or.inl ⟨n, snap, v, hs, hchk, hv, hn, by simp [heq]⟩)))⟩
    · exact Or.inr ⟨c, rfl,
        Or.inr (Or.inr (Or.inr (Or.inr ⟨n, snap, v, hs, hchk, hv, hn, by simp [heq]⟩)))⟩
    · left
      refine ⟨Or.inr ⟨c, r, rfl, hs⟩, ?_⟩
      simp only [heq, set_same _ _ _ hget]

/-- Helper: the successful debits after replacing the call at index `i`. -/
theorem debited_set (l : List Call) (i : Nat) (c c' : Call) (h : l[i]? = some c) :
    debited (l.set i c') =
      debited l - (if c.succeeded then c.amount else 0) +
        (if c'.succeeded then c'.amount else 0) := by
  unfold debited
  exact sum_map_set _ l i c c' h

/-- Helper: passing the checks means the amount fits the balance. -/
theorem debitCheck_none_le (w : Wallet) (a : Decimal) (cur : String)
    (h : debitCheck w a cur = none) : a ≤ w.balance := by
  unfold debitCheck at h
  split_ifs at h with h1 h2 h3 h4
  exact not_lt.mp h4

/-- Every scheduler step preserves the ledger invariant. -/
theorem step_LedgerInv (maxAttempts : Nat) (requests : List (Decimal × String)) (B : Decimal)
    (sys : System) (i : Nat) (hinv : LedgerInv requests B sys) :
    LedgerInv requests B (step maxAttempts sys i) := by
  obtain ⟨hreq, hsum, hnn, hsnap⟩ := hinv
  rcases step_cases maxAttempts sys i with ⟨_, hsame⟩ | ⟨c, hget, hcase⟩
  · rw [hsame]
    exact ⟨hreq, hsum, hnn, hsnap⟩
  · have hmem : c ∈ sys.calls := List.getElem?_mem hget
    rcases hcase with ⟨n, hs, heq⟩ | ⟨n, snap, v, e, hs, hchk, heq⟩ |
      ⟨n, snap, v, hs, hchk, hv, heq⟩ | ⟨n, snap, v, hs, hchk, hv, hn, heq⟩ |
      ⟨n, snap, v, hs, hchk, hv, hn, heq⟩
    · rw [heq]
      refine ⟨?_, ?_, hnn, ?_⟩
      · rw [← hreq]
        exact map_set_same _ _ _ c _ hget rfl
      · rw [← hsum, debited_set _ _ c _ hget]
        simp [Call.succeeded, hs]
      · intro x hx m s w hxs
        rcases List.mem_or_eq_of_mem_set hx with hx | hx
        · exact hsnap x hx m s w hxs
        · subst hx
          simp at hxs
          obtain ⟨_, rfl, rfl⟩ := hxs
          exact ⟨le_refl _, fun _ => rfl⟩
    · rw [heq]
      refine ⟨?_, ?_, hnn, ?_⟩
      · rw [← hreq]
        exact map_set_same _ _ _ c _ hget rfl
      · rw [← hsum, debited_set _ _ c _ hget]
        simp [Call.succeeded, hs]
      · intro x hx m s w hxs
        rcases List.mem_or_eq_of_mem_set hx with hx | hx
        · exact hsnap x hx m s w hxs
        · subst hx
          simp at hxs
    · rw [heq]
      have hsn := (hsnap c hmem n snap v hs).2 hv.symm
      have hle := debitCheck_none_le _ _ _ hchk
      refine ⟨?_, ?_, ?_, ?_⟩
      · rw [← hreq]
        exact map_set_same _ _ _ c _ hget rfl
      · rw [← hsum, debited_set _ _ c _ hget]
        simp [Call.succeeded, hs, applyDebit, hsn]
      · simp [applyDebit]
        exact hle
      · intro x hx m s w hxs
        rcases List.mem_or_eq_of_mem_set hx with hx | hx
        · have := (hsnap x hx m s w hxs).1
          simp only
          exact ⟨by omega, fun h => by omega⟩
        · subst hx
          simp at hxs
    · rw [heq]
      refine ⟨?_, ?_, hnn, ?_⟩
      · rw [← hreq]
        exact map_set_same _ _ _ c _ hget rfl
      · rw [← hsum, debited_set _ _ c _ hget]
        simp [Call.succeeded, hs]
      · intro x hx m s w hxs
        rcases List.mem_or_eq_of_mem_set hx with hx | hx
        · exact hsnap x hx m s w hxs
        · subst hx
          simp at hxs
    · rw [heq]
      refine ⟨?_, ?_, hnn, ?_⟩
      · rw [← hreq]
        exact map_set_same _ _ _ c _ hget rfl
      · rw [← hsum, debited_set _ _ c _ hget]
        simp [Call.succeeded, hs]
      · intro x hx m s w hxs
        rcases List.mem_or_eq_of_mem_set hx with hx | hx
        · exact hsnap x hx m s w hxs
        · subst hx
          simp at hxs

/-- Helper: `CallInv` survives a store whose version grew and whose balance shrank. -/
theorem CallInv_mono (maxAttempts : Nat) (st st' : Store) (c : Call)
    (h : CallInv maxAttempts st c) (hv : st.version ≤ st'.version)
    (hb : st'.wallet.balance ≤ st.wallet.balance) : CallInv maxAttempts st' c := by
  unfold CallInv at h ⊢
  split
  · rename_i n hs
    simp only [hs] at h
    omega
  · rename_i n snap v hs
    simp only [hs] at h
    exact ⟨h.1, le_trans hb h.2.1, h.2.2⟩
  · trivial
  · rename_i e hs
    simp only [hs] at h
    rcases h with ⟨he, hlt⟩ | ⟨he, hle⟩
    · exact Or.inl ⟨he, lt_of_le_of_lt hb hlt⟩
    · exact Or.inr ⟨he, le_trans hle hv⟩

/-- Helper: on an active wallet debited in its own currency the only check that can fail is
the balance check. -/
theorem debitCheck_active_some (w : Wallet) (a : Decimal) (cur : String) (e : LedgerError)
    (hact : w.wallet_status = WalletStatus.active) (hcur : w.currency = cur)
    (h : debitCheck w a cur = some e) :
    e = LedgerError.ErrInsufficientBalance ∧ w.balance < a := by
  have hred : debitCheck w a cur =
      if w.balance < a then some LedgerError.ErrInsufficientBalance else none := by
    simp [debitCheck, hact, hcur]
  rw [hred] at h
  split_ifs at h with h2
  simp at h
  exact ⟨h.symm, h2⟩

/-- Every scheduler step preserves the retry invariant. -/
theorem step_RetryInv (maxAttempts : Nat) (requests : List (Decimal × String)) (B : Decimal)
    (sys : System) (i : Nat) (hl : LedgerInv requests B sys) (hr : RetryInv maxAttempts sys) :
    RetryInv maxAttempts (step maxAttempts sys i) := by
  obtain ⟨_, _, _, hsnap⟩ := hl
  obtain ⟨hact, hcalls, hver, hci⟩ := hr
  rcases step_cases maxAttempts sys i with ⟨_, hsame⟩ | ⟨c, hget, hcase⟩
  · rw [hsame]
    exact ⟨hact, hcalls, hver, hci⟩
  · have hmem : c ∈ sys.calls := List.getElem?_mem hget
    have hc := hci c hmem
    have hcc := hcalls c hmem
    rcases hcase with ⟨n, hs, heq⟩ | ⟨n, snap, v, e, hs, hchk, heq⟩ |
      ⟨n, snap, v, hs, hchk, hv, heq⟩ | ⟨n, snap, v, hs, hchk, hv, hn, heq⟩ |
      ⟨n, snap, v, hs, hchk, hv, hn, heq⟩
    · rw [heq]
      refine ⟨hact, ?_, ?_, ?_⟩
      · intro x hx
        rcases List.mem_or_eq_of_mem_set hx with hx | hx
        · exact hcalls x hx
        · subst hx
          exact hcc
      · have := countP_set_of Call.succeeded sys.calls i c
          { c with state := CallState.loaded n sys.store.wallet sys.store.version } hget
        simp [Call.succeeded, hs] at this
        simp only
        omega
      · intro x hx
        rcases List.mem_or_eq_of_mem_set hx with hx | hx
        · exact hci x hx
        · subst hx
          simp only [CallInv, hs] at hc
          simp only [CallInv]
          exact ⟨hc, le_refl _, hact, hcc.1.symm⟩
    · rw [heq]
      simp only [CallInv, hs] at hc
      obtain ⟨he, hlt⟩ := debitCheck_active_some _ _ _ _ hc.2.2.1 hc.2.2.2 hchk
      refine ⟨hact, ?_, ?_, ?_⟩
      · intro x hx
        rcases List.mem_or_eq_of_mem_set hx with hx | hx
        · exact hcalls x hx
        · subst hx
          exact hcc
      · have := countP_set_of Call.succeeded sys.calls i c
          { c with state := CallState.done (some e) } hget
        simp [Call.succeeded, hs] at this
        simp only
        omega
      · intro x hx
        rcases List.mem_or_eq_of_mem_set hx with hx | hx
        · exact hci x hx
        · subst hx
          simp only [CallInv]
          exact Or.inl ⟨he, lt_of_le_of_lt hc.2.1 hlt⟩
    · rw [heq]
      have hsn := (hsnap c hmem n snap v hs).2 hv.symm
      refine ⟨?_, ?_, ?_, ?_⟩
      · simp [applyDebit, hsn, hact]
      · intro x hx
        rcases List.mem_or_eq_of_mem_set hx with hx | hx
        · simpa [applyDebit, hsn] using hcalls x hx
        · subst hx
          simpa [applyDebit, hsn] using hcc
      · have := countP_set_of Call.succeeded sys.calls i c
          { c with state := CallState.done none } hget
        simp [Call.succeeded, hs] at this
        simp only
        omega
      · intro x hx
        rcases List.mem_or_eq_of_mem_set hx with hx | hx
        · refine CallInv_mono maxAttempts sys.store _ x (hci x hx) (by simp) ?_
          simp only [applyDebit, hsn]
          linarith [hcc.2]
        · subst hx
          simp [CallInv]
    · rw [heq]
      have hvle := (hsnap c hmem n snap v hs).1
      simp only [CallInv, hs] at hc
      refine ⟨hact, ?_, ?_, ?_⟩
      · intro x hx
        rcases List.mem_or_eq_of_mem_set hx with hx | hx
        · exact hcalls x hx
        · subst hx
          exact hcc
      · have := countP_set_of Call.succeeded sys.calls i c
          { c with state := CallState.ready (n + 1) } hget
        simp [Call.succeeded, hs] at this
        simp only
        omega
      · intro x hx
        rcases List.mem_or_eq_of_mem_set hx with hx | hx
        · exact hci x hx
        · subst hx
          simp only [CallInv]
          have := hc.1
          omega
    · rw [heq]
      have hvle := (hsnap c hmem n snap v hs).1
      simp only [CallInv, hs] at hc
      refine ⟨hact, ?_, ?_, ?_⟩
      · intro x hx
        rcases List.mem_or_eq_of_mem_set hx with hx | hx
        · exact hcalls x hx
        · subst hx
          exact hcc
      · have := countP_set_of Call.succeeded sys.calls i c
          { c with state := CallState.done (some LedgerError.ErrConcurrentModification) } hget
        simp [Call.succeeded, hs] at this
        simp only
        omega
      · intro x hx
        rcases List.mem_or_eq_of_mem_set hx with hx | hx
        · exact hci x hx
        · subst hx
          simp only [CallInv]
          have := hc.1
          exact Or.inr ⟨by trivial, by omega⟩

/-- Every scheduler step keeps the attempts of the calls in flight below the bound. -/
theorem step_AttemptsOK (maxAttempts : Nat) (sys : System) (i : Nat)
    (h : ∀ c ∈ sys.calls, AttemptsOK maxAttempts c) :
    ∀ c ∈ (step maxAttempts sys i).calls, AttemptsOK maxAttempts c := by
  rcases step_cases maxAttempts sys i with ⟨_, hsame⟩ | ⟨c, hget, hcase⟩
  · rw [hsame]
    exact h
  · have hc := h c (List.getElem?_mem hget)
    rcases hcase with ⟨n, hs, heq⟩ | ⟨n, snap, v, e, hs, hchk, heq⟩ |
      ⟨n, snap, v, hs, hchk, hv, heq⟩ | ⟨n, snap, v, hs, hchk, hv, hn, heq⟩ |
      ⟨n, snap, v, hs, hchk, hv, hn, heq⟩
    all_goals
      rw [heq]
      intro x hx
      rcases List.mem_or_eq_of_mem_set hx with hx | hx
      · exact h x hx
      · subst hx
        simp only [AttemptsOK, hs] at hc ⊢ <;> first | exact hc | exact hn

/-- Helper: a step of call `j` leaves the fuel of another call `i` alone. -/
theorem step_fuelAt_other (maxAttempts : Nat) (sys : System) (i j : Nat) (hij : j ≠ i) :
    fuelAt maxAttempts (step maxAttempts sys j) i = fuelAt maxAttempts sys i := by
  have hcalls : (step maxAttempts sys j).calls[i]? = sys.calls[i]? := by
    unfold step
    cases hget : sys.calls[j]? with
    | none => rfl
    | some c => simp [List.getElem?_set_ne hij]
  simp [fuelAt, hcalls]

/-- Helper: a step of call `i` uses up one unit of its fuel. -/
theorem step_fuelAt_self (maxAttempts : Nat) (sys : System) (i : Nat) :
    fuelAt maxAttempts (step maxAttempts sys i) i ≤ fuelAt maxAttempts sys i - 1 := by
  rcases step_cases maxAttempts sys i with ⟨hwhy, hsame⟩ | ⟨c, hget, hcase⟩
  · rw [hsame]
    rcases hwhy with hnone | ⟨c, r, hget, hs⟩
    · simp [fuelAt, hnone]
    · simp [fuelAt, hget, fuel, hs]
  · have hlt : i < sys.calls.length := by
      rcases List.getElem?_eq_some_iff.mp hget with ⟨h, _⟩
      exact h
    rcases hcase with ⟨n, hs, heq⟩ | ⟨n, snap, v, e, hs, hchk, heq⟩ |
      ⟨n, snap, v, hs, hchk, hv, heq⟩ | ⟨n, snap, v, hs, hchk, hv, hn, heq⟩ |
      ⟨n, snap, v, hs, hchk, hv, hn, heq⟩
    all_goals
      rw [heq]
      simp only [fuelAt, hget, List.getElem?_set_self hlt, fuel, hs]
      omega

/-- Helper: a schedule runs its first step, then the rest. -/
theorem run_cons (maxAttempts : Nat) (sys : System) (j : Nat) (rest : List Nat) :
    run maxAttempts sys (j :: rest) = run maxAttempts (step maxAttempts sys j) rest := rfl

/-- Helper: after a schedule, call `i` has used one unit of fuel per turn it had. -/
theorem run_fuelAt (maxAttempts : Nat) (sys : System) (schedule : List Nat) (i : Nat) :
    fuelAt maxAttempts (run maxAttempts sys schedule) i ≤
      fuelAt maxAttempts sys i - schedule.count i := by
  induction schedule generalizing sys with
  | nil => simp [run]
  | cons j rest ih =>
    rw [run_cons]
    have h := ih (step maxAttempts sys j)
    by_cases hij : j = i
    · subst hij
      have h2 := step_fuelAt_self maxAttempts sys j
      simp only [List.count_cons_self]
      omega
    · rw [step_fuelAt_other maxAttempts sys i j hij] at h
      simpa [List.count_cons, hij] using h

/-- The ledger invariant holds after every schedule. -/
theorem run_LedgerInv (maxAttempts : Nat) (requests : List (Decimal × String)) (B : Decimal)
    (sys : System) (schedule : List Nat) (h : LedgerInv requests B sys) :
    LedgerInv requests B (run maxAttempts sys schedule) := by
  induction schedule generalizing sys with
  | nil => exact h
  | cons j rest ih =>
    rw [run_cons]
    exact ih _ (step_LedgerInv maxAttempts requests B sys j h)

/-- The retry invariant holds after every schedule. -/
theorem run_RetryInv (maxAttempts : Nat) (requests : List (Decimal × String)) (B : Decimal)
    (sys : System) (schedule : List Nat) (hl : LedgerInv requests B sys)
    (hr : RetryInv maxAttempts sys) :
    RetryInv maxAttempts (run maxAttempts sys schedule) := by
  induction schedule generalizing sys with
  | nil => exact hr
  | cons j rest ih =>
    rw [run_cons]
    exact ih _ (step_LedgerInv maxAttempts requests B sys j hl)
      (step_RetryInv maxAttempts requests B sys j hl hr)

/-- The attempts stay below the bound after every schedule. -/
theorem run_AttemptsOK (maxAttempts : Nat) (sys : System) (schedule : List Nat)
    (h : ∀ c ∈ sys.calls, AttemptsOK maxAttempts c) :
    ∀ c ∈ (run maxAttempts sys schedule).calls, AttemptsOK maxAttempts c := by
  induction schedule generalizing sys with
  | nil => exact h
  | cons j rest ih =>
    rw [run_cons]
    exact ih _ (step_AttemptsOK maxAttempts sys j h)

/-- Helper: nothing is debited when the calls arrive. -/
theorem debited_start (w : Wallet) (requests : List (Decimal × String)) :
    debited (start w requests).calls = 0 := by
  unfold debited start
  induction requests with
  | nil => simp
  | cons r rest ih =>
    simp only [List.map_cons, List.sum_cons]
    simp only [List.map_map] at ih ⊢
    rw [ih]
    simp [Call.succeeded]

/-- The ledger invariant holds when the calls arrive. -/
theorem start_LedgerInv (w : Wallet) (requests : List (Decimal × String))
    (hbal : 0 ≤ w.balance) : LedgerInv requests w.balance (start w requests) := by
  refine ⟨?_, ?_, hbal, ?_⟩
  · simp [start, List.map_map, Function.comp_def]
  · rw [debited_start]
    simp [start]
  · intro c hc n snap v hs
    simp only [start, List.mem_map] at hc
    obtain ⟨r, _, rfl⟩ := hc
    simp at hs

/-- The retry invariant holds when the calls arrive at an active wallet with positive
amounts in its currency. -/
theorem start_RetryInv (maxAttempts : Nat) (w : Wallet) (requests : List (Decimal × String))
    (hact : w.wallet_status = WalletStatus.active)
    (hreq : ∀ r ∈ requests, r.2 = w.currency ∧ 0 < r.1) :
    RetryInv maxAttempts (start w requests) := by
  refine ⟨hact, ?_, ?_, ?_⟩
  · intro c hc
    simp only [start, List.mem_map] at hc
    obtain ⟨r, hr, rfl⟩ := hc
    exact hreq r hr
  · show 0 = List.countP Call.succeeded (start w requests).calls
    rw [eq_comm, List.countP_eq_zero]
    intro c hc
    simp only [start, List.mem_map] at hc
    obtain ⟨r, _, rfl⟩ := hc
    simp [Call.succeeded]
  · intro c hc
    simp only [start, List.mem_map] at hc
    obtain ⟨r, _, rfl⟩ := hc
    simp [CallInv]

/-- Helper: a call that just arrived has lost no attempt. -/
theorem start_AttemptsOK (maxAttempts : Nat) (w : Wallet) (requests : List (Decimal × String))
    (hmax : 1 ≤ maxAttempts) : ∀ c ∈ (start w requests).calls, AttemptsOK maxAttempts c := by
  intro c hc
  simp only [start, List.mem_map] at hc
  obtain ⟨r, _, rfl⟩ := hc
  simp only [AttemptsOK]
  omega

/-- Helper: a call that just arrived has two steps per attempt. -/
theorem start_fuelAt (maxAttempts : Nat) (w : Wallet) (requests : List (Decimal × String))
    (i : Nat) : fuelAt maxAttempts (start w requests) i ≤ 2 * maxAttempts := by
  unfold fuelAt
  cases hget : (start w requests).calls[i]? with
  | none => simp
  | some c =>
    have hc := List.getElem?_mem hget
    simp only [start, List.mem_map] at hc
    obtain ⟨r, _, rfl⟩ := hc
    simp [fuel]

/-- Helper: a call with no fuel left has returned. -/
theorem returned_of_fuel_zero (maxAttempts : Nat) (c : Call) (hok : AttemptsOK maxAttempts c)
    (hfuel : fuel maxAttempts c = 0) : c.returned = true := by
  cases hs : c.state with
  | ready n =>
    simp only [AttemptsOK, hs] at hok
    simp only [fuel, hs] at hfuel
    omega
  | loaded n snap v =>
    simp only [AttemptsOK, hs] at hok
    simp only [fuel, hs] at hfuel
    omega
  | done r => simp [Call.returned, hs]

/-- Helper: a step keeps the number of calls. -/
theorem step_length (maxAttempts : Nat) (sys : System) (i : Nat) :
    (step maxAttempts sys i).calls.length = sys.calls.length := by
  unfold step
  cases sys.calls[i]? <;> simp

/-- Helper: a schedule keeps the number of calls. -/
theorem run_length (maxAttempts : Nat) (sys : System) (schedule : List Nat) :
    (run maxAttempts sys schedule).calls.length = sys.calls.length := by
  induction schedule generalizing sys with
  | nil => rfl
  | cons j rest ih => rw [run_cons, ih, step_length]

/-- Every call has returned after a schedule that gives each call `2 * maxAttempts`
turns. -/
theorem run_returned (maxAttempts : Nat) (w : Wallet) (requests : List (Decimal × String))
    (schedule : List Nat) (hmax : 1 ≤ maxAttempts)
    (hfair : ∀ i < requests.length, 2 * maxAttempts ≤ schedule.count i) :
    ∀ c ∈ (run maxAttempts (start w requests) schedule).calls, c.returned = true := by
  intro c hc
  obtain ⟨i, hget⟩ := List.mem_iff_getElem?.mp hc
  have hok := run_AttemptsOK maxAttempts _ schedule (start_AttemptsOK maxAttempts w requests hmax)
    c hc
  have hi : i < requests.length := by
    obtain ⟨h, _⟩ := List.getElem?_eq_some_iff.mp hget
    rw [run_length] at h
    simpa [start] using h
  have hfuel := run_fuelAt maxAttempts (start w requests) schedule i
  have hstart := start_fuelAt maxAttempts w requests i
  have hcount := hfair i hi
  have hzero : fuelAt maxAttempts (run maxAttempts (start w requests) schedule) i = 0 := by
    omega
  simp only [fuelAt, hget] at hzero
  exact returned_of_fuel_zero maxAttempts c hok hzero

/-- Helper: a returned call is in a `done` state. -/
theorem Call.state_of_returned (c : Call) (h : c.returned = true) :
    ∃ r, c.state = CallState.done r := by
  unfold Call.returned at h
  split at h
  · rename_i r hs
    exact ⟨r, hs⟩
  · cases h

/-- Helper: a list of calls made for two requests has exactly two calls. -/
theorem two_calls (l : List Call) (a b : Decimal × String)
    (h : l.map (fun c => (c.amount, c.currency)) = [a, b]) :
    ∃ c0 c1, l = [c0, c1] ∧ (c0.amount, c0.currency) = a ∧ (c1.amount, c1.currency) = b := by
  match l, h with
  | [c0, c1], h =>
    simp only [List.map_cons, List.map_nil, List.cons.injEq, and_true] at h
    exact ⟨c0, c1, rfl, h.1, h.2⟩

end WalletLedger

open WalletLedger in
/-- C1: for every set of concurrent `Debit` calls against one wallet with balance ≥ 0 and
every interleaving of their load and save steps, the balance equals the initial balance
minus the sum of the successful debits only and is never negative, and every call returns
once it has had all its turns; in particular, with balance 50 USD and two concurrent
`Debit(30 USD)` calls, under every schedule that lets both calls finish, the balance
becomes 20, exactly one call succeeds and the other fails with `ErrInsufficientBalance`.
This holds for every bound on the retries. -/
theorem concurrent_debits (moreRetries : Nat) (w : Wallet)
    (requests : List (Decimal × String)) (schedule : List Nat) (hbal : 0 ≤ w.balance) :
    (run (maxAttemptsOf moreRetries) (start w requests) schedule).store.wallet.balance =
        w.balance - debited (run (maxAttemptsOf moreRetries) (start w requests) schedule).calls ∧
    0 ≤ (run (maxAttemptsOf moreRetries) (start w requests) schedule).store.wallet.balance ∧
    ((∀ i < requests.length, 2 * maxAttemptsOf moreRetries ≤ schedule.count i) →
        ∀ c ∈ (run (maxAttemptsOf moreRetries) (start w requests) schedule).calls,
          c.returned = true) ∧
    ((∀ i < 2, 2 * maxAttemptsOf moreRetries ≤ schedule.count i) →
        (run (maxAttemptsOf moreRetries) (start activeWallet [(30, "USD"), (30, "USD")])
            schedule).store.wallet.balance = 20 ∧
        (results (run (maxAttemptsOf moreRetries)
              (start activeWallet [(30, "USD"), (30, "USD")]) schedule) =
            [some none, some (some LedgerError.ErrInsufficientBalance)] ∨
          results (run (maxAttemptsOf moreRetries)
              (start activeWallet [(30, "USD"), (30, "USD")]) schedule) =
            [some (some LedgerError.ErrInsufficientBalance), some none])) := by
  have hmax : 2 ≤ maxAttemptsOf moreRetries := by unfold maxAttemptsOf; omega
  generalize maxAttemptsOf moreRetries = maxAttempts at hmax ⊢
  have hL := run_LedgerInv maxAttempts requests w.balance _ schedule
    (start_LedgerInv w requests hbal)
  refine ⟨?_, hL.2.2.1, ?_, ?_⟩
  · have := hL.2.1
    linarith
  · intro hfair
    exact run_returned maxAttempts w requests schedule (by omega) hfair
  · intro hfair
    have hL2 := run_LedgerInv maxAttempts [(30, "USD"), (30, "USD")] activeWallet.balance _
      schedule (start_LedgerInv activeWallet _ (by norm_num [activeWallet]))
    have hR2 := run_RetryInv maxAttempts [(30, "USD"), (30, "USD")] activeWallet.balance _
      schedule (start_LedgerInv activeWallet _ (by norm_num [activeWallet]))
      (start_RetryInv maxAttempts activeWallet _ rfl (by
        intro r hr
        simp at hr
        subst hr
        exact ⟨rfl, by norm_num⟩))
    have hret := run_returned maxAttempts activeWallet [(30, "USD"), (30, "USD")] schedule
      (by omega) hfair
    generalize run maxAttempts (start activeWallet [(30, "USD"), (30, "USD")]) schedule = final
      at hL2 hR2 hret ⊢
    obtain ⟨st, calls⟩ := final
    obtain ⟨hmap, hsum, hnn, _⟩ := hL2
    obtain ⟨_, _, hver, hci⟩ := hR2
    simp only at hmap hsum hnn hver hci hret
    obtain ⟨c0, c1, rfl, h0, h1⟩ := two_calls calls _ _ hmap
    have ha0 : c0.amount = 30 := congrArg Prod.fst h0
    have ha1 : c1.amount = 30 := congrArg Prod.fst h1
    have hr0 := hret c0 (by simp)
    have hr1 := hret c1 (by simp)
    have hi0 := hci c0 (by simp)
    have hi1 := hci c1 (by simp)
    obtain ⟨r0, hs0⟩ := Call.state_of_returned c0 hr0
    obtain ⟨r1, hs1⟩ := Call.state_of_returned c1 hr1
    have hB : activeWallet.balance = 50 := rfl
    simp only [debited, List.map_cons, List.map_nil, List.sum_cons, List.sum_nil,
      Call.succeeded, hs0, hs1, ha0, ha1, hB] at hsum
    simp only [List.countP_cons, List.countP_nil, Call.succeeded, hs0, hs1] at hver
    simp only [CallInv, hs0, ha0] at hi0
    simp only [CallInv, hs1, ha1] at hi1
    simp only [results, List.map_cons, List.map_nil, hs0, hs1]
    cases r0 with
    | none =>
      cases r1 with
      | none =>
        simp at hsum
        exfalso
        linarith
      | some e1 =>
        simp at hsum hver
        rcases hi1 with ⟨he, _⟩ | ⟨_, hle⟩
        · subst he
          exact ⟨by linarith, Or.inl rfl⟩
        · omega
    | some e0 =>
      cases r1 with
      | none =>
        simp at hsum hver
        rcases hi0 with ⟨he, _⟩ | ⟨_, hle⟩
        · subst he
          exact ⟨by linarith, Or.inr rfl⟩
        · omega
      | some e1 =>
        simp at hsum hver
        rcases hi0 with ⟨_, hlt⟩ | ⟨_, hle⟩
        · exfalso
          linarith
        · omega

open WalletLedger in
/-- Witness of C1: two `Debit(30 USD)` calls against 50 USD, with no retry beyond the
first, under the schedule 0,1,0,1,1,1,0,0,1,0: both return, the balance is 20, one
succeeded and the other failed with `ErrInsufficientBalance`. -/
theorem concurrent_debits_witness :
    0 ≤ activeWallet.balance ∧
    (∀ i < 2, 2 * maxAttemptsOf 0 ≤ ([0, 1, 0, 1, 1, 1, 0, 0, 1, 0] : List Nat).count i) ∧
    (∀ c ∈ (run (maxAttemptsOf 0) (start activeWallet [(30, "USD"), (30, "USD")])
        [0, 1, 0, 1, 1, 1, 0, 0, 1, 0]).calls, c.returned = true) ∧
    (run (maxAttemptsOf 0) (start activeWallet [(30, "USD"), (30, "USD")])
        [0, 1, 0, 1, 1, 1, 0, 0, 1, 0]).store.wallet.balance = 20 ∧
    (results (run (maxAttemptsOf 0) (start activeWallet [(30, "USD"), (30, "USD")])
        [0, 1, 0, 1, 1, 1, 0, 0, 1, 0]) =
          [some none, some (some LedgerError.ErrInsufficientBalance)] ∨
      results (run (maxAttemptsOf 0) (start activeWallet [(30, "USD"), (30, "USD")])
        [0, 1, 0, 1, 1, 1, 0, 0, 1, 0]) =
          [some (some LedgerError.ErrInsufficientBalance), some none]) :=
  have h := concurrent_debits 0 activeWallet [(30, "USD"), (30, "USD")]
    [0, 1, 0, 1, 1, 1, 0, 0, 1, 0] (by norm_num [activeWallet])
  ⟨by norm_num [activeWallet], by decide, h.2.2.1 (by decide),
    (h.2.2.2 (by decide)).1, (h.2.2.2 (by decide)).2⟩

open WalletLedger in
/-- C3: `Debit` on a wallet whose `wallet_status` is `closed` fails with `ErrWalletClosed`,
for every amount and currency, and the stored wallet (so its balance and credit balance)
is the one before the call. -/
theorem debit_closed_fails (w : Wallet) (amount : Decimal) (currency : String)
    (hclosed : w.wallet_status = WalletStatus.closed) :
    (Debit w amount currency).2 = some LedgerError.ErrWalletClosed ∧
      (Debit w amount currency).1 = w ∧
      (Debit w amount currency).1.balance = w.balance ∧
      (Debit w amount currency).1.credit_balance = w.credit_balance := by
  have h : Debit w amount currency = (w, some LedgerError.ErrWalletClosed) := by
    simp [Debit, debitCheck, hclosed]
  simp [h]

open WalletLedger in
/-- Witness of C3 on a closed wallet holding 50 USD, debited by 30 USD. -/
theorem debit_closed_fails_witness :
    closedWallet.wallet_status = WalletStatus.closed ∧
      (Debit closedWallet 30 "USD").2 = some LedgerError.ErrWalletClosed ∧
      (Debit closedWallet 30 "USD").1 = closedWallet ∧
      (Debit closedWallet 30 "USD").1.balance = closedWallet.balance ∧
      (Debit closedWallet 30 "USD").1.credit_balance = closedWallet.credit_balance :=
  ⟨rfl, debit_closed_fails closedWallet 30 "USD" rfl⟩

open WalletLedger in
/-- No `Debit` follows both rules of spec §4.1 for a wallet that is not active: "fails
`ErrWalletNotActive` if status ≠ active" and "any operation on `closed` fails
`ErrWalletClosed`" ask for two different errors on a closed wallet. -/
theorem closed_wallet_rules_disagree :
    ¬ ∃ D : Wallet → Decimal → String → Wallet × Option LedgerError,
      (∀ w amount currency, w.wallet_status ≠ WalletStatus.active →
        (D w amount currency).2 = some LedgerError.ErrWalletNotActive) ∧
      (∀ w amount currency, w.wallet_status = WalletStatus.closed →
        (D w amount currency).2 = some LedgerError.ErrWalletClosed) := by
  rintro ⟨D, h1, h2⟩
  have e1 := h1 closedWallet 30 "USD" (by simp [closedWallet])
  have e2 := h2 closedWallet 30 "USD" rfl
  rw [e1] at e2
  cases e2

open WalletLedger in
/-- The two rules of spec §4.1 for a wallet that is not active meet on a closed wallet:
"fails `ErrWalletNotActive` if status ≠ active" and "any operation on `closed` fails
`ErrWalletClosed`".  The modelled `Debit` follows the second: a closed wallet with balance
50, debited by 30, reports `ErrWalletClosed`, not `ErrWalletNotActive`. -/
theorem debit_closed_not_ErrWalletNotActive :
    0 ≤ closedWallet.balance ∧ (0 : Decimal) < 30 ∧
      closedWallet.wallet_status ≠ WalletStatus.active ∧
      (Debit closedWallet 30 "USD").2 = some LedgerError.ErrWalletClosed ∧
      (Debit closedWallet 30 "USD").2 ≠ some LedgerError.ErrWalletNotActive := by
  refine ⟨?_, ?_, ?_, ?_, ?_⟩
  · norm_num [closedWallet]
  · norm_num
  · simp [closedWallet]
  · simp [Debit, debitCheck, closedWallet]
  · simp [Debit, debitCheck, closedWallet]

open WalletLedger in
/-- The contract of the modelled `Debit`, by status: for every wallet with balance ≥ 0 and
every `Debit(amount, currency)` with
amount > 0, the call fails with `ErrWalletClosed` if the wallet is closed, with
`ErrWalletNotActive` if it is frozen, with `ErrCurrencyMismatch` if it is active and the
currencies differ, and with `ErrInsufficientBalance` if it is active, the currencies agree
and `balance < amount`, in each case leaving the wallet unchanged; otherwise it succeeds
with `balance - amount` and `credit_balance - amount * conversion_rate`, every other field
kept; the balance after any `Debit` is still ≥ 0. -/
theorem debit_contract (w : Wallet) (amount : Decimal) (currency : String)
    (hbal : 0 ≤ w.balance) (_hamt : 0 < amount) :
    (w.wallet_status = WalletStatus.closed →
        Debit w amount currency = (w, some LedgerError.ErrWalletClosed)) ∧
    (w.wallet_status = WalletStatus.frozen →
        Debit w amount currency = (w, some LedgerError.ErrWalletNotActive)) ∧
    (w.wallet_status = WalletStatus.active → currency ≠ w.currency →
        Debit w amount currency = (w, some LedgerError.ErrCurrencyMismatch)) ∧
    (w.wallet_status = WalletStatus.active → currency = w.currency → w.balance < amount →
        Debit w amount currency = (w, some LedgerError.ErrInsufficientBalance)) ∧
    (w.wallet_status = WalletStatus.active → currency = w.currency → amount ≤ w.balance →
        Debit w amount currency =
          ({ w with balance := w.balance - amount
                    credit_balance := w.credit_balance - amount * w.conversion_rate },
            none)) ∧
    0 ≤ (Debit w amount currency).1.balance := by
  refine ⟨?_, ?_, ?_, ?_, ?_, ?_⟩
  · intro hs
    simp [Debit, debitCheck, hs]
  · intro hs
    simp [Debit, debitCheck, hs]
  · intro hs hc
    simp [Debit, debitCheck, hs, hc]
  · intro hs hc hlt
    simp [Debit, debitCheck, hs, hc, hlt]
  · intro hs hc hle
    simp [Debit, debitCheck, hs, hc, not_lt.mpr hle, applyDebit]
  · unfold Debit
    cases hchk : debitCheck w amount currency with
    | some e => simpa using hbal
    | none =>
      have hle : amount ≤ w.balance := by
        unfold debitCheck at hchk
        split_ifs at hchk with h1 h2 h3 h4
        exact not_lt.mp h4
      simpa [applyDebit] using hle

open WalletLedger in
/-- An active wallet holding 50 USD (100 credits at rate 2), debited by 30 USD, succeeds
and holds 20 USD and 40 credits. -/
theorem debit_contract_witness :
    0 ≤ activeWallet.balance ∧ (0 : Decimal) < 30 ∧
      Debit activeWallet 30 "USD" =
        ({ activeWallet with balance := activeWallet.balance - 30
                             credit_balance :=
                               activeWallet.credit_balance - 30 * activeWallet.conversion_rate },
          none) ∧
      0 ≤ (Debit activeWallet 30 "USD").1.balance :=
  have h := debit_contract activeWallet 30 "USD" (by norm_num [activeWallet]) (by norm_num)
  ⟨by norm_num [activeWallet], by norm_num,
    h.2.2.2.2.1 rfl rfl (by norm_num [activeWallet]), h.2.2.2.2.2⟩

/-- Helper: `sumLimits` is nil exactly when some limit is nil. -/
theorem dto.sumLimits_eq_none_iff (ls : List (Option Int)) :
    dto.sumLimits ls = none ↔ none ∈ ls := by
  induction ls with
  | nil => simp [dto.sumLimits]
  | cons a rest ih =>
    cases a with
    | none => simp [dto.sumLimits]
    | some l =>
      cases hrest : dto.sumLimits rest with
      | none =>
        have hmem : none ∈ rest := ih.mp hrest
        simp [dto.sumLimits, hrest, hmem]
      | some t =>
        have hnot : none ∉ rest := fun hmem => by
          have := ih.mpr hmem
          rw [hrest] at this
          cases this
        simp [dto.sumLimits, hrest, hnot]

/-- Helper: a wrapped value is an `int64` value. -/
theorem dto.wrapInt64_inInt64 (x : Int) : dto.InInt64 (dto.wrapInt64 x) := by
  unfold dto.InInt64 dto.wrapInt64 dto.MinInt64 dto.MaxInt64
  have h1 := Int.emod_nonneg (x + 2 ^ 63) (by norm_num : (2 ^ 64 : Int) ≠ 0)
  have h2 := Int.emod_lt_of_pos (x + 2 ^ 63) (by norm_num : (0 : Int) < 2 ^ 64)
  constructor <;> omega

/-- Helper: wrapping leaves an `int64` value as it is. -/
theorem dto.wrapInt64_of_inInt64 (x : Int) (h : dto.InInt64 x) : dto.wrapInt64 x = x := by
  unfold dto.InInt64 dto.MinInt64 dto.MaxInt64 at h
  unfold dto.wrapInt64
  have : (x + 2 ^ 63) % 2 ^ 64 = x + 2 ^ 63 :=
    Int.emod_eq_of_lt (by omega) (by omega)
  omega

/-- Helper: wrapping once at the end is wrapping at every addition. -/
theorem dto.wrapInt64_add_wrapInt64 (a b : Int) :
    dto.wrapInt64 (a + dto.wrapInt64 b) = dto.wrapInt64 (a + b) := by
  unfold dto.wrapInt64
  have h : (a + ((b + 2 ^ 63) % 2 ^ 64 - 2 ^ 63) + 2 ^ 63) % 2 ^ 64 =
      (a + b + 2 ^ 63) % 2 ^ 64 := by
    have e1 : a + ((b + 2 ^ 63) % 2 ^ 64 - 2 ^ 63) + 2 ^ 63 = a + (b + 2 ^ 63) % 2 ^ 64 := by
      ring
    rw [e1, Int.add_emod, Int.emod_emod_of_dvd _ (dvd_refl _), ← Int.add_emod]
    congr 1
    ring
  rw [h]

/-- Helper: when no limit is nil, `sumLimits` is the sum of the limits in `int64`
arithmetic. -/
theorem dto.sumLimits_eq_wrap (ls : List (Option Int)) (hall : none ∉ ls) :
    dto.sumLimits ls = some (dto.wrapInt64 ((ls.map (fun o => o.getD 0)).sum)) := by
  induction ls with
  | nil => simp [dto.sumLimits, dto.wrapInt64]
  | cons a rest ih =>
    cases a with
    | none => simp at hall
    | some l =>
      have hrest : none ∉ rest := fun hmem => hall (List.mem_cons_of_mem _ hmem)
      simp [dto.sumLimits, ih hrest, dto.wrapInt64_add_wrapInt64]

/-- Helper: when no limit is nil and the sum of the limits is an `int64` value,
`sumLimits` is that sum. -/
theorem dto.sumLimits_eq_sum (ls : List (Option Int)) (hall : none ∉ ls)
    (hfit : dto.InInt64 ((ls.map (fun o => o.getD 0)).sum)) :
    dto.sumLimits ls = some ((ls.map (fun o => o.getD 0)).sum) := by
  rw [dto.sumLimits_eq_wrap ls hall, dto.wrapInt64_of_inInt64 _ hfit]

open dto in
/-- C4 fails as stated: the limits `MaxInt64` and 1 are `int64` values, their sum is not,
and so the aggregated `usage_limit`, an `int64`, is not their sum; the `int64` sum is
`MinInt64`. -/
theorem aggregate_usage_limit_not_sum :
    [mkRow "s1" true (some MaxInt64) false, mkRow "s2" true (some 1) false] ≠ [] ∧
    InInt64 MaxInt64 ∧ InInt64 1 ∧
    ¬ InInt64 (([mkRow "s1" true (some MaxInt64) false, mkRow "s2" true (some 1) false].map
      (fun r => r.UsageLimit.getD 0)).sum) ∧
    (aggregateSources FeatureType.metered
      [mkRow "s1" true (some MaxInt64) false, mkRow "s2" true (some 1) false]).1.UsageLimit ≠
      some (([mkRow "s1" true (some MaxInt64) false, mkRow "s2" true (some 1) false].map
        (fun r => r.UsageLimit.getD 0)).sum) ∧
    (aggregateSources FeatureType.metered
      [mkRow "s1" true (some MaxInt64) false, mkRow "s2" true (some 1) false]).1.UsageLimit =
      some MinInt64 := by
  refine ⟨by simp, by decide, by decide, by decide, by decide, by decide⟩

open dto in
/-- C4, amended: for every non-empty list of sources of a metered feature, the aggregated
`usage_limit` is nil if any source's limit is nil; otherwise it is an `int64` value, and it
is the sum of all the sources' limits whenever that sum is an `int64` value; the aggregated
soft-limit flag is set exactly when some source's is. -/
theorem aggregate_metered_usage_limit (rows : List SubscriptionEntitlementRow)
    (hne : rows ≠ []) :
    ((∃ r ∈ rows, r.UsageLimit = none) →
        (aggregateSources FeatureType.metered rows).1.UsageLimit = none) ∧
    ((∀ r ∈ rows, r.UsageLimit ≠ none) →
        ∃ v, (aggregateSources FeatureType.metered rows).1.UsageLimit = some v ∧ InInt64 v) ∧
    ((∀ r ∈ rows, r.UsageLimit ≠ none) →
        InInt64 ((rows.map (fun r => r.UsageLimit.getD 0)).sum) →
        (aggregateSources FeatureType.metered rows).1.UsageLimit =
          some ((rows.map (fun r => r.UsageLimit.getD 0)).sum)) ∧
    ((aggregateSources FeatureType.metered rows).1.IsSoftLimit = true ↔
        ∃ r ∈ rows, r.IsSoftLimit = true) := by
  cases rows with
  | nil => exact absurd rfl hne
  | cons r0 rest =>
    have hnot : (∀ r ∈ r0 :: rest, r.UsageLimit ≠ none) →
        none ∉ (r0 :: rest).map (fun r => r.UsageLimit) := by
      intro hall hmem
      obtain ⟨r, hr, hnone⟩ := List.mem_map.mp hmem
      exact hall r hr hnone
    refine ⟨?_, ?_, ?_, ?_⟩
    · rintro ⟨r, hr, hnone⟩
      have hmem : none ∈ (r0 :: rest).map (fun r => r.UsageLimit) :=
        List.mem_map.mpr ⟨r, hr, hnone⟩
      simpa [aggregateSources] using (sumLimits_eq_none_iff _).mpr hmem
    · intro hall
      have hsum := sumLimits_eq_wrap _ (hnot hall)
      exact ⟨_, by simpa [aggregateSources] using hsum, wrapInt64_inInt64 _⟩
    · intro hall hfit
      have hsum := sumLimits_eq_sum _ (hnot hall)
        (by simpa [List.map_map, Function.comp_def] using hfit)
      simpa [aggregateSources, List.map_map, Function.comp_def] using hsum
    · simp [aggregateSources]

open dto in
/-- Witness of C4: sources `[{limit:100, soft:false}, {limit:nil, soft:true}]` aggregate to
limit nil and soft limit true, and the limits 100 and 50 aggregate to 150. -/
theorem aggregate_metered_usage_limit_witness :
    [mkRow "s1" true (some 100) false, mkRow "s2" true none true] ≠ [] ∧
      (aggregateSources FeatureType.metered
        [mkRow "s1" true (some 100) false, mkRow "s2" true none true]).1.UsageLimit = none ∧
      (aggregateSources FeatureType.metered
        [mkRow "s1" true (some 100) false, mkRow "s2" true none true]).1.IsSoftLimit = true ∧
      (aggregateSources FeatureType.metered
        [mkRow "s1" true (some 100) false, mkRow "s2" true (some 50) false]).1.UsageLimit =
          some 150 :=
  have h := aggregate_metered_usage_limit
    [mkRow "s1" true (some 100) false, mkRow "s2" true none true] (by simp)
  have h2 := aggregate_metered_usage_limit
    [mkRow "s1" true (some 100) false, mkRow "s2" true (some 50) false] (by simp)
  ⟨by simp, h.1 ⟨mkRow "s2" true none true, by simp, rfl⟩,
    h.2.2.2.mpr ⟨mkRow "s2" true none true, by simp, rfl⟩,
    h2.2.2.1 (by decide) (by decide)⟩

/-- Helper: whatever the feature type, the aggregated `is_enabled` is set exactly when
some source is enabled. -/
theorem dto.aggregateSources_isEnabled_iff (ft : dto.FeatureType)
    (rows : List dto.SubscriptionEntitlementRow) :
    (dto.aggregateSources ft rows).1.IsEnabled = true ↔ ∃ r ∈ rows, r.IsEnabled = true := by
  cases rows with
  | nil => simp [dto.aggregateSources, dto.emptyEntitlement]
  | cons r0 rest => cases ft <;> simp [dto.aggregateSources]

open dto in
/-- C5: for every list of sources of a feature of any type, the aggregated `is_enabled` is
the logical OR of the sources' flags: it is true exactly when some source is enabled, it is
false for the empty list, for which the aggregator returns the empty entitlement with no
sources and no error, and it is the same for every reordering of the sources. -/
theorem aggregate_is_enabled_or (ft : FeatureType) (rows : List SubscriptionEntitlementRow) :
    ((aggregateSources ft rows).1.IsEnabled = true ↔ ∃ r ∈ rows, r.IsEnabled = true) ∧
    (aggregateSources ft rows).1.IsEnabled = rows.foldr (fun r acc => r.IsEnabled || acc) false ∧
    (aggregateSources ft []).1.IsEnabled = false ∧
    (∀ (ε : Type) (list : String → String → Except ε (List SubscriptionEntitlementRow))
        (customerID featureID : String) (subscriptionFilter : List String),
        list customerID featureID = Except.ok [] →
        Aggregate list ft customerID featureID subscriptionFilter =
          Except.ok (emptyEntitlement, [])) ∧
    (∀ rows' : List SubscriptionEntitlementRow, rows.Perm rows' →
        (aggregateSources ft rows').1.IsEnabled = (aggregateSources ft rows).1.IsEnabled) := by
  refine ⟨aggregateSources_isEnabled_iff ft rows, ?_, ?_, ?_, ?_⟩
  · rw [Bool.eq_iff_iff, aggregateSources_isEnabled_iff]
    induction rows with
    | nil => simp
    | cons r0 rest ih => simp [List.foldr, ← ih]
  · simp [aggregateSources, emptyEntitlement]
  · intro ε list customerID featureID subscriptionFilter hlist
    simp [Aggregate, hlist, applySubscriptionFilter, aggregateSources]
  · intro rows' hperm
    rw [Bool.eq_iff_iff, aggregateSources_isEnabled_iff, aggregateSources_isEnabled_iff]
    constructor
    · rintro ⟨r, hr, he⟩
      exact ⟨r, hperm.mem_iff.mpr hr, he⟩
    · rintro ⟨r, hr, he⟩
      exact ⟨r, hperm.mem_iff.mp hr, he⟩

open dto in
/-- Witness of C5: the boolean feature with sources `[{enabled:false}, {enabled:true}]`
aggregates to enabled, and so does the same list in the other order. -/
theorem aggregate_is_enabled_or_witness :
    (aggregateSources FeatureType.boolean
        [mkRow "s1" false none false, mkRow "s2" true none false]).1.IsEnabled = true ∧
    (aggregateSources FeatureType.boolean
        [mkRow "s2" true none false, mkRow "s1" false none false]).1.IsEnabled = true :=
  have h := aggregate_is_enabled_or FeatureType.boolean
    [mkRow "s1" false none false, mkRow "s2" true none false]
  have h1 := h.1.mpr ⟨mkRow "s2" true none false, by simp, rfl⟩
  ⟨h1, (h.2.2.2.2 [mkRow "s2" true none false, mkRow "s1" false none false]
      (List.Perm.swap _ _ [])).trans h1⟩

namespace decimal

theorem roundHalfAway_intCast (n : Int) : roundHalfAway (n : ℚ) = n := by
  unfold roundHalfAway
  have hfl : ⌊(1 / 2 : ℚ)⌋ = 0 := by
    rw [Int.floor_eq_iff]; norm_num
  by_cases h : (0 : ℚ) ≤ (n : ℚ)
  · rw [if_pos h, Int.floor_int_add, hfl, add_zero]
  · rw [if_neg h]
    have : (-(n : ℚ) + 1 / 2) = ((-n : Int) : ℚ) + 1 / 2 := by push_cast; ring
    rw [this, Int.floor_int_add, hfl, add_zero, neg_neg]

theorem abs_roundHalfAway_sub_le (q : ℚ) : |(roundHalfAway q : ℚ) - q| ≤ 1 / 2 := by
  unfold roundHalfAway
  by_cases h : (0 : ℚ) ≤ q
  · rw [if_pos h]
    have h1 := Int.floor_le (q + 1 / 2)
    have h2 := Int.lt_floor_add_one (q + 1 / 2)
    rw [abs_le]
    constructor <;> linarith
  · rw [if_neg h]
    have h1 := Int.floor_le (-q + 1 / 2)
    have h2 := Int.lt_floor_add_one (-q + 1 / 2)
    rw [abs_le]
    push_cast
    constructor <;> linarith

theorem le_roundHalfAway (n : Int) (q : ℚ) (hn : 0 ≤ n) (h : (n : ℚ) ≤ q) :
    n ≤ roundHalfAway q := by
  unfold roundHalfAway
  have hq : (0 : ℚ) ≤ q := le_trans (by exact_mod_cast hn) h
  rw [if_pos hq]
  exact Int.le_floor.mpr (by linarith)

theorem isDecimal_DivRound (d d2 : Decimal) (precision : Nat) :
    IsDecimal (DivRound d d2 precision) :=
  ⟨roundHalfAway (d / d2 * 10 ^ precision), precision, rfl⟩

theorem ten_pow_emod_three (k : Nat) : (10 : Int) ^ k % 3 = 1 := by
  induction k with
  | zero => norm_num
  | succ m ih => rw [pow_succ, Int.mul_emod, ih]; norm_num

theorem not_isDecimal_one_third : ¬ IsDecimal (1 / 3) := by
  rintro ⟨n, k, h⟩
  have hpos : (0 : ℚ) < 10 ^ k := by positivity
  have h1 : (10 : ℚ) ^ k = 3 * n := by
    field_simp at h
    linarith
  have h2 : (10 : Int) ^ k = 3 * n := by exact_mod_cast h1
  have h3 := ten_pow_emod_three k
  omega

end decimal

open dto decimal in
/-- C6 fails as stated: for `total_limit = 3` and `current_usage = 1` the quotient is one
third, which is no decimal, so `usage_percent`, a `decimal.Decimal`, is not the quotient;
at the division precision of 16 places it is 0.3333333333333333. -/
theorem usage_percent_not_quotient :
    ¬ IsDecimal ((1 : Decimal) / ((3 : Int) : ℚ)) ∧
    IsDecimal (summarize 16 "f1" { emptyEntitlement with UsageLimit := some 3 } [] 1).UsagePercent ∧
    (summarize 16 "f1" { emptyEntitlement with UsageLimit := some 3 } [] 1).UsagePercent ≠
      (1 : Decimal) / ((3 : Int) : ℚ) ∧
    (summarize 16 "f1" { emptyEntitlement with UsageLimit := some 3 } [] 1).UsagePercent =
      3333333333333333 / 10000000000000000 := by
  have hval : (summarize 16 "f1" { emptyEntitlement with UsageLimit := some 3 } [] 1).UsagePercent =
      3333333333333333 / 10000000000000000 := by
    have hr : roundHalfAway ((1 : ℚ) / ((3 : Int) : ℚ) * 10 ^ 16) = 3333333333333333 := by
      unfold roundHalfAway
      rw [if_pos (by norm_num)]
      rw [Int.floor_eq_iff]
      norm_num
    simp only [summarize, usagePercent, decimal.Div, DivRound]
    rw [if_neg (by decide), hr]
    norm_num
  have hnot : ¬ IsDecimal ((1 : Decimal) / ((3 : Int) : ℚ)) := by
    have : ((1 : Decimal) / ((3 : Int) : ℚ)) = 1 / 3 := by norm_num
    rw [this]
    exact not_isDecimal_one_third
  refine ⟨hnot, ?_, ?_, hval⟩
  · rw [hval]
    exact ⟨3333333333333333, 16, by norm_num⟩
  · rw [hval]
    norm_num

open dto decimal in
/-- C6, amended: for every usage summary, `current_usage` is reported unchanged;
`usage_percent` is zero when `total_limit` is nil or zero; otherwise it is a decimal, the
quotient `current_usage / total_limit` rounded to the division precision, so it is within
half a unit of the last place of the quotient and it is the quotient itself whenever the
quotient has no more decimal places than the precision; it is not clamped, so it is at
least 1 whenever a positive limit is exceeded. -/
theorem usage_percent_rule (DivisionPrecision : Nat) (featureID : String)
    (agg : AggregatedEntitlement) (sources : List EntitlementSource)
    (currentUsage : Decimal) :
    (summarize DivisionPrecision featureID agg sources currentUsage).CurrentUsage =
      currentUsage ∧
    (summarize DivisionPrecision featureID agg sources currentUsage).TotalLimit =
      agg.UsageLimit ∧
    (∀ l : Int, agg.UsageLimit = some l → l ≠ 0 →
        (summarize DivisionPrecision featureID agg sources currentUsage).UsagePercent =
          decimal.Div DivisionPrecision currentUsage (l : ℚ) ∧
        IsDecimal (summarize DivisionPrecision featureID agg sources currentUsage).UsagePercent ∧
        |(summarize DivisionPrecision featureID agg sources currentUsage).UsagePercent -
            currentUsage / (l : ℚ)| ≤ 1 / (2 * 10 ^ DivisionPrecision)) ∧
    (∀ l : Int, agg.UsageLimit = some l → l ≠ 0 →
        (∃ n : Int, currentUsage / (l : ℚ) = (n : ℚ) / 10 ^ DivisionPrecision) →
        (summarize DivisionPrecision featureID agg sources currentUsage).UsagePercent =
          currentUsage / (l : ℚ)) ∧
    (∀ l : Int, agg.UsageLimit = some l → 0 < l → (l : ℚ) < currentUsage →
        1 ≤ (summarize DivisionPrecision featureID agg sources currentUsage).UsagePercent) ∧
    (agg.UsageLimit = none ∨ agg.UsageLimit = some 0 →
        (summarize DivisionPrecision featureID agg sources currentUsage).UsagePercent = 0) := by
  have hpow : (0 : ℚ) < 10 ^ DivisionPrecision := by positivity
  have hval : ∀ l : Int, agg.UsageLimit = some l → l ≠ 0 →
      (summarize DivisionPrecision featureID agg sources currentUsage).UsagePercent =
        (roundHalfAway (currentUsage / (l : ℚ) * 10 ^ DivisionPrecision) : ℚ) /
          10 ^ DivisionPrecision := by
    intro l hl hne
    simp [summarize, usagePercent, hl, hne, decimal.Div, DivRound]
  refine ⟨rfl, rfl, ?_, ?_, ?_, ?_⟩
  · intro l hl hne
    refine ⟨by simp [summarize, usagePercent, hl, hne], ?_, ?_⟩
    · rw [hval l hl hne]
      exact ⟨_, DivisionPrecision, rfl⟩
    · rw [hval l hl hne]
      have hb := abs_roundHalfAway_sub_le (currentUsage / (l : ℚ) * 10 ^ DivisionPrecision)
      have he : ∀ a x p : ℚ, 0 < p → a / p - x = (a - x * p) / p := by
        intro a x p hp
        field_simp
        ring
      rw [he _ _ _ hpow]
      rw [abs_div, abs_of_pos hpow, div_le_iff₀ hpow]
      calc |(roundHalfAway (currentUsage / (l : ℚ) * 10 ^ DivisionPrecision) : ℚ) -
            currentUsage / (l : ℚ) * 10 ^ DivisionPrecision| ≤ 1 / 2 := hb
        _ = 1 / (2 * 10 ^ DivisionPrecision) * 10 ^ DivisionPrecision := by
          field_simp
  · rintro l hl hne ⟨n, hn⟩
    rw [hval l hl hne]
    have hx : currentUsage / (l : ℚ) * 10 ^ DivisionPrecision = (n : ℚ) := by
      rw [hn]
      field_simp
    rw [hx, roundHalfAway_intCast, hn]
  · intro l hl hpos hlt
    have hne : l ≠ 0 := ne_of_gt hpos
    have hposq : (0 : ℚ) < (l : ℚ) := by exact_mod_cast hpos
    rw [hval l hl hne, le_div_iff₀ hpow, one_mul]
    have hq : (1 : ℚ) ≤ currentUsage / (l : ℚ) := by
      rw [le_div_iff₀ hposq]
      linarith
    have hle : (((10 : Int) ^ DivisionPrecision : Int) : ℚ) ≤
        currentUsage / (l : ℚ) * 10 ^ DivisionPrecision := by
      push_cast
      nlinarith
    have := le_roundHalfAway ((10 : Int) ^ DivisionPrecision) _ (by positivity) hle
    exact_mod_cast this
  · rintro (hnone | hzero)
    · simp [summarize, usagePercent, hnone]
    · simp [summarize, usagePercent, hzero]

open dto decimal in
/-- Witness of C6: `total_limit = 100` and `current_usage = 150` give
`usage_percent = 1.5`, above 1, with the usage still 150. -/
theorem usage_percent_rule_witness :
    (∃ n : Int, (150 : Decimal) / ((100 : Int) : ℚ) = (n : ℚ) / 10 ^ 16) ∧
    (summarize 16 "f1" { emptyEntitlement with UsageLimit := some 100 } [] 150).CurrentUsage
      = 150 ∧
    (summarize 16 "f1" { emptyEntitlement with UsageLimit := some 100 } [] 150).UsagePercent
      = 3 / 2 ∧
    1 ≤ (summarize 16 "f1" { emptyEntitlement with UsageLimit := some 100 } [] 150).UsagePercent :=
  have h := usage_percent_rule 16 "f1" { emptyEntitlement with UsageLimit := some 100 } [] 150
  have hn : ∃ n : Int, (150 : Decimal) / ((100 : Int) : ℚ) = (n : ℚ) / 10 ^ 16 :=
    ⟨15000000000000000, by norm_num⟩
  ⟨hn, h.1, (h.2.2.2.1 100 rfl (by decide) hn).trans (by norm_num),
    h.2.2.2.2.1 100 rfl (by decide) (by norm_num)⟩

/-! ### The wallet builder -/

namespace ent

theorem firstError_eq_none_iff (l : List (Option Error)) :
    firstError l = none ↔ ∀ e ∈ l, e = none := by
  induction l with
  | nil => simp [firstError]
  | cons a rest ih =>
    cases a with
    | none => simp [firstError, ih]
    | some e => simp [firstError]

/-- Helper: a `defaults` step leaves alone whatever its setter leaves alone. -/
theorem setDefault_frame {α β : Type} (proj : WalletCreate → β)
    (get : WalletMutation → Option α) (set : WalletCreate → α → WalletCreate) (v : α)
    (wc : WalletCreate) (hset : ∀ c x, proj (set c x) = proj c) :
    proj (setDefault get set v wc) = proj wc := by
  unfold setDefault
  split
  · rfl
  · exact hset wc v

theorem setDefault_own_balance (d : Decimal) (wc : WalletCreate) :
    (setDefault (fun m => m.balance) WalletCreate.SetBalance d wc).mutation.balance =
      some (wc.mutation.balance.getD d) := by
  unfold setDefault
  cases h : wc.mutation.balance <;> simp [h, WalletCreate.SetBalance]

theorem setDefault_own_wallet_status (d : String) (wc : WalletCreate) :
    (setDefault (fun m => m.wallet_status) WalletCreate.SetWalletStatus d wc).mutation.wallet_status =
      some (wc.mutation.wallet_status.getD d) := by
  unfold setDefault
  cases h : wc.mutation.wallet_status <;> simp [h, WalletCreate.SetWalletStatus]

theorem defaults_fields (pkg : WalletPackage) (wc : WalletCreate) :
    (wc.defaults pkg).hooks = wc.hooks ∧
    (wc.defaults pkg).mutation.balance = some (wc.mutation.balance.getD pkg.DefaultBalance) ∧
    (wc.defaults pkg).mutation.wallet_status =
      some (wc.mutation.wallet_status.getD pkg.DefaultWalletStatus) ∧
    (wc.defaults pkg).mutation.conversion_rate = wc.mutation.conversion_rate := by
  refine ⟨?_, ?_, ?_, ?_⟩
  · simp only [WalletCreate.defaults]
    iterate 8 rw [setDefault_frame (fun c => c.hooks)]
    all_goals (intro c x; rfl)
  · simp only [WalletCreate.defaults]
    iterate 3 rw [setDefault_frame (fun c => c.mutation.balance)]
    rw [setDefault_own_balance]
    iterate 4 rw [setDefault_frame (fun c => c.mutation.balance)]
    all_goals (intro c x; rfl)
  · simp only [WalletCreate.defaults]
    iterate 2 rw [setDefault_frame (fun c => c.mutation.wallet_status)]
    rw [setDefault_own_wallet_status]
    iterate 5 rw [setDefault_frame (fun c => c.mutation.wallet_status)]
    all_goals (intro c x; rfl)
  · simp only [WalletCreate.defaults]
    iterate 8 rw [setDefault_frame (fun c => c.mutation.conversion_rate)]
    all_goals (intro c x; rfl)

theorem sqlSave_error_of_check (rt : Runtime) (wc : WalletCreate)
    (h : wc.check rt.wallet ≠ none) : ∃ e, wc.sqlSave rt = Except.error e := by
  unfold WalletCreate.sqlSave
  cases hres : wc.check rt.wallet with
  | none => exact absurd hres h
  | some err => exact ⟨err, rfl⟩

theorem sqlSave_ok (rt : Runtime) (wc : WalletCreate) (w : Wallet)
    (h : wc.sqlSave rt = Except.ok w) :
    wc.check rt.wallet = none ∧
      ∃ id, w = { (wc.createSpec rt.wallet).1 with ID := id } := by
  unfold WalletCreate.sqlSave at h
  split at h
  · cases h
  · rename_i hchk
    refine ⟨hchk, ?_⟩
    simp only at h
    split at h
    · split at h <;> cases h
    · cases h
      exact ⟨_, rfl⟩
    · cases h
      exact ⟨_, rfl⟩
    all_goals cases h

/-- Helper: the trigger step of `defaults` fills in the default trigger. -/
theorem setDefault_own_auto_topup_trigger (d : String) (wc : WalletCreate) :
    (setDefault (fun m => m.auto_topup_trigger) WalletCreate.SetAutoTopupTrigger d
        wc).mutation.auto_topup_trigger =
      some (wc.mutation.auto_topup_trigger.getD d) := by
  unfold setDefault
  cases h : wc.mutation.auto_topup_trigger <;> simp [h, WalletCreate.SetAutoTopupTrigger]

/-- Helper: what `defaults` does to the three auto-topup fields. -/
theorem defaults_auto_topup (pkg : WalletPackage) (wc : WalletCreate) :
    (wc.defaults pkg).mutation.auto_topup_trigger =
      some (wc.mutation.auto_topup_trigger.getD pkg.DefaultAutoTopupTrigger) ∧
    (wc.defaults pkg).mutation.auto_topup_min_balance = wc.mutation.auto_topup_min_balance ∧
    (wc.defaults pkg).mutation.auto_topup_amount = wc.mutation.auto_topup_amount := by
  refine ⟨?_, ?_, ?_⟩
  · simp only [WalletCreate.defaults]
    rw [setDefault_frame (fun c => c.mutation.auto_topup_trigger),
      setDefault_own_auto_topup_trigger]
    iterate 6 rw [setDefault_frame (fun c => c.mutation.auto_topup_trigger)]
    all_goals (intro c x; rfl)
  · simp only [WalletCreate.defaults]
    iterate 8 rw [setDefault_frame (fun c => c.mutation.auto_topup_min_balance)]
    all_goals (intro c x; rfl)
  · simp only [WalletCreate.defaults]
    iterate 8 rw [setDefault_frame (fun c => c.mutation.auto_topup_amount)]
    all_goals (intro c x; rfl)

/-- Helper: a required-field step looks only at whether the field is set. -/
theorem requiredField_eq {α : Type} (v : Option α) (name : String) :
    requiredField v name =
      if v.isSome then none
      else some (Error.ValidationError name (CheckFailure.missingRequiredField name)) := by
  cases v <;> rfl

/-- Helper: `check` depends on the builder through `checkedFields` only. -/
theorem check_congr (pkg : WalletPackage) (a b : WalletCreate)
    (h : checkedFields a.mutation = checkedFields b.mutation) : a.check pkg = b.check pkg := by
  simp only [checkedFields, Prod.mk.injEq] at h
  obtain ⟨h1, h2, h3, h4, h5, h6, h7, h8, h9, h10, h11, h12⟩ := h
  simp only [WalletCreate.check, requiredField_eq, h1, h2, h3, h4, h5, h6, h7, h8, h9, h10,
    h11, h12]

/-- Helper: a `defaults` step on a field `check` does not read keeps two builders equal on
the checked fields. -/
theorem setDefault_checked_outside {α : Type} (get : WalletMutation → Option α)
    (set : WalletCreate → α → WalletCreate) (v : α) (a b : WalletCreate)
    (hset : ∀ c x, checkedFields (set c x).mutation = checkedFields c.mutation)
    (h : checkedFields a.mutation = checkedFields b.mutation) :
    checkedFields (setDefault get set v a).mutation =
      checkedFields (setDefault get set v b).mutation := by
  rw [setDefault_frame (fun c => checkedFields c.mutation) get set v a hset,
    setDefault_frame (fun c => checkedFields c.mutation) get set v b hset]
  exact h

/-- Helper: a `defaults` step on a field `check` requires keeps two builders equal on the
checked fields. -/
theorem setDefault_checked_inside {α : Type} (get : WalletMutation → Option α)
    (set : WalletCreate → α → WalletCreate) (v : α) (a b : WalletCreate)
    (hget : ∀ c c' : WalletCreate, checkedFields c.mutation = checkedFields c'.mutation →
      (get c.mutation).isSome = (get c'.mutation).isSome)
    (hset : ∀ (c c' : WalletCreate) x, checkedFields c.mutation = checkedFields c'.mutation →
      checkedFields (set c x).mutation = checkedFields (set c' x).mutation)
    (h : checkedFields a.mutation = checkedFields b.mutation) :
    checkedFields (setDefault get set v a).mutation =
      checkedFields (setDefault get set v b).mutation := by
  have hsome := hget a b h
  unfold setDefault
  cases ha : get a.mutation with
  | none =>
    cases hb : get b.mutation with
    | none => exact hset a b v h
    | some y => simp [ha, hb] at hsome
  | some x =>
    cases hb : get b.mutation with
    | none => simp [ha, hb] at hsome
    | some y => exact h

/-- Helper: `defaults` keeps two builders equal on the checked fields. -/
theorem defaults_checkedFields (pkg : WalletPackage) (a b : WalletCreate)
    (h : checkedFields a.mutation = checkedFields b.mutation) :
    checkedFields (a.defaults pkg).mutation = checkedFields (b.defaults pkg).mutation := by
  simp only [WalletCreate.defaults]
  apply setDefault_checked_inside
  · intro c c' hc
    simp only [checkedFields, Prod.mk.injEq] at hc
    simp [hc]
  · intro c c' x hc
    simp only [checkedFields, Prod.mk.injEq] at hc
    simp [checkedFields, WalletCreate.SetWalletType, hc]
  apply setDefault_checked_outside
  · intro c x
    rfl
  apply setDefault_checked_inside
  · intro c c' hc
    simp only [checkedFields, Prod.mk.injEq] at hc
    simp [hc]
  · intro c c' x hc
    simp only [checkedFields, Prod.mk.injEq] at hc
    simp [checkedFields, WalletCreate.SetWalletStatus, hc]
  apply setDefault_checked_inside
  · intro c c' hc
    simp only [checkedFields, Prod.mk.injEq] at hc
    simp [hc]
  · intro c c' x hc
    simp only [checkedFields, Prod.mk.injEq] at hc
    simp [checkedFields, WalletCreate.SetBalance, hc]
  apply setDefault_checked_outside
  · intro c x
    rfl
  apply setDefault_checked_inside
  · intro c c' hc
    simp only [checkedFields, Prod.mk.injEq] at hc
    simp [hc]
  · intro c c' x hc
    simp only [checkedFields, Prod.mk.injEq] at hc
    simp [checkedFields, WalletCreate.SetUpdatedAt, hc]
  apply setDefault_checked_inside
  · intro c c' hc
    simp only [checkedFields, Prod.mk.injEq] at hc
    simp [hc]
  · intro c c' x hc
    simp only [checkedFields, Prod.mk.injEq] at hc
    simp [checkedFields, WalletCreate.SetCreatedAt, hc]
  apply setDefault_checked_inside
  · intro c c' hc
    simp only [checkedFields, Prod.mk.injEq] at hc
    simp [hc]
  · intro c c' x hc
    simp only [checkedFields, Prod.mk.injEq] at hc
    simp [checkedFields, WalletCreate.SetStatus, hc]
  exact h

end ent

open ent in
/-- C7, the claim as stated fails: a builder on which `SetBalance(100)` and
`SetWalletStatus("frozen")` were called saves a wallet with balance 100 and status
`frozen`, not balance 0 and status `active`. -/
theorem save_keeps_set_balance_and_wallet_status :
    ∃ w, prefundedFrozenBuilder.Save exampleRuntime = Except.ok w ∧
      w.Balance = 100 ∧ w.WalletStatus = "frozen" ∧
      w.Balance ≠ 0 ∧ w.WalletStatus ≠ "active" := by
  refine ⟨_, rfl, rfl, rfl, ?_, ?_⟩
  · show (100 : ℚ) ≠ 0
    norm_num
  · show "frozen" ≠ "active"
    decide

open ent in
/-- C7 (amended): every wallet produced by a successful `WalletCreate.Save` with no hooks
registered has the balance given to `SetBalance`, or `wallet.DefaultBalance` when the
balance was not set, and the wallet status given to `SetWalletStatus`, or
`wallet.DefaultWalletStatus` when it was not set. -/
theorem save_balance_and_wallet_status (rt : Runtime) (wc : WalletCreate) (w : Wallet)
    (hhooks : wc.hooks = []) (hrun : ∀ exec m, rt.withHooks exec m [] = exec m)
    (hsave : wc.Save rt = Except.ok w) :
    w.Balance = wc.mutation.balance.getD rt.wallet.DefaultBalance ∧
      w.WalletStatus = wc.mutation.wallet_status.getD rt.wallet.DefaultWalletStatus := by
  obtain ⟨hh, hb, hs, _⟩ := defaults_fields rt.wallet wc
  unfold WalletCreate.Save at hsave
  simp only [hh, hhooks, hrun] at hsave
  obtain ⟨_, id, hw⟩ := sqlSave_ok rt _ w hsave
  subst hw
  simp [WalletCreate.createSpec, hb, hs]

open ent in
/-- Witness of C7 (amended): the minimal builder, with neither balance nor wallet status
set, saves a wallet with the defaults, balance 0 and status `active`. -/
theorem save_balance_and_wallet_status_witness :
    ∃ w, (minimalBuilder 1).Save exampleRuntime = Except.ok w ∧
      w.Balance = 0 ∧ w.WalletStatus = "active" :=
  ⟨_, rfl,
    save_balance_and_wallet_status exampleRuntime (minimalBuilder 1) _ rfl (fun _ _ => rfl) rfl⟩

open ent in
/-- C8, the claim as stated fails: builders whose conversion rate is 0 and -3 pass `check`
once the defaults are applied, and `Save` creates wallets with those rates. -/
theorem save_accepts_nonpositive_conversion_rate :
    ((minimalBuilder 0).defaults exampleRuntime.wallet).check exampleRuntime.wallet = none ∧
    (∃ w, (minimalBuilder 0).Save exampleRuntime = Except.ok w ∧ w.ConversionRate = 0) ∧
    ((minimalBuilder (-3)).defaults exampleRuntime.wallet).check exampleRuntime.wallet = none ∧
    (∃ w, (minimalBuilder (-3)).Save exampleRuntime = Except.ok w ∧ w.ConversionRate = -3) :=
  ⟨rfl, ⟨_, rfl, rfl⟩, rfl, ⟨_, rfl, rfl⟩⟩

open ent in
/-- C8 (amended): wallet creation enforces that `conversion_rate` is set, not its sign: for
every builder whose conversion rate is not set, `WalletCreate.check` returns an error and
`Save` (no hooks registered) creates no wallet; when it is set, `check` does not look at
the value, so any two rates, positive or not, give the same result of `check`, before and
after `defaults`. -/
theorem check_conversion_rate_presence_only (rt : Runtime) (wc : WalletCreate) :
    (wc.mutation.conversion_rate = none → wc.check rt.wallet ≠ none) ∧
    (wc.mutation.conversion_rate = none → wc.hooks = [] →
        (∀ exec m, rt.withHooks exec m [] = exec m) → ∃ e, wc.Save rt = Except.error e) ∧
    (∀ d d' : Decimal,
        (wc.SetConversionRate d).check rt.wallet = (wc.SetConversionRate d').check rt.wallet ∧
        ((wc.SetConversionRate d).defaults rt.wallet).check rt.wallet =
          ((wc.SetConversionRate d').defaults rt.wallet).check rt.wallet) := by
  have hmissing : ∀ c : WalletCreate, c.mutation.conversion_rate = none →
      c.check rt.wallet ≠ none := by
    intro c hc hnone
    have hall := (firstError_eq_none_iff _).mp hnone
      (requiredField c.mutation.conversion_rate "conversion_rate")
      (by simp [WalletCreate.check])
    rw [hc] at hall
    simp [requiredField] at hall
  refine ⟨hmissing wc, ?_, ?_⟩
  · intro hc hhooks hrun
    obtain ⟨hh, _, _, hr⟩ := defaults_fields rt.wallet wc
    unfold WalletCreate.Save
    simp only [hh, hhooks, hrun]
    exact sqlSave_error_of_check rt _ (hmissing _ (hr.trans hc))
  · intro d d'
    exact ⟨check_congr _ _ _ rfl, check_congr _ _ _ (defaults_checkedFields _ _ _ rfl)⟩

open ent in
/-- Witness of C8 (amended): the builder without a conversion rate is rejected by `check`
and `Save` returns an error. -/
theorem check_conversion_rate_presence_only_witness :
    noRateBuilder.mutation.conversion_rate = none ∧
      noRateBuilder.check exampleRuntime.wallet ≠ none ∧
      ∃ e, noRateBuilder.Save exampleRuntime = Except.error e :=
  have h := check_conversion_rate_presence_only exampleRuntime noRateBuilder
  ⟨rfl, h.1 rfl, h.2.1 rfl rfl (fun _ _ => rfl)⟩

open ent in
/-- C9, the claim as stated fails: a builder whose trigger is `balance_below_threshold`
with neither `auto_topup_min_balance` nor `auto_topup_amount` set passes `check` and is
saved, and so is one with a negative minimum balance and a zero amount. -/
theorem save_accepts_trigger_without_amounts :
    triggerOnlyBuilder.mutation.auto_topup_trigger = some "balance_below_threshold" ∧
    triggerOnlyBuilder.mutation.auto_topup_min_balance = none ∧
    triggerOnlyBuilder.mutation.auto_topup_amount = none ∧
    (triggerOnlyBuilder.defaults exampleRuntime.wallet).check exampleRuntime.wallet = none ∧
    (∃ w, triggerOnlyBuilder.Save exampleRuntime = Except.ok w ∧
      w.AutoTopupTrigger = some "balance_below_threshold" ∧
      w.AutoTopupMinBalance = none ∧ w.AutoTopupAmount = none) ∧
    (badTopupBuilder.defaults exampleRuntime.wallet).check exampleRuntime.wallet = none ∧
    (∃ w, badTopupBuilder.Save exampleRuntime = Except.ok w ∧
      w.AutoTopupTrigger = some "balance_below_threshold" ∧
      w.AutoTopupMinBalance = some (-5) ∧ w.AutoTopupAmount = some 0) :=
  ⟨rfl, rfl, rfl, rfl, ⟨_, rfl, rfl, rfl, rfl⟩, rfl, ⟨_, rfl, rfl, rfl, rfl⟩⟩

open ent in
/-- C9 (amended): `WalletCreate.check` does not inspect `auto_topup_trigger`,
`auto_topup_min_balance` or `auto_topup_amount`: for every builder, the result of `check`,
before and after `defaults`, is the same whatever these three fields hold, set or unset, so
a builder whose trigger is `balance_below_threshold` is accepted or rejected on its other
fields alone; and a successful `Save` (no hooks registered) stores the minimum balance and
the amount exactly as they were set or left unset, and the trigger that was set or else the
default trigger. -/
theorem check_ignores_auto_topup (rt : Runtime) (wc : WalletCreate)
    (trigger : Option String) (minBalance amount : Option Decimal) :
    WalletCreate.check rt.wallet
        { wc with mutation := { wc.mutation with
                                auto_topup_trigger := trigger
                                auto_topup_min_balance := minBalance
                                auto_topup_amount := amount } } =
      wc.check rt.wallet ∧
    WalletCreate.check rt.wallet
        (WalletCreate.defaults rt.wallet
          { wc with mutation := { wc.mutation with
                                  auto_topup_trigger := trigger
                                  auto_topup_min_balance := minBalance
                                  auto_topup_amount := amount } }) =
      (wc.defaults rt.wallet).check rt.wallet ∧
    (∀ w, wc.hooks = [] → (∀ exec m, rt.withHooks exec m [] = exec m) →
      wc.Save rt = Except.ok w →
        w.AutoTopupTrigger =
            some (wc.mutation.auto_topup_trigger.getD rt.wallet.DefaultAutoTopupTrigger) ∧
          w.AutoTopupMinBalance = wc.mutation.auto_topup_min_balance ∧
          w.AutoTopupAmount = wc.mutation.auto_topup_amount) := by
  refine ⟨check_congr _ _ _ rfl, ?_, ?_⟩
  · exact check_congr _ _ _ (defaults_checkedFields _ _ _ rfl)
  · intro w hhooks hrun hsave
    obtain ⟨hh, _, _, _⟩ := defaults_fields rt.wallet wc
    obtain ⟨ht, hm, ha⟩ := defaults_auto_topup rt.wallet wc
    unfold WalletCreate.Save at hsave
    simp only [hh, hhooks, hrun] at hsave
    obtain ⟨_, id, hw⟩ := sqlSave_ok rt _ w hsave
    subst hw
    simp [WalletCreate.createSpec, ht, hm, ha]

open ent in
/-- Witness of C9 (amended): the builder with the trigger `balance_below_threshold` and no
amounts is saved with the trigger and with both amounts unset. -/
theorem check_ignores_auto_topup_witness :
    ∃ w, triggerOnlyBuilder.Save exampleRuntime = Except.ok w ∧
      w.AutoTopupTrigger = some "balance_below_threshold" ∧
      w.AutoTopupMinBalance = none ∧ w.AutoTopupAmount = none :=
  ⟨_, rfl, (check_ignores_auto_topup exampleRuntime triggerOnlyBuilder none none none).2.2 _
    rfl (fun _ _ => rfl) rfl⟩

/-! ### Currency precision -/

/-- Helper: a code made of white space only trims to the empty string. -/
theorem strings.TrimSpace_blank (lib : GoLib) (s : String)
    (hblank : ∀ c ∈ s.data, lib.IsSpace c = true) : strings.TrimSpace lib s = "" := by
  have h : s.data.dropWhile lib.IsSpace = [] := List.dropWhile_eq_nil_iff.mpr hblank
  simp [strings.TrimSpace, h]

/-- Helper: a code that trims to the empty string has the default precision. -/
theorem types.GetCurrencyPrecision_of_trim_empty (lib : GoLib) (code : String)
    (h : strings.TrimSpace lib code = "") : types.GetCurrencyPrecision lib code = 2 := by
  have hup : strings.ToUpper lib (strings.TrimSpace lib code) = "" := by
    rw [h]
    rfl
  simp [types.GetCurrencyPrecision, types.Currency.Precision, hup, types.DEFAULT_PRECISION,
    types.toInt32]

open types in
/-- C10: for every code, `GetCurrencyConfig(code).Precision` is the precision of the
`CURRENCY_CONFIG` entry of the lower-cased code (2 for usd and eur, 0 for jpy and krw) and 2
when the lower-cased code is not in the table, so codes that differ only in letter case get
the same config; and `GetCurrencyPrecision(code)` is 2 for every code that is empty, is
blank, or whose upper-cased trimmed form is not recognised by `ParseISO` and has no
`CURRENCY_CONFIG` entry. -/
theorem currency_precision_lookup (lib : GoLib) (code : String) :
    (∀ config, CURRENCY_CONFIG.lookup (strings.ToLower lib code) = some config →
        (GetCurrencyConfig lib code).Precision = config.Precision) ∧
    (CURRENCY_CONFIG.lookup (strings.ToLower lib code) = none →
        (GetCurrencyConfig lib code).Precision = 2) ∧
    (strings.ToLower lib code = "usd" ∨ strings.ToLower lib code = "eur" →
        (GetCurrencyConfig lib code).Precision = 2) ∧
    (strings.ToLower lib code = "jpy" ∨ strings.ToLower lib code = "krw" →
        (GetCurrencyConfig lib code).Precision = 0) ∧
    (∀ code', strings.ToLower lib code' = strings.ToLower lib code →
        GetCurrencyConfig lib code' = GetCurrencyConfig lib code) ∧
    (code = "" → GetCurrencyPrecision lib code = 2) ∧
    ((∀ c ∈ code.data, lib.IsSpace c = true) → GetCurrencyPrecision lib code = 2) ∧
    (lib.ParseISO (strings.ToUpper lib (strings.TrimSpace lib code)) = none →
      CURRENCY_CONFIG.lookup
          (strings.ToLower lib (strings.ToUpper lib (strings.TrimSpace lib code))) = none →
      GetCurrencyPrecision lib code = 2) := by
  refine ⟨?_, ?_, ?_, ?_, ?_, ?_, ?_, ?_⟩
  · intro config h
    simp [GetCurrencyConfig, h]
  · intro h
    simp [GetCurrencyConfig, h, DEFAULT_PRECISION]
  · rintro (h | h) <;> simp only [GetCurrencyConfig, h] <;> rfl
  · rintro (h | h) <;> simp only [GetCurrencyConfig, h] <;> rfl
  · intro code' h
    simp [GetCurrencyConfig, h]
  · intro h
    subst h
    exact GetCurrencyPrecision_of_trim_empty lib "" (strings.TrimSpace_blank lib "" (by simp))
  · intro h
    exact GetCurrencyPrecision_of_trim_empty lib code (strings.TrimSpace_blank lib code h)
  · intro hiso hcfg
    unfold GetCurrencyPrecision Currency.Precision
    simp only [hiso, hcfg]
    split <;> simp [DEFAULT_PRECISION, toInt32]

open types in
/-- Witness of C10 on the ASCII library: `JPY` and `Krw` have precision 0 and `Usd`
precision 2 in `GetCurrencyConfig`, and `GetCurrencyPrecision` is 2 for the empty code, a
blank code and the unknown code `xyz`. -/
theorem currency_precision_lookup_witness :
    (GetCurrencyConfig asciiLib "JPY").Precision = 0 ∧
    (GetCurrencyConfig asciiLib "Krw").Precision = 0 ∧
    (GetCurrencyConfig asciiLib "Usd").Precision = 2 ∧
    (GetCurrencyConfig asciiLib "xyz").Precision = 2 ∧
    GetCurrencyPrecision asciiLib "" = 2 ∧
    GetCurrencyPrecision asciiLib "   " = 2 ∧
    GetCurrencyPrecision asciiLib "xyz" = 2 :=
  ⟨(currency_precision_lookup asciiLib "JPY").2.2.2.1 (Or.inl rfl),
    (currency_precision_lookup asciiLib "Krw").2.2.2.1 (Or.inr rfl),
    (currency_precision_lookup asciiLib "Usd").2.2.1 (Or.inl rfl),
    (currency_precision_lookup asciiLib "xyz").2.1 rfl,
    (currency_precision_lookup asciiLib "").2.2.2.2.2.1 rfl,
    (currency_precision_lookup asciiLib "   ").2.2.2.2.2.2.1 (by decide),
    (currency_precision_lookup asciiLib "xyz").2.2.2.2.2.2.2 rfl rfl⟩

/-! ### Currency codes -/

namespace strings

/-- Helper: what is left after dropping a prefix does not start with a dropped element. -/
theorem head?_dropWhile_false {α : Type} (p : α → Bool) (l : List α) (x : α)
    (h : (l.dropWhile p).head? = some x) : p x = false := by
  have := List.head?_dropWhile_not p l
  rw [h] at this
  exact this

/-- Helper: nothing is dropped from a list whose head is to be kept. -/
theorem dropWhile_of_head {α : Type} (p : α → Bool) (l : List α)
    (h : ∀ x, l.head? = some x → p x = false) : l.dropWhile p = l := by
  cases l with
  | nil => rfl
  | cons a rest => simp [List.dropWhile_cons, h a rfl]

/-- Helper: a list trimmed at both ends neither starts nor ends with a trimmed element. -/
theorem trim_edges {α : Type} (p : α → Bool) (l : List α) :
    (∀ x, (((l.dropWhile p).reverse.dropWhile p).reverse).head? = some x → p x = false) ∧
    (∀ x, (((l.dropWhile p).reverse.dropWhile p).reverse).getLast? = some x → p x = false) := by
  constructor
  · intro x hx
    have hpre : ((l.dropWhile p).reverse.dropWhile p).reverse <+: l.dropWhile p :=
      List.rdropWhile_prefix p (l.dropWhile p)
    obtain ⟨t, ht⟩ := hpre
    cases hr : ((l.dropWhile p).reverse.dropWhile p).reverse with
    | nil => simp [hr] at hx
    | cons a rest =>
      rw [hr] at hx ht
      simp at hx
      subst hx
      exact head?_dropWhile_false p l a (by rw [← ht]; rfl)
  · intro x hx
    rw [List.getLast?_reverse] at hx
    exact head?_dropWhile_false p _ x hx

/-- Helper: trimming a list that neither starts nor ends with a trimmed element changes
nothing. -/
theorem trim_of_edges {α : Type} (p : α → Bool) (l : List α)
    (hhead : ∀ x, l.head? = some x → p x = false)
    (hlast : ∀ x, l.getLast? = some x → p x = false) :
    ((l.dropWhile p).reverse.dropWhile p).reverse = l := by
  rw [dropWhile_of_head p l hhead,
    dropWhile_of_head p l.reverse (by simpa [List.head?_reverse] using hlast),
    List.reverse_reverse]

/-- Helper: with stable tables, the upper case of a trimmed string is already trimmed. -/
theorem TrimSpace_ToUpper_TrimSpace (lib : GoLib)
    (hspace : ∀ c, lib.IsSpace c = false → lib.IsSpace (lib.ToUpper c) = false) (s : String) :
    TrimSpace lib (ToUpper lib (TrimSpace lib s)) = ToUpper lib (TrimSpace lib s) := by
  obtain ⟨hh, hl⟩ := trim_edges lib.IsSpace s.data
  unfold TrimSpace ToUpper
  simp only
  congr 1
  apply trim_of_edges
  · intro x hx
    rw [List.head?_map] at hx
    cases hd : (((s.data.dropWhile lib.IsSpace).reverse.dropWhile lib.IsSpace).reverse).head? with
    | none => simp [hd] at hx
    | some y =>
      simp [hd] at hx
      subst hx
      exact hspace y (hh y hd)
  · intro x hx
    rw [List.getLast?_map] at hx
    cases hd :
        (((s.data.dropWhile lib.IsSpace).reverse.dropWhile lib.IsSpace).reverse).getLast? with
    | none => simp [hd] at hx
    | some y =>
      simp [hd] at hx
      subst hx
      exact hspace y (hl y hd)

/-- Helper: with stable tables, upper-casing twice is upper-casing once. -/
theorem ToUpper_ToUpper (lib : GoLib) (hidem : ∀ c, lib.ToUpper (lib.ToUpper c) = lib.ToUpper c)
    (s : String) : ToUpper lib (ToUpper lib s) = ToUpper lib s := by
  unfold ToUpper
  simp [List.map_map, Function.comp_def, hidem]

/-- Helper: upper-casing keeps a non-empty string non-empty. -/
theorem ToUpper_eq_empty (lib : GoLib) (s : String) : ToUpper lib s = "" ↔ s = "" := by
  unfold ToUpper
  constructor
  · intro h
    have hd : s.data.map lib.ToUpper = [] := congrArg String.data h
    have : s.data = [] := List.map_eq_nil_iff.mp hd
    exact String.ext this
  · intro h
    subst h
    rfl

end strings

namespace types

/-- Helper: with stable tables, a normalized code is its own normal form. -/
theorem normalized_stable (lib : GoLib) (hlib : UpperStable lib) (s : String) :
    strings.ToUpper lib (strings.TrimSpace lib (strings.ToUpper lib (strings.TrimSpace lib s))) =
      strings.ToUpper lib (strings.TrimSpace lib s) := by
  rw [strings.TrimSpace_ToUpper_TrimSpace lib hlib.2, strings.ToUpper_ToUpper lib hlib.1]

end types

open types in
/-- C11: for every string `s`, `NewCurrency(s)` fails exactly when `s` trimmed of surrounding
white space is empty or its upper-cased form is not accepted by `ParseISO`; when it succeeds,
the returned currency is the upper-cased trimmed `s`, passes `Validate` (`IsValid` is true)
and is a fixed point of `Normalize`.  The last two use that the Unicode tables are
stable. -/
theorem new_currency_contract (lib : GoLib) (s : String) (hlib : UpperStable lib) :
    ((∃ e, NewCurrency lib s = Except.error e) ↔
      (strings.TrimSpace lib s = "" ∨
        lib.ParseISO (strings.ToUpper lib (strings.TrimSpace lib s)) = none)) ∧
    (∀ c, NewCurrency lib s = Except.ok c →
      c = strings.ToUpper lib (strings.TrimSpace lib s) ∧
      Currency.Validate lib c = none ∧ Currency.IsValid lib c = true ∧
      Currency.Normalize lib c = c) := by
  constructor
  · unfold NewCurrency
    simp only
    by_cases hempty : strings.TrimSpace lib s = ""
    · simp [hempty]
    · cases hiso : lib.ParseISO (strings.ToUpper lib (strings.TrimSpace lib s)) with
      | none => simp [hempty]
      | some u => simp [hempty]
  · intro c hc
    unfold NewCurrency at hc
    simp only at hc
    by_cases hempty : strings.TrimSpace lib s = ""
    · simp [hempty] at hc
    · cases hiso : lib.ParseISO (strings.ToUpper lib (strings.TrimSpace lib s)) with
      | none => simp [hempty, hiso] at hc
      | some u =>
        simp [hempty, hiso] at hc
        subst hc
        have htrim := strings.TrimSpace_ToUpper_TrimSpace lib hlib.2 s
        have hup := strings.ToUpper_ToUpper lib hlib.1 (strings.TrimSpace lib s)
        have hne : strings.ToUpper lib (strings.TrimSpace lib s) ≠ "" :=
          fun h => hempty ((strings.ToUpper_eq_empty lib _).mp h)
        have hval : Currency.Validate lib (strings.ToUpper lib (strings.TrimSpace lib s)) =
            none := by
          unfold Currency.Validate
          simp only [htrim, hup, hiso, hne, if_false]
        refine ⟨rfl, hval, ?_, ?_⟩
        · simp [Currency.IsValid, hval]
        · unfold Currency.Normalize
          simp only [htrim, hup, hne, if_false]

namespace types

/-- Helper: the ASCII upper case changes a rune only if it is one of `a`..`z`. -/
theorem toUpper_eq_or (c : Char) : c.toUpper = c ∨ (97 ≤ c.toNat ∧ c.toNat ≤ 122) := by
  unfold Char.toUpper
  simp only
  split
  · right
    assumption
  · left
    rfl

/-- Helper: the ASCII upper case is idempotent. -/
theorem toUpper_toUpper (c : Char) : c.toUpper.toUpper = c.toUpper := by
  rcases toUpper_eq_or c with h | ⟨h1, h2⟩
  · rw [h, h]
  · have hc : Char.ofNat c.toNat = c := Char.ofNat_toNat c
    rw [← hc]
    generalize c.toNat = n at h1 h2
    interval_cases n <;> decide

/-- Helper: the ASCII lower case does not see the ASCII upper case. -/
theorem toLower_toUpper (c : Char) : c.toUpper.toLower = c.toLower := by
  rcases toUpper_eq_or c with h | ⟨h1, h2⟩
  · rw [h]
  · have hc : Char.ofNat c.toNat = c := Char.ofNat_toNat c
    rw [← hc]
    generalize c.toNat = n at h1 h2
    interval_cases n <;> decide

/-- Helper: the ASCII upper case of an ASCII rune is an ASCII rune. -/
theorem toUpper_ascii (c : Char) (h : c.toNat < 128) : c.toUpper.toNat < 128 := by
  rcases toUpper_eq_or c with h' | ⟨h1, h2⟩
  · rw [h']
    exact h
  · have hc : Char.ofNat c.toNat = c := Char.ofNat_toNat c
    rw [← hc]
    generalize c.toNat = n at h1 h2
    interval_cases n <;> decide

/-- The evaluation library has stable tables. -/
theorem asciiLib_upperStable : UpperStable asciiLib := by
  constructor
  · intro c
    exact toUpper_toUpper c
  · intro c hc
    show (decide (c.toUpper.toNat = 32) || (decide (9 ≤ c.toUpper.toNat) &&
      decide (c.toUpper.toNat ≤ 13))) = false
    rcases toUpper_eq_or c with h | ⟨h1, h2⟩
    · rw [h]
      exact hc
    · have hc' : Char.ofNat c.toNat = c := Char.ofNat_toNat c
      rw [← hc']
      generalize c.toNat = n at h1 h2
      interval_cases n <;> decide

/-- The evaluation library has the ASCII case tables. -/
theorem asciiLib_asciiCase : AsciiCase asciiLib :=
  ⟨fun _ _ => rfl, fun _ _ _ _ => rfl⟩

end types

open types in
/-- Witness of C11 on the ASCII library: ` usd ` gives `USD`, which is valid and normalized;
a blank string and `xyz` are rejected. -/
theorem new_currency_contract_witness :
    UpperStable asciiLib ∧ NewCurrency asciiLib " usd " = Except.ok "USD" ∧
    Currency.Validate asciiLib "USD" = none ∧ Currency.IsValid asciiLib "USD" = true ∧
    Currency.Normalize asciiLib "USD" = "USD" ∧
    (∃ e, NewCurrency asciiLib "  " = Except.error e) ∧
    (∃ e, NewCurrency asciiLib "xyz" = Except.error e) :=
  have h := (new_currency_contract asciiLib " usd " asciiLib_upperStable).2 "USD" rfl
  ⟨asciiLib_upperStable, rfl, h.2.1, h.2.2.1, h.2.2.2,
    (new_currency_contract asciiLib "  " asciiLib_upperStable).1.mpr (Or.inl (by decide)),
    (new_currency_contract asciiLib "xyz" asciiLib_upperStable).1.mpr (Or.inr (by decide))⟩

namespace types

/-- Helper: on ASCII runes, `strings.EqualFold` compares the ASCII lower cases. -/
theorem equalFoldRunes_iff (lib : GoLib) (hlib : AsciiCase lib) (xs ys : List Char)
    (hx : ∀ c ∈ xs, c.toNat < 128) (hy : ∀ c ∈ ys, c.toNat < 128) :
    strings.equalFoldRunes lib xs ys = true ↔ xs.map Char.toLower = ys.map Char.toLower := by
  induction xs generalizing ys with
  | nil =>
    cases ys with
    | nil => simp [strings.equalFoldRunes]
    | cons y ys => simp [strings.equalFoldRunes]
  | cons x xs ih =>
    cases ys with
    | nil => simp [strings.equalFoldRunes]
    | cons y ys =>
      have hxs : ∀ c ∈ xs, c.toNat < 128 := fun c hc => hx c (List.mem_cons_of_mem _ hc)
      have hys : ∀ c ∈ ys, c.toNat < 128 := fun c hc => hy c (List.mem_cons_of_mem _ hc)
      have hfold := hlib.2 x y (hx x (List.mem_cons_self _ _)) (hy y (List.mem_cons_self _ _))
      simp [strings.equalFoldRunes, hfold, ih ys hxs hys]

/-- Helper: upper-casing an ASCII string with the library is the ASCII upper case. -/
theorem ToUpper_data_ascii (lib : GoLib) (hlib : AsciiCase lib) (a : String)
    (ha : ∀ c ∈ a.data, c.toNat < 128) :
    (strings.ToUpper lib a).data = a.data.map Char.toUpper := by
  unfold strings.ToUpper
  simp only
  exact List.map_congr_left (fun c hc => hlib.1 c (ha c hc))

/-- Helper: the runes of an ASCII string are ASCII. -/
theorem isASCII_mem (a : String) (h : isASCII a = true) : ∀ c ∈ a.data, c.toNat < 128 := by
  intro c hc
  have := List.all_eq_true.mp h c hc
  simpa using this

end types

open types in
/-- C12: for all ASCII codes `a`, `b`, `c`, `a.Equal(b)` and `IsMatchingCurrency(a, b)`
return the same result, which is true exactly when `a` and `b` are the same string up to
letter case (their ASCII lower cases are equal); `Equal` is reflexive, symmetric and
transitive, and every code is `Equal` to its `String()` form. -/
theorem currency_equal_fold (lib : GoLib) (hlib : AsciiCase lib) (a b c : String)
    (ha : isASCII a = true) (hb : isASCII b = true) (hc : isASCII c = true) :
    Currency.Equal lib a b = IsMatchingCurrency lib a b ∧
    (Currency.Equal lib a b = true ↔ a.data.map Char.toLower = b.data.map Char.toLower) ∧
    Currency.Equal lib a a = true ∧
    (Currency.Equal lib a b = true → Currency.Equal lib b a = true) ∧
    (Currency.Equal lib a b = true → Currency.Equal lib b c = true →
      Currency.Equal lib a c = true) ∧
    Currency.Equal lib a (Currency.GoString lib a) = true := by
  have ha := isASCII_mem a ha
  have hb := isASCII_mem b hb
  have hc := isASCII_mem c hc
  have hab := equalFoldRunes_iff lib hlib a.data b.data ha hb
  have hba := equalFoldRunes_iff lib hlib b.data a.data hb ha
  have hbc := equalFoldRunes_iff lib hlib b.data c.data hb hc
  have hac := equalFoldRunes_iff lib hlib a.data c.data ha hc
  have haa := equalFoldRunes_iff lib hlib a.data a.data ha ha
  refine ⟨rfl, hab, haa.mpr rfl, fun h => hba.mpr (hab.mp h).symm,
    fun h1 h2 => hac.mpr ((hab.mp h1).trans (hbc.mp h2)), ?_⟩
  have hup := ToUpper_data_ascii lib hlib a ha
  have hascii : ∀ x ∈ (strings.ToUpper lib a).data, x.toNat < 128 := by
    intro x hx
    rw [hup] at hx
    obtain ⟨y, hy, rfl⟩ := List.mem_map.mp hx
    exact toUpper_ascii y (ha y hy)
  refine (equalFoldRunes_iff lib hlib a.data (strings.ToUpper lib a).data ha hascii).mpr ?_
  rw [hup, List.map_map]
  exact List.map_congr_left (fun x _ => (toLower_toUpper x).symm)

open types in
/-- Witness of C12 on the ASCII library: `usd`, `USD` and `Usd` are pairwise equal, `usd`
equals its `String()` form, and `usd` does not equal `eur`. -/
theorem currency_equal_fold_witness :
    AsciiCase asciiLib ∧ isASCII "usd" = true ∧ isASCII "USD" = true ∧
    isASCII "Usd" = true ∧
    Currency.Equal asciiLib "usd" "USD" = IsMatchingCurrency asciiLib "usd" "USD" ∧
    Currency.Equal asciiLib "usd" "USD" = true ∧
    Currency.Equal asciiLib "USD" "usd" = true ∧
    Currency.Equal asciiLib "usd" "Usd" = true ∧
    Currency.Equal asciiLib "usd" (Currency.GoString asciiLib "usd") = true ∧
    Currency.Equal asciiLib "usd" "eur" = false :=
  have h1 : isASCII "usd" = true := by decide
  have h2 : isASCII "USD" = true := by decide
  have h3 : isASCII "Usd" = true := by decide
  have h := currency_equal_fold asciiLib asciiLib_asciiCase "usd" "USD" "Usd" h1 h2 h3
  have he : Currency.Equal asciiLib "usd" "USD" = true := h.2.1.mpr (by decide)
  ⟨asciiLib_asciiCase, h1, h2, h3, h.1, he, h.2.2.2.1 he,
    h.2.2.2.2.1 he (by decide), h.2.2.2.2.2, by decide⟩

namespace types

/-- Helper: what `Validate` accepts: a code that is not blank and whose upper-cased trimmed
form `ParseISO` recognises. -/
theorem Validate_eq_none_iff (lib : GoLib) (c : Currency) :
    Currency.Validate lib c = none ↔
      strings.TrimSpace lib c ≠ "" ∧
        ∃ u, lib.ParseISO (strings.ToUpper lib (strings.TrimSpace lib c)) = some u := by
  unfold Currency.Validate
  simp only
  by_cases hempty : strings.TrimSpace lib c = ""
  · simp [hempty]
  · cases hiso : lib.ParseISO (strings.ToUpper lib (strings.TrimSpace lib c)) with
    | none => simp [hempty]
    | some u => simp [hempty]

/-- Helper: `Normalize` is the upper-cased trimmed code. -/
theorem Normalize_eq (lib : GoLib) (c : Currency) :
    Currency.Normalize lib c = strings.ToUpper lib (strings.TrimSpace lib c) := by
  unfold Currency.Normalize
  simp only
  split
  · rename_i h
    rw [h]
    rfl
  · rfl

/-- Helper: with stable tables, a normalized code that `ParseISO` recognises passes
`Validate`. -/
theorem Validate_normalized (lib : GoLib) (hlib : UpperStable lib) (s : String) (u : String)
    (hne : strings.ToUpper lib (strings.TrimSpace lib s) ≠ "")
    (hiso : lib.ParseISO (strings.ToUpper lib (strings.TrimSpace lib s)) = some u) :
    Currency.Validate lib (strings.ToUpper lib (strings.TrimSpace lib s)) = none := by
  rw [Validate_eq_none_iff, normalized_stable lib hlib,
    strings.TrimSpace_ToUpper_TrimSpace lib hlib.2]
  exact ⟨hne, u, hiso⟩

end types

open types in
/-- C13: for every currency `c` that passes `Validate`, `UnmarshalJSON` applied to
`MarshalJSON(c)` succeeds and yields `c.Normalize()`, the upper-cased trimmed code, given
that `json` decodes what it encoded for that code; and two JSON strings whose contents
have the same upper-cased trimmed form, as the same code in different letter case has,
unmarshal to the same currency. -/
theorem json_round_trip (lib : GoLib) (hlib : UpperStable lib) (c : Currency)
    (hvalid : Currency.Validate lib c = none)
    (hjson : lib.JSONUnmarshalString (lib.JSONMarshalString (Currency.Normalize lib c)) =
      some (Currency.Normalize lib c)) :
    Currency.UnmarshalJSON lib (Currency.MarshalJSON lib c) =
        Except.ok (Currency.Normalize lib c) ∧
    Currency.Normalize lib c = strings.ToUpper lib (strings.TrimSpace lib c) ∧
    (∀ data data' str str', lib.JSONUnmarshalString data = some str →
      lib.JSONUnmarshalString data' = some str' →
      strings.ToUpper lib (strings.TrimSpace lib str) =
        strings.ToUpper lib (strings.TrimSpace lib str') →
      (Currency.UnmarshalJSON lib data).toOption =
        (Currency.UnmarshalJSON lib data').toOption) := by
  obtain ⟨hne, u, hiso⟩ := (Validate_eq_none_iff lib c).mp hvalid
  have hnorm := Normalize_eq lib c
  have hne' : strings.ToUpper lib (strings.TrimSpace lib c) ≠ "" :=
    fun h => hne ((strings.ToUpper_eq_empty lib _).mp h)
  refine ⟨?_, hnorm, ?_⟩
  · rw [hnorm] at hjson ⊢
    unfold Currency.MarshalJSON Currency.UnmarshalJSON
    simp only [hne, if_false, hjson, normalized_stable lib hlib, hne', hiso]
  · intro data data' str str' hd hd' heq
    unfold Currency.UnmarshalJSON
    simp only [hd, hd', heq]
    split
    · rfl
    · split <;> rfl

open types in
/-- Witness of C13 on the ASCII library: ` usd ` marshals and unmarshals to `USD`, and the
JSON strings `usd` and `Usd` unmarshal to the same currency, `USD`. -/
theorem json_round_trip_witness :
    UpperStable asciiLib ∧ Currency.Validate asciiLib " usd " = none ∧
    Currency.UnmarshalJSON asciiLib (Currency.MarshalJSON asciiLib " usd ") = Except.ok "USD" ∧
    (Currency.UnmarshalJSON asciiLib (quoteJSON "usd")).toOption =
      (Currency.UnmarshalJSON asciiLib (quoteJSON "Usd")).toOption ∧
    (Currency.UnmarshalJSON asciiLib (quoteJSON "Usd")).toOption = some "USD" :=
  have h := json_round_trip asciiLib asciiLib_upperStable " usd " rfl rfl
  ⟨asciiLib_upperStable, rfl, h.1, h.2.2 (quoteJSON "usd") (quoteJSON "Usd") "usd" "Usd" rfl rfl rfl,
    rfl⟩

open types in
/-- C14, the claim as stated fails: `UnmarshalJSON` returns no error on the JSON strings
`""` and `"  "` and stores the empty currency, which does not pass `Validate`. -/
theorem unmarshal_empty_not_valid :
    Currency.UnmarshalJSON asciiLib (quoteJSON "") = Except.ok "" ∧
    Currency.UnmarshalJSON asciiLib (quoteJSON "  ") = Except.ok "" ∧
    Currency.Validate asciiLib "" = some CurrencyError.emptyCode ∧
    Currency.IsValid asciiLib "" = false :=
  ⟨rfl, rfl, rfl, rfl⟩

open types in
/-- C14 (amended): for every JSON input on which `UnmarshalJSON` returns no error, the
currency it stores is the upper-cased trimmed content of the JSON string, and it is either
empty, exactly when that content is blank, or passes `Validate` (`IsValid` is true). -/
theorem unmarshal_stores_empty_or_valid (lib : GoLib) (hlib : UpperStable lib) (data : String)
    (cur : Currency) (hok : Currency.UnmarshalJSON lib data = Except.ok cur) :
    (cur = "" ∨ (Currency.Validate lib cur = none ∧ Currency.IsValid lib cur = true)) ∧
    (∃ str, lib.JSONUnmarshalString data = some str ∧
      cur = strings.ToUpper lib (strings.TrimSpace lib str) ∧
      (cur = "" ↔ strings.TrimSpace lib str = "")) := by
  unfold Currency.UnmarshalJSON at hok
  cases hd : lib.JSONUnmarshalString data with
  | none => simp [hd] at hok
  | some str =>
    simp only [hd] at hok
    by_cases hempty : strings.ToUpper lib (strings.TrimSpace lib str) = ""
    · simp only [hempty, if_true] at hok
      cases hok
      exact ⟨Or.inl rfl, str, rfl, hempty.symm,
        ⟨fun _ => (strings.ToUpper_eq_empty lib _).mp hempty, fun _ => rfl⟩⟩
    · simp only [hempty, if_false] at hok
      cases hiso : lib.ParseISO (strings.ToUpper lib (strings.TrimSpace lib str)) with
      | none => simp [hiso] at hok
      | some u =>
        simp only [hiso] at hok
        cases hok
        have hval := Validate_normalized lib hlib str u hempty hiso
        refine ⟨Or.inr ⟨hval, by simp [Currency.IsValid, hval]⟩, str, rfl, rfl, ?_⟩
        constructor
        · intro h
          exact absurd h hempty
        · intro h
          exact absurd ((strings.ToUpper_eq_empty lib _).mpr h) hempty

open types in
/-- Witness of C14 (amended) on the ASCII library: the JSON string `usd` is stored as
`USD`, which passes `Validate`. -/
theorem unmarshal_stores_empty_or_valid_witness :
    UpperStable asciiLib ∧
    Currency.UnmarshalJSON asciiLib (quoteJSON "usd") = Except.ok "USD" ∧
    Currency.Validate asciiLib "USD" = none ∧ Currency.IsValid asciiLib "USD" = true :=
  have h := (unmarshal_stores_empty_or_valid asciiLib asciiLib_upperStable (quoteJSON "usd")
    "USD" rfl).1
  ⟨asciiLib_upperStable, rfl,
    h.elim (fun he => absurd he (by decide)) (fun hv => hv.1),
    h.elim (fun he => absurd he (by decide)) (fun hv => hv.2)⟩

open types in
/-- C15: for every string or byte-slice database value, `Scan` returns no error and stores
the upper-cased, trimmed value, whether or not `ParseISO` recognises it; nil stores the
empty currency and a value of any other Go type is an error; and `Scan` applied to
`c.Value()` yields `c.Normalize()` for every currency `c`, given stable Unicode tables. -/
theorem scan_reads_any_text (lib : GoLib) (hlib : UpperStable lib) (c : Currency)
    (str : String) :
    Currency.Scan lib (DBValue.string str) =
        Except.ok (strings.ToUpper lib (strings.TrimSpace lib str)) ∧
    Currency.Scan lib (DBValue.bytes str) =
        Except.ok (strings.ToUpper lib (strings.TrimSpace lib str)) ∧
    Currency.Scan lib DBValue.null = Except.ok "" ∧
    (∀ t, Currency.Scan lib (DBValue.other t) = Except.error CurrencyError.invalidType) ∧
    (∃ v, Currency.Value lib c = Except.ok v ∧
      Currency.Scan lib v = Except.ok (Currency.Normalize lib c)) := by
  have hscan : ∀ s, Currency.Scan lib (DBValue.string s) =
      Except.ok (strings.ToUpper lib (strings.TrimSpace lib s)) := by
    intro s
    unfold Currency.Scan
    simp only
    split
    · rename_i h
      rw [h]
    · split <;> rfl
  refine ⟨hscan str, ?_, rfl, fun _ => rfl, ?_⟩
  · unfold Currency.Scan
    simp only
    split
    · rename_i h
      rw [h]
    · split <;> rfl
  · refine ⟨DBValue.string (Currency.Normalize lib c), ?_, ?_⟩
    · unfold Currency.Value Currency.Normalize
      simp only
      split <;> rfl
    · rw [hscan, Normalize_eq, normalized_stable lib hlib]

open types in
/-- Witness of C15 on the ASCII library: ` xx ` is stored as `XX` although it is not a
valid code, the bytes `usd` are stored as `USD`, and scanning the value of ` eur` gives
`EUR`. -/
theorem scan_reads_any_text_witness :
    UpperStable asciiLib ∧
    Currency.Scan asciiLib (DBValue.string " xx ") = Except.ok "XX" ∧
    Currency.Validate asciiLib "XX" ≠ none ∧
    Currency.Scan asciiLib (DBValue.bytes "usd") = Except.ok "USD" ∧
    (∃ v, Currency.Value asciiLib " eur" = Except.ok v ∧
      Currency.Scan asciiLib v = Except.ok "EUR") :=
  have h := scan_reads_any_text asciiLib asciiLib_upperStable " eur" " xx "
  ⟨asciiLib_upperStable, h.1, by decide,
    (scan_reads_any_text asciiLib asciiLib_upperStable "" "usd").2.1, h.2.2.2.2⟩

open types in
/-- C16 fails on the code: `xyz` is not in `CURRENCY_CONFIG`, and `GetCurrencySymbol("xyz")`
is `XYZ`, the upper-cased code that `Currency.Symbol` falls back to, not the code itself
that the comment on `GetCurrencySymbol` (currency.go:65-67) promises. -/
theorem symbol_fallback_upper_cases :
    CURRENCY_CONFIG.lookup (strings.ToLower asciiLib (strings.TrimSpace asciiLib "xyz")) = none ∧
    GetCurrencySymbol asciiLib "xyz" = "XYZ" ∧
    GetCurrencySymbol asciiLib "xyz" ≠ "xyz" :=
  ⟨rfl, rfl, by decide⟩

open types in
/-- What `GetCurrencySymbol` returns: for every code, the configured symbol when the
lower-cased, trimmed code is found in `CURRENCY_CONFIG`, and the upper-cased code (not
trimmed) when it is not found; so it returns the input itself only when the input is
already upper case. -/
theorem currency_symbol_lookup (lib : GoLib) (code : String) :
    (∀ config,
      CURRENCY_CONFIG.lookup (strings.ToLower lib (strings.TrimSpace lib code)) = some config →
      GetCurrencySymbol lib code = config.Symbol) ∧
    (CURRENCY_CONFIG.lookup (strings.ToLower lib (strings.TrimSpace lib code)) = none →
      GetCurrencySymbol lib code = strings.ToUpper lib code) ∧
    (CURRENCY_CONFIG.lookup (strings.ToLower lib (strings.TrimSpace lib code)) = none →
      strings.ToUpper lib code = code → GetCurrencySymbol lib code = code) := by
  refine ⟨?_, ?_, ?_⟩
  · intro config h
    simp [GetCurrencySymbol, Currency.Symbol, h]
  · intro h
    simp [GetCurrencySymbol, Currency.Symbol, h]
  · intro h hup
    simp [GetCurrencySymbol, Currency.Symbol, h, hup]

open types in
/-- On the ASCII library: `usd` gives `$`, ` EUR ` gives the euro sign, `XYZ` is returned
as it is, and ` xyz` comes back upper-cased, with its blank. -/
theorem currency_symbol_lookup_witness :
    GetCurrencySymbol asciiLib "usd" = "$" ∧
    GetCurrencySymbol asciiLib " EUR " = "€" ∧
    GetCurrencySymbol asciiLib "XYZ" = "XYZ" ∧
    GetCurrencySymbol asciiLib " xyz" = " XYZ" :=
  ⟨(currency_symbol_lookup asciiLib "usd").1 _ rfl,
    (currency_symbol_lookup asciiLib " EUR ").1 _ rfl,
    (currency_symbol_lookup asciiLib "XYZ").2.2 rfl rfl,
    (currency_symbol_lookup asciiLib " xyz").2.1 rfl⟩

/-! ### The MCP adapter: path templates -/

namespace mcp

theorem replaceMatches_pending (f : String → String) :
    ∀ (l acc : List Char), closeBrace ∉ l →
      replaceMatches f (some acc) l = openBrace :: (acc ++ l) := by
  intro l
  induction l with
  | nil => intro acc _; simp [replaceMatches]
  | cons c rest ih =>
    intro acc h
    have hc : c ≠ closeBrace := fun e => h (by simp [e])
    have hr : closeBrace ∉ rest := fun e => h (by simp [e])
    simp [replaceMatches, hc, ih (acc ++ [c]) hr]

theorem replaceMatches_close (f : String → String) (post : List Char) :
    ∀ (name acc : List Char), closeBrace ∉ name →
      replaceMatches f (some acc) (name ++ closeBrace :: post) =
        if acc ++ name = [] then openBrace :: closeBrace :: replaceMatches f none post
        else (f (String.mk (openBrace :: (acc ++ name ++ [closeBrace])))).data ++
          replaceMatches f none post := by
  intro name
  induction name with
  | nil => intro acc _; simp [replaceMatches]
  | cons c rest ih =>
    intro acc h
    have hc : c ≠ closeBrace := fun e => h (by simp [e])
    have hr : closeBrace ∉ rest := fun e => h (by simp [e])
    simp [replaceMatches, hc, ih (acc ++ [c]) hr]

theorem replaceMatches_plain (f : String → String) (l : List Char) :
    ∀ (pre : List Char), openBrace ∉ pre →
      replaceMatches f none (pre ++ l) = pre ++ replaceMatches f none l := by
  intro pre
  induction pre with
  | nil => intro _; rfl
  | cons c rest ih =>
    intro h
    have hc : c ≠ openBrace := fun e => h (by simp [e])
    have hr : openBrace ∉ rest := fun e => h (by simp [e])
    simp [replaceMatches, hc, ih hr]

theorem replaceMatches_nil (f : String → String) : replaceMatches f none [] = [] := by
  simp [replaceMatches]

theorem replaceMatches_id (f : String → String) (hf : ∀ m, f m = m) :
    ∀ (l : List Char) (pending : Option (List Char)),
      replaceMatches f pending l =
        match pending with
        | none => l
        | some acc => openBrace :: (acc ++ l) := by
  intro l
  induction l with
  | nil => intro p; cases p <;> simp [replaceMatches]
  | cons c rest ih =>
    intro p
    cases p with
    | none =>
      by_cases hc : c = openBrace
      · simp [replaceMatches, hc, ih (some [])]
      · simp [replaceMatches, hc, ih none]
    | some acc =>
      by_cases hc : c = closeBrace
      · by_cases ha : acc = []
        · simp [replaceMatches, hc, ha, ih none]
        · simp [replaceMatches, hc, ha, ih none, hf]
      · simp [replaceMatches, hc, ih (some (acc ++ [c]))]

theorem matchName_placeholder (name : List Char) :
    matchName (String.mk (openBrace :: (name ++ [closeBrace]))) = String.mk name := by
  simp [matchName]

/-- Every string the scanner hands to the callback is a placeholder. -/
theorem replaceMatches_congr (f g : String → String)
    (h : ∀ name : List Char, name ≠ [] → closeBrace ∉ name →
      f (String.mk (openBrace :: (name ++ [closeBrace]))) =
        g (String.mk (openBrace :: (name ++ [closeBrace])))) :
    ∀ (l : List Char) (pending : Option (List Char)),
      (∀ acc, pending = some acc → closeBrace ∉ acc) →
      replaceMatches f pending l = replaceMatches g pending l := by
  intro l
  induction l with
  | nil => intro p _; cases p <;> simp [replaceMatches]
  | cons c rest ih =>
    intro p hp
    cases p with
    | none =>
      by_cases hc : c = openBrace
      · simp [replaceMatches, hc]; exact ih (some []) (by simp)
      · simp [replaceMatches, hc]; exact ih none (by simp)
    | some acc =>
      have hacc := hp acc rfl
      by_cases hc : c = closeBrace
      · by_cases ha : acc = []
        · simp [replaceMatches, hc, ha]; exact ih none (by simp)
        · simp only [replaceMatches, hc, ha, if_true, if_false]
          rw [h acc ha hacc, ih none (by simp)]
      · simp only [replaceMatches, hc, if_false]
        exact ih (some (acc ++ [c])) (by
          intro a ha; cases ha
          simp [hacc, Ne.symm hc])

end mcp

open mcp in
/-- C17: `interpolatePath` does not depend on `pathParamNames`; it returns a template
without a left brace unchanged, and also one whose first left brace is followed by no right
brace; a left brace directly followed by a right brace is kept and the scan goes on after
it; the first placeholder, a left brace, a non-empty name without a right brace, and a
right brace, is replaced by the formatting of the argument of that name when the argument
is present and not nil and is kept otherwise, everything before it is kept, and the rest of
the template is treated the same way; and with no non-nil argument at all the template is
returned unchanged. -/
theorem interpolate_path_contract {α : Type} (sprint : α → String) (args : Args α)
    (names : List String) :
    (∀ (template : String) (names2 : List String),
      interpolatePath sprint template args names2 = interpolatePath sprint template args names) ∧
    (∀ template : String, openBrace ∉ template.data →
      interpolatePath sprint template args names = template) ∧
    (∀ pre rest : String, openBrace ∉ pre.data → closeBrace ∉ rest.data →
      interpolatePath sprint (pre ++ "\x7b" ++ rest) args names = pre ++ "\x7b" ++ rest) ∧
    (∀ pre post : String, openBrace ∉ pre.data →
      interpolatePath sprint (pre ++ "\x7b\x7d" ++ post) args names =
        pre ++ "\x7b\x7d" ++ interpolatePath sprint post args names) ∧
    (∀ pre name post : String, openBrace ∉ pre.data → name ≠ "" → closeBrace ∉ name.data →
      interpolatePath sprint (pre ++ "\x7b" ++ name ++ "\x7d" ++ post) args names =
        pre ++
          (match args name with
            | some (some v) => sprint v
            | _ => "\x7b" ++ name ++ "\x7d") ++
          interpolatePath sprint post args names) ∧
    ((∀ name : String, args name = none ∨ args name = some none) →
      ∀ template : String, interpolatePath sprint template args names = template) := by
  refine ⟨fun _ _ => rfl, ?_, ?_, ?_, ?_, ?_⟩
  · intro template h
    have := replaceMatches_plain
      (fun m => match args (matchName m) with
        | some (some v) => sprint v
        | _ => m) [] template.data h
    simp only [List.append_nil, replaceMatches_nil] at this
    apply String.ext
    exact this
  · intro pre rest hpre hrest
    have hb : ("\x7b" : String) = String.mk [openBrace] := rfl
    rw [hb]
    apply String.ext
    simp only [interpolatePath, pathParamRe_ReplaceAllStringFunc, String.data_append,
      List.append_assoc]
    rw [replaceMatches_plain _ _ _ hpre]
    simp only [List.singleton_append, List.cons_append, List.append_eq, List.nil_append,
      replaceMatches, if_true]
    rw [replaceMatches_pending _ _ _ hrest]
    simp
  · intro pre post hpre
    have hb : ("\x7b\x7d" : String) = String.mk [openBrace, closeBrace] := rfl
    rw [hb]
    apply String.ext
    simp only [interpolatePath, pathParamRe_ReplaceAllStringFunc, String.data_append,
      List.append_assoc]
    rw [replaceMatches_plain _ _ _ hpre]
    have hc : closeBrace ≠ openBrace := by decide
    simp [replaceMatches, hc]
  · intro pre name post hpre hname hclose
    have hb : ("\x7b" : String) = String.mk [openBrace] := rfl
    have hd : ("\x7d" : String) = String.mk [closeBrace] := rfl
    rw [hb, hd]
    apply String.ext
    simp only [interpolatePath, pathParamRe_ReplaceAllStringFunc, String.data_append,
      List.append_assoc]
    rw [replaceMatches_plain _ _ _ hpre]
    simp only [List.singleton_append, List.cons_append, List.append_eq, List.nil_append,
      replaceMatches, if_true]
    rw [replaceMatches_close _ _ _ _ hclose]
    have hne : name.data ≠ [] := fun e => hname (String.ext e)
    simp only [List.nil_append, hne, if_false, matchName_placeholder]
    congr 1
  · intro h template
    have hf : ∀ m : String,
        (match args (matchName m) with
          | some (some v) => sprint v
          | _ => m) = m := by
      intro m
      rcases h (matchName m) with e | e <;> rw [e]
    have := replaceMatches_id _ hf template.data none
    apply String.ext
    exact this

open mcp in
/-- A template with two placeholders, one with an argument and one with a nil argument,
and a template without placeholders. -/
theorem interpolate_path_contract_witness :
    (openBrace ∉ ("/v1/addons/" : String).data ∧ ("id" : String) ≠ "" ∧
      closeBrace ∉ ("id" : String).data ∧
      interpolatePath id ("/v1/addons/" ++ "\x7b" ++ "id" ++ "\x7d" ++ "/x/\x7bn\x7d")
          exampleArgs ["id"] =
        "/v1/addons/" ++
          (match exampleArgs "id" with
            | some (some v) => id v
            | _ => "\x7b" ++ "id" ++ "\x7d") ++
          interpolatePath id "/x/\x7bn\x7d" exampleArgs ["id"]) ∧
    (openBrace ∉ ("/v1/addons" : String).data ∧
      interpolatePath id "/v1/addons" exampleArgs ["id"] = "/v1/addons") ∧
    interpolatePath id "/v1/addons/\x7bid\x7d/x/\x7bn\x7d" exampleArgs ["id"] =
      "/v1/addons/42/x/\x7bn\x7d" :=
  ⟨⟨by decide, by decide, by decide,
      (interpolate_path_contract id exampleArgs ["id"]).2.2.2.2.1 "/v1/addons/" "id"
        "/x/\x7bn\x7d" (by decide) (by decide) (by decide)⟩,
    ⟨by decide,
      (interpolate_path_contract id exampleArgs ["id"]).2.1 "/v1/addons" (by decide)⟩,
    by decide⟩

/-! ### The MCP adapter: requests -/

namespace mcp

theorem mem_mapSet {β : Type} (m : List (String × β)) (k0 : String) (v0 : β) (k : String)
    (v : β) : (k, v) ∈ mapSet m k0 v0 ↔ (k = k0 ∧ v = v0) ∨ (k ≠ k0 ∧ (k, v) ∈ m) := by
  unfold mapSet
  split
  · rename_i h
    obtain ⟨e0, he0, hk0⟩ := List.any_eq_true.mp h
    have hk0 : e0.1 = k0 := by simpa using hk0
    simp only [List.mem_map]
    constructor
    · rintro ⟨e, he, heq⟩
      by_cases hek : e.1 = k0
      · rw [if_pos hek] at heq
        left
        cases heq
        exact ⟨rfl, rfl⟩
      · rw [if_neg hek] at heq
        right
        subst heq
        exact ⟨hek, he⟩
    · rintro (⟨rfl, rfl⟩ | ⟨hne, hmem⟩)
      · exact ⟨e0, he0, by rw [if_pos hk0]⟩
      · exact ⟨(k, v), hmem, by rw [if_neg hne]⟩
  · rename_i h
    have hno : ∀ e ∈ m, e.1 ≠ k0 := by
      intro e he hk
      exact h (List.any_eq_true.mpr ⟨e, he, by simpa using hk⟩)
    simp only [List.mem_append, List.mem_singleton, Prod.mk.injEq]
    constructor
    · rintro (hmem | ⟨rfl, rfl⟩)
      · exact Or.inr ⟨hno _ hmem, hmem⟩
      · exact Or.inl ⟨rfl, rfl⟩
    · rintro (⟨rfl, rfl⟩ | ⟨_, hmem⟩)
      · exact Or.inr ⟨rfl, rfl⟩
      · exact Or.inl hmem

theorem keys_mapSet {β : Type} (m : List (String × β)) (k : String) (v : β) :
    (mapSet m k v).map Prod.fst =
      if k ∈ m.map Prod.fst then m.map Prod.fst else m.map Prod.fst ++ [k] := by
  unfold mapSet
  by_cases h : m.any (fun e => e.1 = k) = true
  · have hk : k ∈ m.map Prod.fst := by
      obtain ⟨e, he, hke⟩ := List.any_eq_true.mp h
      have hke : e.1 = k := by simpa using hke
      exact List.mem_map.mpr ⟨e, he, hke⟩
    rw [if_pos h, if_pos hk, List.map_map]
    apply List.map_congr_left
    intro e _
    by_cases hek : e.1 = k
    · simp [hek]
    · simp [hek]
  · have hk : k ∉ m.map Prod.fst := by
      intro hk
      obtain ⟨e, he, hke⟩ := List.mem_map.mp hk
      exact h (List.any_eq_true.mpr ⟨e, he, by simpa using hke⟩)
    rw [if_neg h, if_neg hk]
    simp

theorem nodup_keys_mapSet {β : Type} (m : List (String × β)) (k : String) (v : β)
    (h : (m.map Prod.fst).Nodup) : ((mapSet m k v).map Prod.fst).Nodup := by
  rw [keys_mapSet]
  split
  · exact h
  · rename_i hk
    exact List.Nodup.append h (List.nodup_singleton k) (by
      intro a ha hb
      rw [List.mem_singleton] at hb
      exact hk (hb ▸ ha))

theorem queryValues_snoc {α : Type} (lib : McpLib α) (names : List String) (name : String)
    (args : Args α) :
    queryValues lib (names ++ [name]) args =
      match args name with
      | some (some v) => mapSet (queryValues lib names args) name (lib.Sprint v)
      | _ => queryValues lib names args := by
  unfold queryValues
  rw [List.foldl_append, List.foldl_cons, List.foldl_nil]

theorem mem_queryValues {α : Type} (lib : McpLib α) (args : Args α) (names : List String) :
    ∀ (k s : String), (k, s) ∈ queryValues lib names args ↔
      k ∈ names ∧ ∃ v, args k = some (some v) ∧ s = lib.Sprint v := by
  induction names using List.reverseRecOn with
  | nil => intro k s; simp [queryValues]
  | append_singleton l n ih =>
    intro k s
    rw [queryValues_snoc]
    cases hn : args n with
    | none =>
      simp only [ih, List.mem_append, List.mem_singleton]
      constructor
      · rintro ⟨hk, hv⟩; exact ⟨Or.inl hk, hv⟩
      · rintro ⟨hk | rfl, v, hv, hs⟩
        · exact ⟨hk, v, hv, hs⟩
        · rw [hn] at hv; cases hv
    | some o =>
      cases o with
      | none =>
        simp only [ih, List.mem_append, List.mem_singleton]
        constructor
        · rintro ⟨hk, hv⟩; exact ⟨Or.inl hk, hv⟩
        · rintro ⟨hk | rfl, v, hv, hs⟩
          · exact ⟨hk, v, hv, hs⟩
          · rw [hn] at hv; cases hv
      | some v0 =>
        simp only [mem_mapSet, ih, List.mem_append, List.mem_singleton]
        constructor
        · rintro (⟨rfl, rfl⟩ | ⟨_, hk, hv⟩)
          · exact ⟨Or.inr rfl, v0, hn, rfl⟩
          · exact ⟨Or.inl hk, hv⟩
        · rintro ⟨hk, v, hv, hs⟩
          by_cases hkn : k = n
          · subst hkn
            rw [hn] at hv
            cases hv
            exact Or.inl ⟨rfl, hs⟩
          · rcases hk with hk | hk
            · exact Or.inr ⟨hkn, hk, v, hv, hs⟩
            · exact absurd hk hkn

theorem nodup_keys_queryValues {α : Type} (lib : McpLib α) (args : Args α)
    (names : List String) : ((queryValues lib names args).map Prod.fst).Nodup := by
  induction names using List.reverseRecOn with
  | nil => simp [queryValues]
  | append_singleton l n ih =>
    rw [queryValues_snoc]
    cases hn : args n with
    | none => exact ih
    | some o =>
      cases o with
      | none => exact ih
      | some v0 => exact nodup_keys_mapSet _ _ _ ih

theorem queryValues_eq_nil {α : Type} (lib : McpLib α) (args : Args α) (names : List String) :
    queryValues lib names args = [] ↔
      ∀ name ∈ names, args name = none ∨ args name = some none := by
  constructor
  · intro h name hname
    cases hn : args name with
    | none => exact Or.inl rfl
    | some o =>
      cases o with
      | none => exact Or.inr rfl
      | some v =>
        have := (mem_queryValues lib args names name (lib.Sprint v)).mpr ⟨hname, v, hn, rfl⟩
        rw [h] at this
        cases this
  · intro h
    apply List.eq_nil_iff_forall_not_mem.mpr
    rintro ⟨k, s⟩ hmem
    obtain ⟨hk, v, hv, _⟩ := (mem_queryValues lib args names k s).mp hmem
    rcases h k hk with e | e <;> rw [e] at hv <;> cases hv

end mcp

namespace mcp

theorem encodePlain_eq_empty (q : List (String × String)) : encodePlain q = "" ↔ q = [] := by
  have hne : ∀ a b : String, a ++ "=" ++ b ≠ "" := by
    intro a b h
    have := congrArg String.length h
    simp at this
    exact absurd this.1.2 (by decide)
  have hne2 : ∀ a b c : String, a ++ "=" ++ b ++ "&" ++ c ≠ "" := by
    intro a b c h
    have := congrArg String.length h
    simp at this
    exact absurd this.1.2 (by decide)
  cases q with
  | nil => simp [encodePlain]
  | cons e rest =>
    cases rest with
    | nil => simp [encodePlain, hne]
    | cons e2 rest2 => simp [encodePlain, hne2]

end mcp

namespace mcp

theorem cutAfter_none (c : Char) (t : List Char) (h : c ∉ t) : cutAfter c t = none := by
  induction t with
  | nil => rfl
  | cons x rest ih =>
    have hx : x ≠ c := fun e => h (by simp [e])
    have hr : c ∉ rest := fun e => h (by simp [e])
    simp [cutAfter, hx, ih hr]

theorem cutAfter_append (c : Char) (t e : List Char) (h : c ∉ t) :
    cutAfter c (t ++ c :: e) = some e := by
  induction t with
  | nil => simp [cutAfter]
  | cons x rest ih =>
    have hx : x ≠ c := fun e => h (by simp [e])
    have hr : c ∉ rest := fun e => h (by simp [e])
    simp [cutAfter, hx, ih hr]

theorem rawQuery_none (t : List Char) (h : queryMark ∉ t) : rawQuery (String.mk t) = "" := by
  unfold rawQuery
  have hn : queryMark ∉ t.takeWhile (fun x => x ≠ fragmentMark) :=
    fun hm => h ((List.takeWhile_sublist _).subset hm)
  rw [cutAfter_none _ _ hn]

theorem rawQuery_append (t e : List Char) (ht : queryMark ∉ t) (htf : fragmentMark ∉ t)
    (hef : fragmentMark ∉ e) : rawQuery (String.mk (t ++ queryMark :: e)) = String.mk e := by
  unfold rawQuery
  have hall : (t ++ queryMark :: e).takeWhile (fun x => x ≠ fragmentMark) = t ++ queryMark :: e := by
    rw [List.takeWhile_eq_self_iff]
    intro x hx
    have hne : x ≠ fragmentMark := by
      intro e1
      rcases List.mem_append.mp hx with h1 | h1
      · exact htf (e1 ▸ h1)
      · rcases List.mem_cons.mp h1 with h2 | h2
        · rw [e1] at h2
          exact absurd h2 (by decide)
        · exact hef (e1 ▸ h2)
    simpa using hne
  simp only
  rw [hall, cutAfter_append _ _ _ ht]

theorem fullURL_eq {α : Type} (lib : McpLib α) (baseURL : String) (d : ToolDef)
    (args : Args α) (hEncode : ∀ q, lib.Encode q = "" ↔ q = []) :
    fullURL lib baseURL d args =
      strings.TrimSuffix baseURL "/" ++
        interpolatePath lib.Sprint d.PathTemplate args d.PathParamNames ++
        (if queryValues lib d.QueryParamNames args = [] then ""
          else "?" ++ lib.Encode (queryValues lib d.QueryParamNames args)) := by
  unfold fullURL
  by_cases hlen : d.QueryParamNames.length > 0
  · simp only [hlen, if_true]
    by_cases hq : queryValues lib d.QueryParamNames args = []
    · have he : lib.Encode (queryValues lib d.QueryParamNames args) = "" := (hEncode _).mpr hq
      simp [hq, he, (hEncode []).mpr rfl]
    · have he : lib.Encode (queryValues lib d.QueryParamNames args) ≠ "" :=
        fun h => hq ((hEncode _).mp h)
      simp [hq, he, String.append_assoc]
  · have hnil : d.QueryParamNames = [] := by
      cases hd : d.QueryParamNames with
      | nil => rfl
      | cons a l => rw [hd] at hlen; simp at hlen
    simp [hnil, queryValues]

end mcp

open mcp in
/-- C18 fails on the code: path arguments are put into the URL as they are, while query
values are encoded, so the argument `a?x=1&limit=9` for the path parameter `id` gives the
request that `CallAPI` sends the query string `x=1&limit=9`, with the undeclared name `x`
and with `limit`, although no name of `QueryParamNames` has a value in the arguments and no
query value is appended. -/
theorem call_api_query_from_path_argument :
    (∀ name ∈ addonToolDef.QueryParamNames, queryInPathArgs name = none) ∧
    queryValues plainLib addonToolDef.QueryParamNames queryInPathArgs = [] ∧
    buildRequest plainLib "http://api" "key" addonToolDef queryInPathArgs =
      .ok { Method := "GET"
            URL := "http://api/v1/addons/a?x=1&limit=9"
            Body := none
            Header := [("Content-Type", "application/json"), ("x-api-key", "key")] } ∧
    CallAPI plainLib "http://api" "key" addonToolDef queryInPathArgs =
      { responseBody := some "http://api/v1/addons/a?x=1&limit=9", statusCode := 200
        isErr := false, err := none } ∧
    rawQuery "http://api/v1/addons/a?x=1&limit=9" = "x=1&limit=9" ∧
    queryNames (rawQuery "http://api/v1/addons/a?x=1&limit=9") = ["x", "limit"] ∧
    "x" ∉ addonToolDef.QueryParamNames :=
  ⟨by decide, by decide, rfl, rfl, by decide, by decide, by decide⟩

open mcp in
/-- What `CallAPI` does: it sends the request it builds, and returns its error when none is
built.  The request carries a body exactly when the tool definition has a body, its method
is POST, PUT or PATCH, and the arguments hold a non-nil `body`; the body is then the JSON
encoding of that argument, and a request is built in both cases whenever the encoding and
the request constructor succeed.  The query values that `CallAPI` appends hold exactly the
names of `QueryParamNames` with a non-nil argument, each once, with the formatting of the
argument; the URL is the base URL without a trailing slash, the interpolated path, and a
question mark with the encoded values when there are any and nothing otherwise.  When the
base URL and the interpolated path hold no question mark and no number sign, and the
encoded values no number sign, the query string of the request is the encoded values,
and it is empty when there are none. -/
theorem call_api_request {α : Type} (lib : McpLib α) (baseURL apiKey : String) (d : ToolDef)
    (args : Args α) (hEncode : ∀ q, lib.Encode q = "" ↔ q = []) :
    (∀ req, buildRequest lib baseURL apiKey d args = .ok req →
      CallAPI lib baseURL apiKey d args = readResponse (lib.Do req)) ∧
    (∀ e, buildRequest lib baseURL apiKey d args = .error e →
      CallAPI lib baseURL apiKey d args =
        { responseBody := none, statusCode := 0, isErr := true, err := some e }) ∧
    (∀ b data, d.HasBody = true →
      (d.Method = "POST" ∨ d.Method = "PUT" ∨ d.Method = "PATCH") →
      args "body" = some (some b) → lib.Marshal b = .ok data →
      lib.NewRequestError (requestMethod d.Method) (fullURL lib baseURL d args) = none →
      ∃ req, buildRequest lib baseURL apiKey d args = .ok req ∧ req.Body = some data) ∧
    (¬ (d.HasBody = true ∧ (d.Method = "POST" ∨ d.Method = "PUT" ∨ d.Method = "PATCH") ∧
        ∃ b, args "body" = some (some b)) →
      lib.NewRequestError (requestMethod d.Method) (fullURL lib baseURL d args) = none →
      ∃ req, buildRequest lib baseURL apiKey d args = .ok req ∧ req.Body = none) ∧
    (∀ req, buildRequest lib baseURL apiKey d args = .ok req →
      req.Method = requestMethod d.Method ∧ req.URL = fullURL lib baseURL d args ∧
      (req.Body ≠ none ↔
        (d.HasBody = true ∧ (d.Method = "POST" ∨ d.Method = "PUT" ∨ d.Method = "PATCH") ∧
          ∃ b, args "body" = some (some b))) ∧
      (∀ data, req.Body = some data →
        ∃ b, args "body" = some (some b) ∧ lib.Marshal b = .ok data)) ∧
    (∀ name value, (name, value) ∈ queryValues lib d.QueryParamNames args ↔
      name ∈ d.QueryParamNames ∧ ∃ v, args name = some (some v) ∧ value = lib.Sprint v) ∧
    ((queryValues lib d.QueryParamNames args).map Prod.fst).Nodup ∧
    (queryValues lib d.QueryParamNames args = [] ↔
      ∀ name ∈ d.QueryParamNames, args name = none ∨ args name = some none) ∧
    fullURL lib baseURL d args =
      strings.TrimSuffix baseURL "/" ++
        interpolatePath lib.Sprint d.PathTemplate args d.PathParamNames ++
        (if queryValues lib d.QueryParamNames args = [] then ""
          else "?" ++ lib.Encode (queryValues lib d.QueryParamNames args)) ∧
    (queryMark ∉ (strings.TrimSuffix baseURL "/" ++
        interpolatePath lib.Sprint d.PathTemplate args d.PathParamNames).data →
      fragmentMark ∉ (strings.TrimSuffix baseURL "/" ++
        interpolatePath lib.Sprint d.PathTemplate args d.PathParamNames).data →
      fragmentMark ∉ (lib.Encode (queryValues lib d.QueryParamNames args)).data →
      rawQuery (fullURL lib baseURL d args) =
        if queryValues lib d.QueryParamNames args = [] then ""
        else lib.Encode (queryValues lib d.QueryParamNames args)) := by
  refine ⟨?_, ?_, ?_, ?_, ?_, mem_queryValues lib args d.QueryParamNames,
    nodup_keys_queryValues lib args d.QueryParamNames,
    queryValues_eq_nil lib args d.QueryParamNames, fullURL_eq lib baseURL d args hEncode, ?_⟩
  · intro req hreq
    unfold CallAPI
    rw [hreq]
  · intro e hreq
    unfold CallAPI
    rw [hreq]
  · intro b data hb hm hbody hmar hnew
    refine ⟨{ Method := requestMethod d.Method, URL := fullURL lib baseURL d args, Body := some data
              Header := [("Content-Type", "application/json"), ("x-api-key", apiKey)] },
      ?_, rfl⟩
    simp only [buildRequest, requestBody, hb, hm, hbody, hmar, hnew, and_self, if_true]
  · intro hno hnew
    refine ⟨{ Method := requestMethod d.Method, URL := fullURL lib baseURL d args, Body := none
              Header := [("Content-Type", "application/json"), ("x-api-key", apiKey)] },
      ?_, rfl⟩
    simp only [buildRequest, requestBody]
    by_cases hc : d.HasBody = true ∧ (d.Method = "POST" ∨ d.Method = "PUT" ∨ d.Method = "PATCH")
    · rw [if_pos hc]
      cases hbody : args "body" with
      | none => simp only [hnew]
      | some o =>
        cases o with
        | none => simp only [hnew]
        | some b => exact absurd ⟨hc.1, hc.2, b, hbody⟩ hno
    · rw [if_neg hc]
      simp only [hnew]
  · intro req hreq
    simp only [buildRequest, requestBody] at hreq
    by_cases hc : d.HasBody = true ∧ (d.Method = "POST" ∨ d.Method = "PUT" ∨ d.Method = "PATCH")
    · rw [if_pos hc] at hreq
      cases hbody : args "body" with
      | none =>
        rw [hbody] at hreq
        cases hnew : lib.NewRequestError (requestMethod d.Method) (fullURL lib baseURL d args) with
        | some e => simp [hnew] at hreq
        | none =>
          simp only [hnew] at hreq
          cases hreq
          simp
      | some o =>
        cases o with
        | none =>
          rw [hbody] at hreq
          cases hnew : lib.NewRequestError (requestMethod d.Method) (fullURL lib baseURL d args) with
          | some e => simp [hnew] at hreq
          | none =>
            simp only [hnew] at hreq
            cases hreq
            simp
        | some b =>
          rw [hbody] at hreq
          cases hmar : lib.Marshal b with
          | error e => simp [hmar] at hreq
          | ok data =>
            cases hnew : lib.NewRequestError (requestMethod d.Method) (fullURL lib baseURL d args) with
            | some e => simp [hmar, hnew] at hreq
            | none =>
              simp only [hmar, hnew] at hreq
              cases hreq
              simp [hc.1, hc.2, hmar]
    · rw [if_neg hc] at hreq
      cases hnew : lib.NewRequestError (requestMethod d.Method) (fullURL lib baseURL d args) with
      | some e => simp [hnew] at hreq
      | none =>
        simp only [hnew] at hreq
        cases hreq
        refine ⟨rfl, rfl, ?_, ?_⟩
        · simp only [ne_eq, not_true_eq_false, false_iff]
          rintro ⟨h1, h2, _⟩
          exact hc ⟨h1, h2⟩
        · intro data h; cases h
  · intro hq hf hef
    rw [fullURL_eq lib baseURL d args hEncode]
    by_cases hnil : queryValues lib d.QueryParamNames args = []
    · rw [if_pos hnil, if_pos hnil]
      have : strings.TrimSuffix baseURL "/" ++
          interpolatePath lib.Sprint d.PathTemplate args d.PathParamNames ++ "" =
          String.mk (strings.TrimSuffix baseURL "/" ++
            interpolatePath lib.Sprint d.PathTemplate args d.PathParamNames).data := by
        apply String.ext; simp
      rw [this]
      exact rawQuery_none _ hq
    · rw [if_neg hnil, if_neg hnil]
      have : strings.TrimSuffix baseURL "/" ++
          interpolatePath lib.Sprint d.PathTemplate args d.PathParamNames ++
          ("?" ++ lib.Encode (queryValues lib d.QueryParamNames args)) =
          String.mk ((strings.TrimSuffix baseURL "/" ++
            interpolatePath lib.Sprint d.PathTemplate args d.PathParamNames).data ++
            queryMark :: (lib.Encode (queryValues lib d.QueryParamNames args)).data) := by
        apply String.ext
        simp only [String.data_append, List.append_assoc]
        rfl
      rw [this, rawQuery_append _ _ hq hf hef]

open mcp in
/-- A POST with a body and a query: the request carries the encoded body, the URL ends
with the one query value that has a non-nil argument, and that is its query string. -/
theorem call_api_request_witness :
    (∀ q, plainLib.Encode q = "" ↔ q = []) ∧
    exampleToolDef.HasBody = true ∧
    (exampleToolDef.Method = "POST" ∨ exampleToolDef.Method = "PUT" ∨
      exampleToolDef.Method = "PATCH") ∧
    exampleCallArgs "body" = some (some "x") ∧
    plainLib.Marshal "x" = .ok (types.quoteJSON "x") ∧
    plainLib.NewRequestError (requestMethod exampleToolDef.Method)
      (fullURL plainLib "http://api/" exampleToolDef exampleCallArgs) = none ∧
    (∃ req, buildRequest plainLib "http://api/" "key" exampleToolDef exampleCallArgs = .ok req ∧
      req.Body = some (types.quoteJSON "x")) ∧
    queryValues plainLib exampleToolDef.QueryParamNames exampleCallArgs = [("limit", "10")] ∧
    fullURL plainLib "http://api/" exampleToolDef exampleCallArgs =
      "http://api/v1/customers/42/wallets?limit=10" ∧
    queryMark ∉ (strings.TrimSuffix "http://api/" "/" ++
      interpolatePath plainLib.Sprint exampleToolDef.PathTemplate exampleCallArgs
        exampleToolDef.PathParamNames).data ∧
    rawQuery (fullURL plainLib "http://api/" exampleToolDef exampleCallArgs) = "limit=10" :=
  ⟨encodePlain_eq_empty, rfl, Or.inl rfl, rfl, rfl, rfl,
    (call_api_request plainLib "http://api/" "key" exampleToolDef exampleCallArgs
      encodePlain_eq_empty).2.2.1 "x" (types.quoteJSON "x") rfl (Or.inl rfl) rfl rfl rfl,
    by decide, by decide, by decide,
    ((call_api_request plainLib "http://api/" "key" exampleToolDef exampleCallArgs
      encodePlain_eq_empty).2.2.2.2.2.2.2.2.2 (by decide) (by decide) (by decide)).trans
      (by decide)⟩

/-! ### The MCP adapter: operations of a document -/

namespace mcp

theorem mergeParameters_eq (item : PathItem) (operation : Operation) :
    mergeParameters item operation = item.Parameters ++ operation.Parameters := by
  unfold mergeParameters
  split
  · rfl
  · rename_i h
    have : operation.Parameters = [] := by
      cases hp : operation.Parameters with
      | nil => rfl
      | cons a l => rw [hp] at h; simp at h
    rw [this, List.append_nil]

theorem foldl_eachMethod {σ : Type} (fn : String → String → Op → σ → σ) (fullPath : String)
    (pathItem : PathItem) :
    ∀ (ops : List (String × Option Operation)) (s : σ),
      ops.foldl (eachMethod fn fullPath pathItem) s =
        (ops.filterMap (fun m =>
            m.2.map (fun operation =>
              (fullPath, m.1,
                mkOp fullPath m.1 (pathItem.Parameters ++ operation.Parameters)
                  operation)))).foldl
          (fun s c => fn c.1 c.2.1 c.2.2 s) s := by
  intro ops
  induction ops with
  | nil => intro s; rfl
  | cons m rest ih =>
    intro s
    obtain ⟨method, o⟩ := m
    cases o with
    | none =>
      simp only [List.foldl_cons, List.filterMap_cons, Option.map_none']
      exact ih s
    | some operation =>
      simp only [List.foldl_cons, List.filterMap_cons, Option.map_some']
      rw [ih]
      simp only [eachMethod, mergeParameters_eq]

theorem eachOperation_eq_foldl {σ : Type} (doc : Option T) (basePath : String)
    (fn : String → String → Op → σ → σ) (s : σ) :
    EachOperation doc basePath fn s =
      (expectedCalls doc basePath).foldl (fun s c => fn c.1 c.2.1 c.2.2 s) s := by
  cases doc with
  | none => rfl
  | some d =>
    cases hp : d.Paths with
    | none => simp [EachOperation, expectedCalls, hp]
    | some paths =>
      simp only [EachOperation, expectedCalls, hp]
      clear hp
      induction paths generalizing s with
      | nil => rfl
      | cons entry rest ih =>
        obtain ⟨path, item⟩ := entry
        cases item with
        | none =>
          simp only [List.foldl_cons, List.flatMap_cons, List.nil_append]
          exact ih s
        | some pathItem =>
          simp only [List.foldl_cons, List.flatMap_cons, List.foldl_append]
          rw [ih]
          simp only [eachPath, expectedCallsOfPath, foldl_eachMethod]

theorem length_expectedCallsOfPath (fullPath : String) (pathItem : PathItem) :
    (expectedCallsOfPath fullPath pathItem).length =
      (pathItem.Operations.filter (fun m => m.2.isSome)).length := by
  unfold expectedCallsOfPath
  induction pathItem.Operations with
  | nil => rfl
  | cons m rest ih =>
    obtain ⟨method, o⟩ := m
    cases o with
    | none => simpa using ih
    | some operation => simpa using ih

theorem length_expectedCalls (doc : Option T) (basePath : String) :
    (expectedCalls doc basePath).length = operationCount doc := by
  cases doc with
  | none => rfl
  | some d =>
    cases hp : d.Paths with
    | none => simp [expectedCalls, operationCount, hp]
    | some paths =>
      simp only [expectedCalls, operationCount, hp]
      clear hp
      induction paths with
      | nil => rfl
      | cons entry rest ih =>
        obtain ⟨path, item⟩ := entry
        cases item with
        | none => simpa using ih
        | some pathItem =>
          simp only [List.flatMap_cons, List.length_append, List.map_cons, List.sum_cons, ih,
            length_expectedCallsOfPath]

theorem mem_expectedCalls (doc : Option T) (basePath : String) (c : String × String × Op) :
    c ∈ expectedCalls doc basePath ↔
      ∃ d paths path pathItem operation, doc = some d ∧ d.Paths = some paths ∧
        (path, some pathItem) ∈ paths ∧ (c.2.1, some operation) ∈ pathItem.Operations ∧
        c.1 = pathPrefix basePath ++ path ∧
        c.2.2 = mkOp (pathPrefix basePath ++ path) c.2.1
          (pathItem.Parameters ++ operation.Parameters) operation := by
  cases doc with
  | none => simp [expectedCalls]
  | some d =>
    cases hp : d.Paths with
    | none => simp [expectedCalls, hp]
    | some paths =>
      simp only [expectedCalls, hp, List.mem_flatMap]
      constructor
      · rintro ⟨⟨path, item⟩, hmem, hc⟩
        cases item with
        | none => simp at hc
        | some pathItem =>
          simp only [expectedCallsOfPath, List.mem_filterMap] at hc
          obtain ⟨⟨method, o⟩, hm, ho⟩ := hc
          cases o with
          | none => simp at ho
          | some operation =>
            simp only [Option.map_some', Option.some.injEq] at ho
            subst ho
            exact ⟨d, paths, path, pathItem, operation, rfl, hp, hmem, hm, rfl, rfl⟩
      · rintro ⟨d2, paths2, path, pathItem, operation, hd, hpaths, hmem, hm, h1, h2⟩
        cases hd
        rw [hp] at hpaths
        cases hpaths
        refine ⟨(path, some pathItem), hmem, ?_⟩
        simp only [expectedCallsOfPath, List.mem_filterMap]
        refine ⟨(c.2.1, some operation), hm, ?_⟩
        simp only [Option.map_some', Option.some.injEq]
        obtain ⟨c1, c2, c3⟩ := c
        simp only at h1 h2
        rw [h1, h2]

theorem pathPrefix_eq (basePath : String) :
    pathPrefix basePath =
      if basePath = "" ∨ basePath.data.head? = some (Char.ofNat 47) then basePath
      else "/" ++ basePath := by
  unfold pathPrefix
  by_cases h1 : basePath = ""
  · simp [h1]
  · by_cases h2 : basePath.data.head? = some (Char.ofNat 47)
    · simp [h1, h2]
    · simp [h1, h2]

end mcp

namespace mcp

theorem foldl_recordCall :
    ∀ (l init : List (String × String × Op)),
      l.foldl (fun s c => recordCall c.1 c.2.1 c.2.2 s) init = init ++ l := by
  intro l
  induction l with
  | nil => intro init; simp
  | cons c rest ih =>
    intro init
    rw [List.foldl_cons, ih]
    simp only [recordCall, List.append_assoc, List.singleton_append]

end mcp

open mcp in
/-- C19: `EachOperation` makes exactly the calls of `expectedCalls`, in order: none when
the document or its paths are nil, and otherwise one for each non-nil operation of each
non-nil path item, so as many as there are such operations; every call passes the document
path behind the base path, to which a leading slash is added when it is not empty and has
none, the same path and the operation's method in the `Op`, and as parameters the path
item's followed by the operation's own. -/
theorem each_operation_contract {σ : Type} (doc : Option T) (basePath : String)
    (fn : String → String → Op → σ → σ) (s : σ) :
    EachOperation doc basePath fn s =
      (expectedCalls doc basePath).foldl (fun s c => fn c.1 c.2.1 c.2.2 s) s ∧
    EachOperation none basePath fn s = s ∧
    EachOperation (some { Paths := none }) basePath fn s = s ∧
    EachOperation doc basePath recordCall [] = expectedCalls doc basePath ∧
    (expectedCalls doc basePath).length = operationCount doc ∧
    (∀ c, c ∈ expectedCalls doc basePath ↔
      ∃ d paths path pathItem operation, doc = some d ∧ d.Paths = some paths ∧
        (path, some pathItem) ∈ paths ∧ (c.2.1, some operation) ∈ pathItem.Operations ∧
        c.1 = pathPrefix basePath ++ path ∧
        c.2.2 = mkOp (pathPrefix basePath ++ path) c.2.1
          (pathItem.Parameters ++ operation.Parameters) operation) ∧
    (∀ c ∈ expectedCalls doc basePath, c.2.2.Path = c.1 ∧ c.2.2.Method = c.2.1) ∧
    pathPrefix basePath =
      (if basePath = "" ∨ basePath.data.head? = some (Char.ofNat 47) then basePath
        else "/" ++ basePath) := by
  refine ⟨eachOperation_eq_foldl doc basePath fn s, rfl, rfl, ?_,
    length_expectedCalls doc basePath, mem_expectedCalls doc basePath, ?_,
    pathPrefix_eq basePath⟩
  · rw [eachOperation_eq_foldl, foldl_recordCall, List.nil_append]
  · intro c hc
    obtain ⟨d, paths, path, pathItem, operation, _, _, _, _, h1, h2⟩ :=
      (mem_expectedCalls doc basePath c).mp hc
    rw [h2, h1]
    exact ⟨rfl, rfl⟩

open mcp in
/-- The example document under the base path `v1`: two calls, for the two non-nil
operations, with the parameters of the path item before those of the operation. -/
theorem each_operation_contract_witness :
    (("/v1/customers", "POST", mkOp "/v1/customers" "POST" [] (exampleOperation "" [])) ∈
        expectedCalls (some exampleDoc) "v1" ∧
      (mkOp "/v1/customers" "POST" [] (exampleOperation "" [])).Path = "/v1/customers" ∧
      (mkOp "/v1/customers" "POST" [] (exampleOperation "" [])).Method = "POST") ∧
    EachOperation (some exampleDoc) "v1" recordCall [] =
      [("/v1/addons/\x7bid\x7d", "GET",
          mkOp "/v1/addons/\x7bid\x7d" "GET"
            [exampleParam "id" "path", exampleParam "expand" "query"]
            (exampleOperation "getAddon" [exampleParam "expand" "query"])),
        ("/v1/customers", "POST", mkOp "/v1/customers" "POST" [] (exampleOperation "" []))] ∧
    operationCount (some exampleDoc) = 2 :=
  ⟨⟨by decide,
      (each_operation_contract (some exampleDoc) "v1" recordCall []).2.2.2.2.2.2.1
        ("/v1/customers", "POST", mkOp "/v1/customers" "POST" [] (exampleOperation "" []))
        (by decide)⟩,
    by decide, by decide⟩

/-! ### The MCP adapter: the server -/

namespace mcp

theorem keys_foldl_mapSet {γ β : Type} (k : γ → String) (v : γ → β) :
    ∀ (l : List γ) (s0 : List (String × β)), (s0.map Prod.fst ++ l.map k).Nodup →
      (l.foldl (fun s c => mapSet s (k c) (v c)) s0).map Prod.fst =
        s0.map Prod.fst ++ l.map k := by
  intro l
  induction l with
  | nil => intro s0 _; simp
  | cons c rest ih =>
    intro s0 h
    have hk : k c ∉ s0.map Prod.fst := by
      intro hmem
      rw [List.map_cons] at h
      exact (List.nodup_append.mp h).2.2 hmem (List.mem_cons_self _ _)
    have hkeys : (mapSet s0 (k c) (v c)).map Prod.fst = s0.map Prod.fst ++ [k c] := by
      rw [keys_mapSet, if_neg hk]
    rw [List.foldl_cons, ih]
    · rw [hkeys]; simp
    · rw [hkeys]; simpa using h

theorem mem_keys_foldl_mapSet {γ β : Type} (k : γ → String) (v : γ → β) (name : String) :
    ∀ (l : List γ) (s0 : List (String × β)),
      name ∈ (l.foldl (fun s c => mapSet s (k c) (v c)) s0).map Prod.fst ↔
        name ∈ s0.map Prod.fst ∨ name ∈ l.map k := by
  intro l
  induction l with
  | nil => intro s0; simp
  | cons c rest ih =>
    intro s0
    rw [List.foldl_cons, ih, keys_mapSet]
    by_cases hk : k c ∈ s0.map Prod.fst
    · rw [if_pos hk]
      simp only [List.map_cons, List.mem_cons]
      constructor
      · rintro (h | h)
        · exact Or.inl h
        · exact Or.inr (Or.inr h)
      · rintro (h | h | h)
        · exact Or.inl h
        · exact Or.inl (h ▸ hk)
        · exact Or.inr h
    · rw [if_neg hk]
      simp only [List.map_cons, List.mem_cons, List.mem_append, List.mem_singleton]
      tauto

theorem nodup_keys_foldl_mapSet {γ β : Type} (k : γ → String) (v : γ → β) :
    ∀ (l : List γ) (s0 : List (String × β)), (s0.map Prod.fst).Nodup →
      ((l.foldl (fun s c => mapSet s (k c) (v c)) s0).map Prod.fst).Nodup := by
  intro l
  induction l with
  | nil => intro s0 h; exact h
  | cons c rest ih =>
    intro s0 h
    rw [List.foldl_cons]
    exact ih _ (nodup_keys_mapSet _ _ _ h)

theorem ToToolDef_name {α : Type} (golib : GoLib) (lib : McpLib α) (op : Op) :
    (ToToolDef golib lib op).Name = toolName golib op := rfl

theorem newServer_eq {α S : Type} (golib : GoLib) (lib : McpLib α) (sdk : Sdk S)
    (cfg : ServerConfig) (doc : T) (h : cfg.APIDoc = some doc) :
    NewServer golib lib sdk cfg =
      (some ((expectedCalls (some doc) (if cfg.BasePath = "" then "/v1" else cfg.BasePath)).foldl
        (fun server c =>
          sdk.AddTool server (toolOf (ToToolDef golib lib c.2.2))
            { baseURL := cfg.BaseURL, apiKey := cfg.APIKey
              toolDef := ToToolDef golib lib c.2.2 })
        (sdk.NewServer { Name := "flexprice", Version := "1.0" })), none) := by
  unfold NewServer
  rw [h]
  simp only [eachOperation_eq_foldl]
  rfl

end mcp

open mcp in
/-- C20 fails on the code: for a document with the two operations GET `/a-b` and GET
`/a_b`, neither with an identifier, `deriveToolName` gives both the name `get_a_b`, so
`AddTool` is called twice with that name and, under the SDK's rule that `AddTool` replaces
a tool of the same name, the server that `NewServer` returns holds one tool, not the one
per operation that the comment on `NewServer` (server.go:21) promises. -/
theorem new_server_name_collision :
    operationCount (some collidingDoc) = 2 ∧
    toolNames types.asciiLib (some collidingDoc) "/v1" = ["get_a_b", "get_a_b"] ∧
    (NewServer types.asciiLib plainLib registrySdk collidingConfig).1.map
        (fun server => server.map Prod.fst) = some ["get_a_b"] ∧
    (NewServer types.asciiLib plainLib registrySdk collidingConfig).1.map List.length =
      some 1 := by
  refine ⟨by decide, by decide, by decide, by decide⟩

open mcp in
/-- What `NewServer` does: it returns a nil server and a nil error when `cfg.APIDoc` is
nil; otherwise it returns, with a nil error, a new server named flexprice on which
`AddTool` was called once for each operation of the document, in order, under the base
path `cfg.BasePath` or `/v1` when that is empty, with the tool of the operation, which is
named by its `OperationID` or, when that is empty, by `deriveToolName` of its method and
path.  Under the SDK's rule that `AddTool` replaces a tool of the same name the server
holds exactly the tools of these names, each once; it holds one tool per operation when
the names are pairwise distinct. -/
theorem new_server_registers {α S : Type} (golib : GoLib) (lib : McpLib α) (sdk : Sdk S)
    (cfg : ServerConfig) :
    (cfg.APIDoc = none → NewServer golib lib sdk cfg = (none, none)) ∧
    (∀ doc, cfg.APIDoc = some doc →
      NewServer golib lib sdk cfg =
        (some ((expectedCalls (some doc)
            (if cfg.BasePath = "" then "/v1" else cfg.BasePath)).foldl
          (fun server c =>
            sdk.AddTool server (toolOf (ToToolDef golib lib c.2.2))
              { baseURL := cfg.BaseURL, apiKey := cfg.APIKey
                toolDef := ToToolDef golib lib c.2.2 })
          (sdk.NewServer { Name := "flexprice", Version := "1.0" })), none)) ∧
    (∀ op : Op, (toolOf (ToToolDef golib lib op)).Name =
      if op.OperationID = "" then deriveToolName golib op.Method op.Path
      else op.OperationID) ∧
    NewServer golib lib sdk { cfg with BasePath := "" } =
      NewServer golib lib sdk { cfg with BasePath := "/v1" } ∧
    (∀ doc, cfg.APIDoc = some doc →
      ∃ server, NewServer golib lib registrySdk cfg = (some server, none) ∧
        (server.map Prod.fst).Nodup ∧
        (∀ name, name ∈ server.map Prod.fst ↔
          name ∈ toolNames golib (some doc)
            (if cfg.BasePath = "" then "/v1" else cfg.BasePath)) ∧
        ((toolNames golib (some doc)
            (if cfg.BasePath = "" then "/v1" else cfg.BasePath)).Nodup →
          server.map Prod.fst =
            toolNames golib (some doc) (if cfg.BasePath = "" then "/v1" else cfg.BasePath) ∧
          server.length = operationCount (some doc))) := by
  refine ⟨?_, fun doc h => newServer_eq golib lib sdk cfg doc h, fun _ => rfl, ?_, ?_⟩
  · intro h
    unfold NewServer
    rw [h]
  · cases h : cfg.APIDoc with
    | none => simp [NewServer, h]
    | some doc =>
      simp only [NewServer, h, if_true]
      rfl
  · intro doc h
    refine ⟨_, newServer_eq golib lib registrySdk cfg doc h, ?_, ?_, ?_⟩
    · exact nodup_keys_foldl_mapSet _ _ _ _ (by simp [registrySdk])
    · intro name
      have := mem_keys_foldl_mapSet (fun c : String × String × Op => toolName golib c.2.2)
        (fun c => (toolOf (ToToolDef golib lib c.2.2),
          ({ baseURL := cfg.BaseURL, apiKey := cfg.APIKey
             toolDef := ToToolDef golib lib c.2.2 } : ToolHandler))) name
        (expectedCalls (some doc) (if cfg.BasePath = "" then "/v1" else cfg.BasePath)) []
      simpa [toolNames] using this
    · intro hnodup
      have hkeys := keys_foldl_mapSet (fun c : String × String × Op => toolName golib c.2.2)
        (fun c => (toolOf (ToToolDef golib lib c.2.2),
          ({ baseURL := cfg.BaseURL, apiKey := cfg.APIKey
             toolDef := ToToolDef golib lib c.2.2 } : ToolHandler)))
        (expectedCalls (some doc) (if cfg.BasePath = "" then "/v1" else cfg.BasePath)) []
        (by simpa [toolNames] using hnodup)
      have hkeys2 : (List.foldl
          (fun server (c : String × String × Op) =>
            registrySdk.AddTool server (toolOf (ToToolDef golib lib c.2.2))
              { baseURL := cfg.BaseURL, apiKey := cfg.APIKey
                toolDef := ToToolDef golib lib c.2.2 })
          (registrySdk.NewServer { Name := "flexprice", Version := "1.0" })
          (expectedCalls (some doc) (if cfg.BasePath = "" then "/v1" else cfg.BasePath))).map
            Prod.fst =
          toolNames golib (some doc) (if cfg.BasePath = "" then "/v1" else cfg.BasePath) := by
        simpa [toolNames] using hkeys
      refine ⟨hkeys2, ?_⟩
      have hlen := congrArg List.length hkeys2
      rw [List.length_map] at hlen
      rw [hlen, toolNames, List.length_map, length_expectedCalls]

open mcp in
/-- The example document, whose two tool names differ: the server holds the two tools, the
first named by its identifier and the second by the derived name. -/
theorem new_server_registers_witness :
    exampleConfig.APIDoc = some exampleDoc ∧
    (toolNames types.asciiLib (some exampleDoc)
      (if exampleConfig.BasePath = "" then "/v1" else exampleConfig.BasePath)).Nodup ∧
    (∃ server, NewServer types.asciiLib plainLib registrySdk exampleConfig =
        (some server, none) ∧
      server.map Prod.fst = ["getAddon", "post_customers"] ∧ server.length = 2) := by
  obtain ⟨server, h1, _, _, h2⟩ :=
    (new_server_registers types.asciiLib plainLib registrySdk exampleConfig).2.2.2.2
      exampleDoc rfl
  have hn : (toolNames types.asciiLib (some exampleDoc)
      (if exampleConfig.BasePath = "" then "/v1" else exampleConfig.BasePath)).Nodup := by
    decide
  have hv : toolNames types.asciiLib (some exampleDoc)
      (if exampleConfig.BasePath = "" then "/v1" else exampleConfig.BasePath) =
        ["getAddon", "post_customers"] := by decide
  have hc : operationCount (some exampleDoc) = 2 := by decide
  exact ⟨rfl, hn, server, h1, hv ▸ (h2 hn).1, hc ▸ (h2 hn).2⟩

/-! ### Template paths -/

namespace filepath

theorem splitSep_ne_nil (l : List Char) : splitSep l ≠ [] := by
  cases l with
  | nil => simp [splitSep]
  | cons c rest =>
    unfold splitSep
    split
    · simp
    · split <;> simp

theorem splitSep_of_no_sep (l : List Char) (h : Separator ∉ l) : splitSep l = [l] := by
  induction l with
  | nil => rfl
  | cons c rest ih =>
    have hc : IsPathSeparator c = false := by
      simp only [IsPathSeparator, decide_eq_false_iff_not]
      intro e; exact h (by simp [e])
    have hr : Separator ∉ rest := fun e => h (by simp [e])
    unfold splitSep
    simp [hc, ih hr]

theorem splitSep_append_sep (d r : List Char) :
    splitSep (d ++ Separator :: r) = splitSep d ++ splitSep r := by
  induction d with
  | nil => simp [splitSep, IsPathSeparator]
  | cons c rest ih =>
    by_cases hc : IsPathSeparator c = true
    · simp only [List.cons_append]
      rw [splitSep, if_pos hc, ih, splitSep, if_pos hc, List.cons_append]
    · simp only [List.cons_append]
      rw [splitSep, if_neg hc, ih, splitSep, if_neg hc]
      cases hs : splitSep rest with
      | nil => exact absurd hs (splitSep_ne_nil rest)
      | cons p ps => simp

theorem intercalate_cons_cons (sep a b : List Char) (rest : List (List Char)) :
    List.intercalate sep (a :: b :: rest) = a ++ sep ++ List.intercalate sep (b :: rest) := by
  simp [List.intercalate, List.intersperse]

theorem splitSep_intercalate (st : List (List Char)) (hne : st ≠ [])
    (h : ∀ e ∈ st, Separator ∉ e) : splitSep (List.intercalate [Separator] st) = st := by
  induction st with
  | nil => exact absurd rfl hne
  | cons a rest ih =>
    cases rest with
    | nil =>
      have : List.intercalate [Separator] [a] = a := by simp [List.intercalate]
      rw [this]
      exact splitSep_of_no_sep a (h a (by simp))
    | cons b rest2 =>
      rw [intercalate_cons_cons, List.append_assoc, List.singleton_append, splitSep_append_sep,
        splitSep_of_no_sep a (h a (by simp)), ih (by simp) (fun e he => h e (by simp [he]))]
      rfl

end filepath

namespace filepath

theorem isElem_dotdot : IsElem ".." := ⟨by decide, by decide, by decide⟩

theorem splitSep_no_sep (l : List Char) : ∀ p ∈ splitSep l, Separator ∉ p := by
  induction l with
  | nil => intro p hp; simp [splitSep] at hp; simp [hp]
  | cons c rest ih =>
    intro p hp
    by_cases hc : IsPathSeparator c = true
    · rw [splitSep, if_pos hc] at hp
      rcases List.mem_cons.mp hp with h | h
      · simp [h]
      · exact ih p h
    · rw [splitSep, if_neg hc] at hp
      have hcs : c ≠ Separator := by
        intro e; exact hc (by simp [IsPathSeparator, e])
      cases hs : splitSep rest with
      | nil => exact absurd hs (splitSep_ne_nil rest)
      | cons q qs =>
        rw [hs] at hp ih
        simp only at hp
        rcases List.mem_cons.mp hp with h | h
        · rw [h]
          intro hm
          rcases List.mem_cons.mp hm with h2 | h2
          · exact hcs h2.symm
          · exact ih q (by simp) h2
        · exact ih p (by simp [h])

theorem cleanStep_canon (r : Bool) (kept : List String) (e : String)
    (hk : canonRev r kept) (he : Separator ∉ e.data) : canonRev r (cleanStep r kept e) := by
  unfold cleanStep
  by_cases h1 : e = "" ∨ e = "."
  · rw [if_pos h1]; exact hk
  · rw [if_neg h1]
    by_cases h2 : e = ".."
    · rw [if_pos h2]
      cases kept with
      | nil =>
        cases r with
        | true => simp [canonRev]
        | false => simp [canonRev, isElem_dotdot]
      | cons top below =>
        simp only
        by_cases h3 : top = ".."
        · rw [if_pos h3]
          refine ⟨isElem_dotdot, hk, fun _ => ⟨(hk.2.2 h3).1, Or.inr (by simp [h3])⟩⟩
        · rw [if_neg h3]
          exact hk.2.1
    · rw [if_neg h2]
      push_neg at h1
      exact ⟨⟨h1.1, h1.2, he⟩, hk, fun h => absurd h h2⟩

theorem foldl_cleanStep_canon (r : Bool) :
    ∀ (pieces : List String) (kept : List String), canonRev r kept →
      (∀ e ∈ pieces, Separator ∉ e.data) → canonRev r (pieces.foldl (cleanStep r) kept) := by
  intro pieces
  induction pieces with
  | nil => intro kept hk _; exact hk
  | cons e rest ih =>
    intro kept hk he
    rw [List.foldl_cons]
    exact ih _ (cleanStep_canon r kept e hk (he e (by simp)))
      (fun x hx => he x (by simp [hx]))

theorem elements_canon (path : String) : canonRev (rooted path) (elements path).reverse := by
  unfold elements
  rw [List.reverse_reverse]
  apply foldl_cleanStep_canon (rooted path) _ [] (by simp [canonRev])
  intro e he
  obtain ⟨p, hp, rfl⟩ := List.mem_map.mp he
  exact splitSep_no_sep _ p hp

theorem cleanStep_of_canon (r : Bool) (top : String) (below : List String)
    (h : canonRev r (top :: below)) : cleanStep r below top = top :: below := by
  unfold cleanStep
  have h1 : ¬ (top = "" ∨ top = ".") := by
    rintro (e | e)
    · exact h.1.1 e
    · exact h.1.2.1 e
  rw [if_neg h1]
  by_cases h2 : top = ".."
  · rw [if_pos h2]
    obtain ⟨hr, hb⟩ := h.2.2 h2
    cases below with
    | nil => simp [hr, h2]
    | cons t b =>
      rcases hb with hb | hb
      · cases hb
      · have ht : t = ".." := by simpa using hb
        simp [ht, h2]
  · rw [if_neg h2]

theorem foldl_cleanStep_reverse (r : Bool) :
    ∀ kept : List String, canonRev r kept → kept.reverse.foldl (cleanStep r) [] = kept := by
  intro kept
  induction kept with
  | nil => intro _; rfl
  | cons top below ih =>
    intro h
    rw [List.reverse_cons, List.foldl_append, ih h.2.1, List.foldl_cons, List.foldl_nil]
    exact cleanStep_of_canon r top below h

end filepath

namespace filepath

theorem canonRev_isElem (r : Bool) :
    ∀ kept : List String, canonRev r kept → ∀ e ∈ kept, IsElem e := by
  intro kept
  induction kept with
  | nil => intro _ e he; cases he
  | cons top below ih =>
    intro h e he
    rcases List.mem_cons.mp he with h1 | h1
    · rw [h1]; exact h.1
    · exact ih h.2.1 e h1

theorem intercalate_cons_prefix (sep a : List Char) (rest : List (List Char)) :
    ∃ tail, List.intercalate sep (a :: rest) = a ++ tail := by
  cases rest with
  | nil => exact ⟨[], by simp [List.intercalate]⟩
  | cons b rest2 =>
    exact ⟨sep ++ List.intercalate sep (b :: rest2), by
      rw [intercalate_cons_cons, List.append_assoc]⟩

theorem mk_ne_empty (c : Char) (l : List Char) : String.mk (c :: l) ≠ "" := by
  intro h
  have := congrArg String.data h
  simp at this

theorem map_mk_map_data (st : List String) : (st.map String.data).map String.mk = st := by
  induction st with
  | nil => rfl
  | cons a rest ih => simp [ih]

/-- Cleaning writes a path that reads back as the elements it was written from. -/
theorem joinElements_spec (r : Bool) (st : List String) (h : canonRev r st.reverse) :
    rooted (joinElements r st) = r ∧ elements (joinElements r st) = st := by
  cases st with
  | nil =>
    cases r with
    | true => exact ⟨by decide, by decide⟩
    | false => exact ⟨by decide, by decide⟩
  | cons a rest =>
    have hel : ∀ e ∈ a :: rest, IsElem e := by
      intro e he
      exact canonRev_isElem r _ h e (List.mem_reverse.mpr he)
    have ha := hel a (by simp)
    obtain ⟨c, t, hct⟩ : ∃ c t, a.data = c :: t := by
      cases hd : a.data with
      | nil => exact absurd (String.ext hd) ha.1
      | cons c t => exact ⟨c, t, rfl⟩
    have hc : IsPathSeparator c = false := by
      simp only [IsPathSeparator, decide_eq_false_iff_not]
      intro e
      exact ha.2.2 (by rw [hct, e]; simp)
    obtain ⟨tail, htail⟩ := intercalate_cons_prefix [Separator] a.data (rest.map String.data)
    have hJ : strings.Join (a :: rest) (String.singleton Separator) =
        String.mk (List.intercalate [Separator] ((a :: rest).map String.data)) := rfl
    have hsplit : splitSep (List.intercalate [Separator] ((a :: rest).map String.data)) =
        (a :: rest).map String.data := by
      apply splitSep_intercalate _ (by simp)
      intro e he
      obtain ⟨x, hx, rfl⟩ := List.mem_map.mp he
      exact (hel x hx).2.2
    have hfold : (a :: rest).foldl (cleanStep r) [] = (a :: rest).reverse := by
      have := foldl_cleanStep_reverse r (a :: rest).reverse h
      rwa [List.reverse_reverse] at this
    have hhead : List.intercalate [Separator] ((a :: rest).map String.data) = c :: (t ++ tail) := by
      rw [List.map_cons, htail, hct, List.cons_append]
    cases r with
    | false =>
      have hout : joinElements false (a :: rest) =
          String.mk (List.intercalate [Separator] ((a :: rest).map String.data)) := by
        unfold joinElements
        simp only [Bool.false_eq_true, if_false, hJ]
        have he : ("" : String) ++ String.mk (List.intercalate [Separator]
            ((a :: rest).map String.data)) =
            String.mk (List.intercalate [Separator] ((a :: rest).map String.data)) := by
          apply String.ext; simp
        rw [he, hhead, if_neg (mk_ne_empty c _)]
      have hr : rooted (joinElements false (a :: rest)) = false := by
        rw [hout, hhead]
        simp [rooted, hc]
      refine ⟨hr, ?_⟩
      unfold elements
      rw [hr, hout]
      simp only
      rw [hsplit, map_mk_map_data, hfold, List.reverse_reverse]
    | true =>
      have hout : joinElements true (a :: rest) =
          String.mk (Separator ::
            List.intercalate [Separator] ((a :: rest).map String.data)) := by
        unfold joinElements
        simp only [if_true, hJ]
        have he : String.singleton Separator ++ String.mk (List.intercalate [Separator]
            ((a :: rest).map String.data)) =
            String.mk (Separator ::
              List.intercalate [Separator] ((a :: rest).map String.data)) := by
          apply String.ext; simp [String.singleton]
        rw [he, if_neg (mk_ne_empty Separator _)]
      have hr : rooted (joinElements true (a :: rest)) = true := by
        rw [hout]
        simp [rooted, IsPathSeparator]
      refine ⟨hr, ?_⟩
      unfold elements
      rw [hr, hout]
      simp only
      have hs : splitSep (Separator ::
          List.intercalate [Separator] ((a :: rest).map String.data)) =
          [] :: (a :: rest).map String.data := by
        rw [splitSep, if_pos (by simp [IsPathSeparator]), hsplit]
      rw [hs, List.map_cons, map_mk_map_data, List.foldl_cons]
      have h0 : cleanStep true [] (String.mk []) = [] := by decide
      rw [h0, hfold, List.reverse_reverse]

theorem rooted_Clean (path : String) : rooted (Clean path) = rooted path :=
  (joinElements_spec (rooted path) (elements path) (elements_canon path)).1

theorem elements_Clean (path : String) : elements (Clean path) = elements path :=
  (joinElements_spec (rooted path) (elements path) (elements_canon path)).2

end filepath

namespace filepath

theorem elements_append_elem (dir b : String) (hd : dir ≠ "") (hb : IsElem b)
    (hb2 : b ≠ "..") :
    rooted (String.mk (dir.data ++ Separator :: b.data)) = rooted dir ∧
      elements (String.mk (dir.data ++ Separator :: b.data)) = elements dir ++ [b] := by
  obtain ⟨c, t, hct⟩ : ∃ c t, dir.data = c :: t := by
    cases h : dir.data with
    | nil => exact absurd (String.ext h) hd
    | cons c t => exact ⟨c, t, rfl⟩
  have hr : rooted (String.mk (dir.data ++ Separator :: b.data)) = rooted dir := by
    simp [rooted, hct]
  refine ⟨hr, ?_⟩
  unfold elements
  rw [hr]
  simp only
  rw [splitSep_append_sep, splitSep_of_no_sep b.data hb.2.2, List.map_append, List.foldl_append,
    List.map_cons, List.map_nil, List.foldl_cons, List.foldl_nil]
  have hmk : String.mk b.data = b := rfl
  rw [hmk]
  have hstep : ∀ kept, cleanStep (rooted dir) kept b = b :: kept := by
    intro kept
    unfold cleanStep
    have h1 : ¬ (b = "" ∨ b = ".") := by
      rintro (e | e)
      · exact hb.1 e
      · exact hb.2.1 e
    rw [if_neg h1, if_neg hb2]
  rw [hstep, List.reverse_cons]

theorem mem_rtakeWhile {α : Type} (p : α → Bool) (l : List α) :
    ∀ x ∈ l.rtakeWhile p, p x = true := by
  intro x hx
  unfold List.rtakeWhile at hx
  exact List.mem_takeWhile_imp (List.mem_reverse.mp hx)

theorem Base_isElem (name : String) (h1 : Base name ≠ ".") (h3 : Base name ≠ "/") :
    IsElem (Base name) := by
  unfold Base at h1 h3 ⊢
  by_cases hn : name = ""
  · rw [if_pos hn] at h1
    exact absurd rfl h1
  · rw [if_neg hn] at h1 h3 ⊢
    simp only at h1 h3 ⊢
    by_cases hl : (name.data.rdropWhile IsPathSeparator).rtakeWhile
        (fun c => !IsPathSeparator c) = []
    · rw [if_pos hl] at h3
      exact absurd rfl h3
    · rw [if_neg hl] at h1 ⊢
      refine ⟨?_, h1, ?_⟩
      · intro e
        exact hl (congrArg String.data e)
      · intro hm
        have := mem_rtakeWhile _ _ Separator hm
        simp [IsPathSeparator] at this

end filepath

namespace typst

/-- For every template name whose last element is a name, `CompileTemplate` resolves an
entry directly inside the template directory, whatever that directory is: only a last
element that is a dot, a double dot or a separator resolves elsewhere. -/
theorem templatePath_directlyInside (c : compiler) (templateName : String)
    (h1 : filepath.Base templateName ≠ ".") (h2 : filepath.Base templateName ≠ "..")
    (h3 : filepath.Base templateName ≠ "/") :
    directlyInside c.templateDir (templatePath c templateName) = true := by
  have hb := filepath.Base_isElem templateName h1 h3
  have key : filepath.rooted (templatePath c templateName) = filepath.rooted c.templateDir ∧
      filepath.elements (templatePath c templateName) =
        filepath.elements c.templateDir ++ [filepath.Base templateName] := by
    unfold templatePath filepath.Join
    by_cases hd : c.templateDir = ""
    · have hdw : List.dropWhile (fun e => decide (e = ""))
          [c.templateDir, filepath.Base templateName] = [filepath.Base templateName] := by
        simp [List.dropWhile, hd, hb.1]
      rw [hdw]
      simp only
      have hj : strings.Join [filepath.Base templateName]
          (String.singleton filepath.Separator) = filepath.Base templateName := by
        apply String.ext
        simp [strings.Join, List.intercalate]
      rw [hj, filepath.rooted_Clean, filepath.elements_Clean, hd]
      have hsplit := filepath.splitSep_of_no_sep _ hb.2.2
      obtain ⟨ch, t, hct⟩ : ∃ ch t, (filepath.Base templateName).data = ch :: t := by
        cases h : (filepath.Base templateName).data with
        | nil => exact absurd (String.ext h) hb.1
        | cons ch t => exact ⟨ch, t, rfl⟩
      have hch : filepath.IsPathSeparator ch = false := by
        simp only [filepath.IsPathSeparator, decide_eq_false_iff_not]
        intro e
        exact hb.2.2 (by rw [hct, e]; simp)
      have hr : filepath.rooted (filepath.Base templateName) = false := by
        simp [filepath.rooted, hct, hch]
      refine ⟨by rw [hr]; rfl, ?_⟩
      unfold filepath.elements
      rw [hr, hsplit]
      have h0 : ¬ (filepath.Base templateName = "" ∨ filepath.Base templateName = ".") := by
        rintro (e | e)
        · exact hb.1 e
        · exact hb.2.1 e
      have hmk : String.mk (filepath.Base templateName).data = filepath.Base templateName :=
        rfl
      simp [filepath.cleanStep, filepath.splitSep, h0, h2, hmk]
    · have hdw : List.dropWhile (fun e => decide (e = ""))
          [c.templateDir, filepath.Base templateName] =
          [c.templateDir, filepath.Base templateName] := by
        simp [List.dropWhile, hd]
      rw [hdw]
      simp only
      have hj : strings.Join [c.templateDir, filepath.Base templateName]
          (String.singleton filepath.Separator) =
          String.mk (c.templateDir.data ++
            filepath.Separator :: (filepath.Base templateName).data) := by
        apply String.ext
        simp [strings.Join, List.intercalate, String.singleton]
      rw [hj, filepath.rooted_Clean, filepath.elements_Clean]
      exact filepath.elements_append_elem c.templateDir _ hd hb h2
  unfold directlyInside
  rw [key.1, key.2]
  simp [h2]

end typst

open typst in
/-- C21 fails on the code: for the template name that is a double dot, `filepath.Base`
returns the double dot, and the path `CompileTemplate` resolves under the default template
directory is `assets`, the parent of that directory and no entry inside it; when that path
exists, no template-not-found error is returned and the path is the input file given to the
typst binary.  A name in a template directory resolves inside it, and a name behind parent
directories is cut to its last element. -/
theorem compile_template_resolves_parent :
    filepath.Base ".." = ".." ∧
    templatePath (DefaultCompiler "/tmp") ".." = "assets" ∧
    directlyInside (DefaultCompiler "/tmp").templateDir
      (templatePath (DefaultCompiler "/tmp") "..") = false ∧
    exampleOS.StatNotExist (templatePath (DefaultCompiler "/tmp") "..") = false ∧
    compileArgs (DefaultCompiler "/tmp")
        (templateOpts (templatePath (DefaultCompiler "/tmp") "..") "/tmp/typst-0.json" [])
        "/tmp/typst-0.pdf" =
      ["compile", "--root", "/", "--font-path", "assets/fonts", "--input",
        "path=/tmp/typst-0.json", "assets", "/tmp/typst-0.pdf"] ∧
    CompileTemplate exampleOS (DefaultCompiler "/tmp") ".." "" [] = .ok "/tmp/typst-0.pdf" ∧
    templatePath (DefaultCompiler "/tmp") "invoice.typ" =
      "assets/typst-templates/invoice.typ" ∧
    directlyInside (DefaultCompiler "/tmp").templateDir
      (templatePath (DefaultCompiler "/tmp") "invoice.typ") = true ∧
    templatePath (DefaultCompiler "/tmp") "../../etc/passwd" =
      "assets/typst-templates/passwd" := by
  refine ⟨by decide, by decide, by decide, rfl, by decide, ?_, by decide, by decide, by decide⟩
  rfl
